import Mathlib

/- Restore kernel-visible reducibility of the basic `Rat` operations so
that concrete scenarios can be evaluated by `decide`. -/
attribute [local semireducible] Rat.add Rat.mul Rat.inv Rat.sub Rat.ofScientific

/-!
Verification development for the phys-js 2D physics step engine.

The JavaScript sources are embedded shallowly:

* JavaScript numbers are modelled as exact rationals (`ℚ`).  The engine's
  arithmetic on finite values (add, sub, mul, compare) is translated
  literally; the only places where the source can produce a non-finite
  number are the divisions building a bullet's `equationCoefs`, which are
  modelled by `jsDiv : ℚ → ℚ → Option ℚ` (`none` standing for the
  non-finite values `±Infinity`/`NaN`, which is exactly what the source's
  `isFinite` guards test for).
* JavaScript objects used as string-keyed dictionaries (`grid.hash`,
  `grid.pairs`, `bulletsTargets`) are modelled as association lists in
  insertion order, which matches `for..in` enumeration order for the
  non-index string keys the engine uses.  Region keys `"x:y"` are
  modelled as pairs `(x, y) : ℤ × ℤ` and pair keys `"a:b"` (with a < b)
  as ordered pairs of ids; both encodings are injective, so key equality
  coincides with the source's string-key equality.
* Bodies are JavaScript objects reached through references; ids are
  unique, so reference identity coincides with id equality and the
  embedding stores bodies by value in the world list, looks them up by
  id, and stores ids inside the grid and inside sensor records.
* `body.regionsString` is the comma-join of `body.regions`; joining
  comma-free region strings is injective, so the source's string
  comparison `regionsString != body.regionsString` is modelled as
  inequality of the region lists themselves.
-/

/-! ### Association lists (JavaScript dictionary objects) -/

/-- Lookup of a key in an association list (first matching entry, as in a
JavaScript object where keys are unique). -/
def alGet {κ α : Type} [DecidableEq κ] (l : List (κ × α)) (k : κ) : Option α :=
  (l.find? (fun e => decide (e.1 = k))).map (fun e => e.2)

/-- Assignment `obj[k] = v`: replaces the value of an existing key in
place (keeping enumeration order) or appends a new key at the end, as a
JavaScript object does. -/
def alSet {κ α : Type} [DecidableEq κ] : List (κ × α) → κ → α → List (κ × α)
  | [], k, v => [(k, v)]
  | e :: rest, k, v => if e.1 = k then (k, v) :: rest else e :: alSet rest k v

/-- Deletion `delete obj[k]`: removes the entry of a key. -/
def alErase {κ α : Type} [DecidableEq κ] (l : List (κ × α)) (k : κ) : List (κ × α) :=
  l.eraseP (fun e => decide (e.1 = k))

/-! ### Numbers -/

/-- JavaScript division producing a finite number only when the divisor is
non-zero: `x / 0` is `±Infinity` or `NaN`, both rejected by `isFinite`. -/
def jsDiv (a b : ℚ) : Option ℚ :=
  if b = 0 then none else some (a / b)

/-- The mathematical sign function used by the specification text
(`sign(0) = 0`), and by the source as `Math.sign`. -/
def qsign (q : ℚ) : ℤ :=
  if 0 < q then 1 else if q < 0 then -1 else 0

/-- `ToInt32` coercion used implicitly by the `>>` operator: truncate
toward zero, then wrap into the signed 32-bit range. -/
def jsToInt32 (q : ℚ) : ℤ :=
  (Int.tdiv q.num (q.den : ℤ) + 2 ^ 31) % 2 ^ 32 - 2 ^ 31

/-! ### Geometry -/

structure Vec where
  x : ℚ
  y : ℚ
  deriving DecidableEq, Repr

structure Bounds where
  min : Vec
  max : Vec
  deriving DecidableEq, Repr

structure Size where
  width : ℚ
  height : ℚ
  deriving DecidableEq, Repr

/-- `isOutOfRegion` from `engine.js`: a point is outside a rectangle. -/
def isOutOfRegion (v : Vec) (b : Bounds) : Bool :=
  decide (v.x < b.min.x) || decide (v.x > b.max.x) ||
  decide (v.y < b.min.y) || decide (v.y > b.max.y)

/-- Width and height of the intersection rectangle of two AABBs
(`getIntersection` from `engine.js`); either may be negative. -/
def getIntersection (a b : Bounds) : Size :=
  { width := min a.max.x b.max.x - max a.min.x b.min.x
    height := min a.max.y b.max.y - max a.min.y b.min.y }

/-! ### Regions (`grid.js`) -/

/-- A region key `"sx:sy"`, encoded as the pair of region coordinates. -/
abbrev Region := ℤ × ℤ

/-- `coordinate >> 9` from `getRegions`: 32-bit coercion followed by an
arithmetic right shift, i.e. flooring division by 512. -/
def regionCoord (q : ℚ) : ℤ :=
  Int.fdiv (jsToInt32 q) (2 ^ 9)

/-- The list `s, s+1, …, e` of integers (empty when `e < s`). -/
def intRange (s e : ℤ) : List ℤ :=
  (List.range (e + 1 - s).toNat).map (fun i => s + Int.ofNat i)

/-- `getRegions` from `grid.js`: all region keys covered by a bounding
rectangle, scanned row by row (y outer, x inner). -/
def getRegions (b : Bounds) : List Region :=
  let sx := regionCoord b.min.x
  let sy := regionCoord b.min.y
  let ex := regionCoord b.max.x
  let ey := regionCoord b.max.y
  (intRange sy ey).flatMap (fun y => (intRange sx ex).map (fun x => (x, y)))

/-! ### Bodies -/

/-- `BODIES_TYPES` from `common.js`. -/
inductive BodyType
  | staticT
  | playerT
  | bounceT
  | bulletT
  deriving DecidableEq, Repr

/-- `BOUNCE_FIXES_LIMIT` from `common.js` (same limit on both axes). -/
def BOUNCE_FIXES_LIMIT : Nat := 3

/-- Per-axis collision-fix counters of a bounce body. -/
structure FixCounts where
  x : Nat
  y : Nat
  deriving DecidableEq, Repr

structure PlayerF where
  size : Size
  normalBounds : Bounds
  moveSpeed : ℚ
  jumpDistance : ℚ
  gravity : ℚ
  jumpCoef : ℚ
  lastGroundPositionY : ℚ
  forceX : ℚ
  moveDirectionY : ℤ
  isOnGround : Bool
  jumpInitDir : ℤ
  jumpTimer : Option ℚ
  fallTimer : Option ℚ
  deriving DecidableEq, Repr

structure BounceF where
  size : Size
  normalBounds : Bounds
  force : Vec
  gravity : ℚ
  reboundSpeed : ℚ
  moveDirectionY : ℤ
  countCollisionsFix : FixCounts
  deriving DecidableEq, Repr

/-- The four precomputed line-equation coefficients of a bullet
(`a/b`, `b/a`, `c/a`, `c/b`); `none` models a non-finite value. -/
structure Coefs where
  ab : Option ℚ
  ba : Option ℚ
  ca : Option ℚ
  cb : Option ℚ
  deriving DecidableEq, Repr

structure BulletF where
  prevPosition : Vec
  force : Vec
  ownerId : Nat
  longOfLife : Option ℚ
  long : ℚ
  equationCoefs : Coefs
  deriving DecidableEq, Repr

/-- Variant payload of the four body classes. -/
inductive BodyVar
  | staticV (size : Size) (isSensor : Bool)
  | playerV (f : PlayerF)
  | bounceV (f : BounceF)
  | bulletV (f : BulletF)
  deriving DecidableEq, Repr

/-- A body of the world.  `jumpTimer = false` / `fallTimer = false` /
`longOfLife = false` are modelled as `none`; `regions = none` models a
body whose `regions` property is absent (not yet registered with the
grid). -/
structure Body where
  id : Nat
  position : Vec
  bounds : Bounds
  isUpdated : Bool
  regions : Option (List Region)
  var : BodyVar
  deriving DecidableEq, Repr

def Body.type (b : Body) : BodyType :=
  match b.var with
  | .staticV _ _ => .staticT
  | .playerV _ => .playerT
  | .bounceV _ => .bounceT
  | .bulletV _ => .bulletT

/-- `body.isSensor`: only static bodies carry the property; on the other
variants the access yields `undefined`, which is falsy. -/
def Body.isSensorB (b : Body) : Bool :=
  match b.var with
  | .staticV _ s => s
  | _ => false

/-- `body.ownerId` (bullets only; `undefined` on others never equals a
numeric id, which the embedding reflects by matching on the variant). -/
def Body.ownerIdB (b : Body) : Option Nat :=
  match b.var with
  | .bulletV f => some f.ownerId
  | _ => none

/-- `body.moveDirectionY` (players and bounce bodies; `undefined`,
modelled as 0, elsewhere — the resolution code only reads it on those
two variants). -/
def Body.moveDirY (b : Body) : ℤ :=
  match b.var with
  | .playerV f => f.moveDirectionY
  | .bounceV f => f.moveDirectionY
  | _ => 0

/-- `body.isOnGround` (players only; `undefined` is falsy elsewhere). -/
def Body.isOnGroundB (b : Body) : Bool :=
  match b.var with
  | .playerV f => f.isOnGround
  | _ => false

def Body.setRegions (b : Body) (r : Option (List Region)) : Body :=
  { b with regions := r }

def Body.setIsUpdated (b : Body) (u : Bool) : Body :=
  { b with isUpdated := u }

/-! ### Broad-phase grid (`grid.js`) -/

/-- A pair key `"a:b"` with `a < b` (`getPairId`). -/
abbrev PairKey := Nat × Nat

/-- `getPairId` from `grid.js`: order-independent key of a pair of ids. -/
def getPairId (a b : Nat) : PairKey :=
  if a < b then (a, b) else (b, a)

/-- A `grid.pairs` entry `{id, bodyA, bodyB, count}`; `bodyA`/`bodyB` are
the stored body references, kept as ids. -/
structure GPair where
  bodyA : Nat
  bodyB : Nat
  count : Nat
  deriving DecidableEq, Repr

/-- The broad-phase grid: region hash and candidate-pair registry, both
insertion-ordered dictionaries. -/
structure Grid where
  pairs : List (PairKey × GPair)
  hash : List (Region × List Nat)
  deriving DecidableEq, Repr

def emptyGrid : Grid := { pairs := [], hash := [] }

/-- The ids currently listed in `hash[r]` (an absent key reads as the
empty list; the source only iterates lists it has created). -/
def idsIn (g : Grid) (r : Region) : List Nat :=
  (alGet g.hash r).getD []

/-- `canCollide` from `grid.js`. -/
def canCollide (a b : Body) : Bool :=
  if a.type = b.type then false
  else if a.type = .bounceT && !(b.type = .staticT) then false
  else if b.type = .bounceT && !(a.type = .staticT) then false
  else if a.type = .bulletT && a.ownerIdB = some b.id then false
  else if b.type = .bulletT && b.ownerIdB = some a.id then false
  else true

/-- Resolve a stored body reference: bodies are identified by their
unique id in the world list. -/
def findBody (bodies : List Body) (id : Nat) : Option Body :=
  bodies.find? (fun b => decide (b.id = id))

/-- Insert a body into one region's hash list (`hash[region].push(body)`,
creating the list if the key is absent). -/
def hashAdd (g : Grid) (r : Region) (bid : Nat) : Grid :=
  match alGet g.hash r with
  | some l => { g with hash := alSet g.hash r (l ++ [bid]) }
  | none => { g with hash := alSet g.hash r [bid] }

/-- Splice a body out of one region's hash list (`indexOf` + `splice`;
the `removeBody` variant skips an absent key). -/
def hashRemove (g : Grid) (r : Region) (bid : Nat) : Grid :=
  match alGet g.hash r with
  | some l => { g with hash := alSet g.hash r (l.erase bid) }
  | none => g

/-- One region's inner loop of `Grid._addPairs`: for every other body in
the region's list that can collide with `body`, bump or create the pair. -/
def addPairsRegion (env : List Body) (body : Body) (g : Grid) (r : Region) : Grid :=
  (idsIn g r).foldl
    (fun g oid =>
      if oid = body.id then g
      else
        match findBody env oid with
        | none => g
        | some other =>
          if !canCollide body other then g
          else
            let pairId := getPairId body.id oid
            match alGet g.pairs pairId with
            | some p => { g with pairs := alSet g.pairs pairId { p with count := p.count + 1 } }
            | none => { g with pairs := alSet g.pairs pairId ⟨body.id, oid, 1⟩ })
    g

/-- `Grid._addPairs(body, regions)` (the call sites always pass the
region list explicitly). -/
def addPairs (env : List Body) (body : Body) (g : Grid) (regions : List Region) : Grid :=
  regions.foldl (addPairsRegion env body) g

/-- One region's inner loop of `Grid._removePairs`: decrement every pair
of `body` with a body of the region's list, deleting at count 1. -/
def removePairsRegion (bid : Nat) (g : Grid) (r : Region) : Grid :=
  (idsIn g r).foldl
    (fun g oid =>
      let pairId := getPairId bid oid
      match alGet g.pairs pairId with
      | none => g
      | some p =>
        if p.count = 1 then { g with pairs := alErase g.pairs pairId }
        else { g with pairs := alSet g.pairs pairId { p with count := p.count - 1 } })
    g

/-- `Grid._removePairs(body, regions)` (the call sites always pass the
region list explicitly). -/
def removePairs (bid : Nat) (g : Grid) (regions : List Region) : Grid :=
  regions.foldl (removePairsRegion bid) g

/-- `Grid._addBody`, parameterised by the computed region list: set the
body's regions, insert it into every region's hash list, then create the
pairs. -/
def gridAddBodyR (env : List Body) (g : Grid) (body : Body) (regions : List Region) :
    Grid × Body :=
  let body' := body.setRegions (some regions)
  let g1 := regions.foldl (fun g r => hashAdd g r body.id) g
  let g2 := addPairs env body g1 regions
  (g2, body')

/-- `Grid._addBody` as in the source (regions from the body's bounds). -/
def gridAddBody (env : List Body) (g : Grid) (body : Body) : Grid × Body :=
  gridAddBodyR env g body (getRegions body.bounds)

/-- `Grid._updateBody(body, newRegions, …)`: splice out of the regions
that disappeared, drop their pair contributions, insert into the new
regions, add their pair contributions, then store the new region list. -/
def gridUpdateBody (env : List Body) (g : Grid) (body : Body) (newRegions : List Region) :
    Grid × Body :=
  let oldRegions := body.regions.getD []
  let regionsToRemove := oldRegions.filter (fun r => !newRegions.contains r)
  let regionsToAdd := newRegions.filter (fun r => !oldRegions.contains r)
  let g1 := regionsToRemove.foldl (fun g r => hashRemove g r body.id) g
  let g2 := removePairs body.id g1 regionsToRemove
  let g3 := regionsToAdd.foldl (fun g r => hashAdd g r body.id) g2
  let g4 := addPairs env body g3 regionsToAdd
  (g4, body.setRegions (some newRegions))

/-- `Grid.removeBody`: a no-op on an unregistered body; otherwise splice
the body out of all its regions, drop its pairs, and delete its
`regions` property. -/
def gridRemoveBody (g : Grid) (body : Body) : Grid × Body :=
  match body.regions with
  | none => (g, body)
  | some regions =>
    let g1 := regions.foldl (fun g r => hashRemove g r body.id) g
    let g2 := removePairs body.id g1 regions
    (g2, body.setRegions none)

/-- One body's step of `Grid.update`: register a body that has no
regions yet; otherwise, for a non-static body whose `isUpdated` flag is
set, clear the flag (bullets stay flagged), recompute the regions and
re-index when the canonical region list changed. -/
def gridUpdateStep (env : List Body) (acc : Grid × List Body) (body : Body) :
    Grid × List Body :=
  let (g, done) := acc
  match body.regions with
  | none =>
    let (g', b') := gridAddBody env g body
    (g', done ++ [b'])
  | some oldRegions =>
    if body.type = .staticT then (g, done ++ [body])
    else if body.isUpdated then
      let body := body.setIsUpdated (decide (body.type = .bulletT))
      let newRegions := getRegions body.bounds
      if newRegions ≠ oldRegions then
        let (g', b') := gridUpdateBody env g body newRegions
        (g', done ++ [b'])
      else (g, done ++ [body])
    else (g, done ++ [body])

/-- `Grid.update(bodies)`: process every body in list order.  Returns the
updated grid together with the bodies carrying their new `regions` /
`isUpdated` fields. -/
def gridUpdate (g : Grid) (bodies : List Body) : Grid × List Body :=
  bodies.foldl (gridUpdateStep bodies) (g, [])

/-! ### Body integrators (`body/*.js`) -/

/-- Bounds of a contact body: `normalBounds` shifted by `position`
(`_updateBounds` of `player.js` / `bounce.js`). -/
def boundsFromNormal (nb : Bounds) (p : Vec) : Bounds :=
  { min := ⟨nb.min.x + p.x, nb.min.y + p.y⟩
    max := ⟨nb.max.x + p.x, nb.max.y + p.y⟩ }

/-- Bounds of a bullet: axis-aligned hull of the current and previous
positions (`_updateBounds` of `bullet.js`). -/
def bulletBoundsOf (p q : Vec) : Bounds :=
  { min := ⟨min p.x q.x, min p.y q.y⟩
    max := ⟨max p.x q.x, max p.y q.y⟩ }

/-- `Math.sqrt` on a non-negative rational, used only to accumulate a
bullet's travelled distance `long`.  The exact square root is irrational
in general and a float in the source; it is modelled by the integer
square root of the scaled numerator (exact whenever the radicand is a
perfect square).  No verified claim depends on the numeric value of
`long`. -/
def jsSqrtApprox (q : ℚ) : ℚ :=
  (Nat.sqrt (q.num.toNat * q.den) : ℚ) / (q.den : ℚ)

/-- `BodyBullet.update`: save the position into `prevPosition`, advance
by `force·delta`; with a life budget, accumulate the step length and
self-enqueue for removal (second component `true`) when the budget is
reached, skipping the bounds refresh; otherwise refresh the swept-hull
bounds. -/
def bulletUpdate (delta : ℚ) (b : Body) (f : BulletF) : Body × Bool :=
  let prev := b.position
  let moveX := f.force.x * delta
  let moveY := f.force.y * delta
  let pos : Vec := ⟨b.position.x + moveX, b.position.y + moveY⟩
  match f.longOfLife with
  | some lol =>
    let long' := f.long + jsSqrtApprox (moveX * moveX + moveY * moveY)
    if long' ≥ lol then
      ({ b with
          position := pos
          var := .bulletV { f with prevPosition := prev, long := long' } }, true)
    else
      ({ b with
          position := pos
          bounds := bulletBoundsOf pos prev
          var := .bulletV { f with prevPosition := prev, long := long' } }, false)
  | none =>
    ({ b with
        position := pos
        bounds := bulletBoundsOf pos prev
        var := .bulletV { f with prevPosition := prev } }, false)

/-- `BodyBounce.update`: per axis, advance while the fix count is below
the limit; on Y also integrate gravity and refresh `moveDirectionY`;
refresh bounds when anything moved. -/
def bounceUpdate (delta : ℚ) (b : Body) (f : BounceF) : Body :=
  let step1 :=
    if f.countCollisionsFix.x < BOUNCE_FIXES_LIMIT then
      ({ b with
          position := ⟨b.position.x + f.force.x * delta, b.position.y⟩
          isUpdated := true }, f)
    else (b, f)
  let b1 := step1.1
  let f1 := step1.2
  let step2 :=
    if f1.countCollisionsFix.y < BOUNCE_FIXES_LIMIT then
      let newForceY := f1.force.y + f.gravity * delta
      ({ b1 with
          position := ⟨b1.position.x, b1.position.y + f1.force.y * delta⟩
          isUpdated := true },
        { f1 with
            force := ⟨f1.force.x, newForceY⟩
            moveDirectionY := if newForceY > 0 then 1 else -1 })
    else (b1, f1)
  let b2 := step2.1
  let f2 := step2.2
  let b3 := { b2 with var := .bounceV f2 }
  if b3.isUpdated then { b3 with bounds := boundsFromNormal f2.normalBounds b3.position }
  else b3

/-- `BodyPlayer.update`: horizontal advance (with the on-ground re-probe
nudge), reset of `moveDirectionY`, the jump parabola when `jumpTimer` is
active, the fall parabola when airborne with an active `fallTimer`, and
a final bounds refresh when anything changed. -/
def playerUpdate (delta : ℚ) (b : Body) (f : PlayerF) : Body :=
  let step1 :=
    if f.forceX ≠ 0 then
      let b := { b with
        isUpdated := true
        position := ⟨b.position.x + f.forceX * delta, b.position.y⟩ }
      if f.isOnGround then
        ({ b with position := ⟨b.position.x, b.position.y + 1⟩ },
          { f with isOnGround := false })
      else (b, f)
    else (b, f)
  let b1 := step1.1
  let f1 := { step1.2 with moveDirectionY := 0 }
  let step2 :=
    match f1.jumpTimer with
    | some t =>
      let t' := t + delta
      let newY := f1.lastGroundPositionY + f1.gravity * (t' - f1.jumpCoef) ^ 2 - f1.jumpDistance
      ({ b1 with
          isUpdated := true
          position := ⟨b1.position.x, newY⟩ },
        { f1 with
            jumpTimer := some t'
            moveDirectionY := if t' - f1.jumpCoef > 0 then 1 else -1 })
    | none => (b1, f1)
  let b2 := step2.1
  let f2 := step2.2
  let step3 :=
    if !f2.isOnGround then
      match f2.fallTimer with
      | some t =>
        let t' := t + delta
        ({ b2 with
            isUpdated := true
            position := ⟨b2.position.x, f2.lastGroundPositionY + f2.gravity * t' ^ 2⟩ },
          { f2 with fallTimer := some t', moveDirectionY := 1 })
      | none => (b2, f2)
    else (b2, f2)
  let b3 := { step3.1 with var := .playerV step3.2 }
  if b3.isUpdated then { b3 with bounds := boundsFromNormal step3.2.normalBounds b3.position }
  else b3

/-- Stage-1 dispatch `body.update(delta, bodiesToRemove)`; the second
component signals a self-enqueue into the removal list (bullets only).
Statics are never updated (the caller skips them). -/
def bodyUpdate (delta : ℚ) (b : Body) : Body × Bool :=
  match b.var with
  | .bulletV f => bulletUpdate delta b f
  | .playerV f => (playerUpdate delta b f, false)
  | .bounceV f => (bounceUpdate delta b f, false)
  | .staticV _ _ => (b, false)

/-- `setPosition` shared by players and bounce bodies: snap the position
and set `isUpdated`, leaving the bounds stale until the next tick. -/
def bodySetPosition (p : Vec) (b : Body) : Body :=
  match b.var with
  | .playerV _ => { b with position := p, isUpdated := true }
  | .bounceV _ => { b with position := p, isUpdated := true }
  | _ => b

/-- `BodyPlayer.updateCollision`. -/
def playerUpdateCollision (corr : Vec) (f : PlayerF) : PlayerF :=
  let f1 := if corr.x ≠ 0 then { f with jumpInitDir := 0 } else f
  let f2 :=
    if corr.y < 0 then
      { f1 with isOnGround := true, jumpInitDir := 0, jumpTimer := none, fallTimer := none }
    else f1
  if corr.y > 0 then { f2 with jumpTimer := none, jumpInitDir := 0 } else f2

/-- The X-axis block of `BodyBounce.updateCollision`: while the X fix
count is at most the limit, either pin `force.x` to 0 (at exactly the
limit) or scale it, flip it when the correction opposes it, and
increment the counter. -/
def bounceUpdateCollisionX (corr : Vec) (f : BounceF) : BounceF :=
  if f.countCollisionsFix.x ≤ BOUNCE_FIXES_LIMIT then
    if f.countCollisionsFix.x = BOUNCE_FIXES_LIMIT then
      { f with force := ⟨0, f.force.y⟩ }
    else
      let fx := f.force.x * (1 / 2 - 1 / 10 * (f.countCollisionsFix.x : ℚ))
      let fx :=
        if corr.x ≠ 0 ∧ qsign corr.x ≠ qsign fx then -fx else fx
      { f with
          force := ⟨fx, f.force.y⟩
          countCollisionsFix := { f.countCollisionsFix with x := f.countCollisionsFix.x + 1 } }
  else f

/-- The Y-axis block of `BodyBounce.updateCollision`: on a floor
contact, either pin `force.y` (at exactly the limit) or decay the
rebound speed and restart upward, incrementing the counter; on a
ceiling contact, flip `force.y`. -/
def bounceUpdateCollisionY (corr : Vec) (f1 : BounceF) : BounceF :=
  if corr.y ≠ 0 ∧ f1.countCollisionsFix.y ≤ BOUNCE_FIXES_LIMIT then
    let f2 :=
      if corr.y < 0 then
        if f1.countCollisionsFix.y = BOUNCE_FIXES_LIMIT then
          { f1 with force := ⟨f1.force.x, 0⟩, moveDirectionY := 0 }
        else
          let rs := f1.reboundSpeed * (1 / 2 - 3 / 20 * (f1.countCollisionsFix.y : ℚ))
          { f1 with
              reboundSpeed := rs
              force := ⟨f1.force.x, rs⟩
              countCollisionsFix := { f1.countCollisionsFix with y := f1.countCollisionsFix.y + 1 } }
      else f1
    if corr.y > 0 then { f2 with force := ⟨f2.force.x, -f2.force.y⟩ } else f2
  else f1

/-- `BodyBounce.updateCollision`: the X-axis block followed by the
Y-axis block. -/
def bounceUpdateCollision (corr : Vec) (f : BounceF) : BounceF :=
  bounceUpdateCollisionY corr (bounceUpdateCollisionX corr f)

/-- Stage-5 dispatch `resolvedBody.updateCollision(correction)`; only
players and bounce bodies ever reach it. -/
def bodyUpdateCollision (corr : Vec) (b : Body) : Body :=
  match b.var with
  | .playerV f => { b with var := .playerV (playerUpdateCollision corr f) }
  | .bounceV f => { b with var := .bounceV (bounceUpdateCollision corr f) }
  | _ => b

/-- `BodyPlayer.move(dir)`. -/
def playerMove (dir : ℚ) (b : Body) : Body :=
  match b.var with
  | .playerV f =>
    let f1 := { f with forceX := f.moveSpeed * dir }
    if !f1.isOnGround ∧ dir ≠ (f1.jumpInitDir : ℚ) then
      { b with var := .playerV { f1 with jumpInitDir := 0, forceX := f1.forceX / 2 } }
    else { b with var := .playerV f1 }
  | _ => b

/-- `BodyPlayer.stop()`. -/
def playerStop (b : Body) : Body :=
  match b.var with
  | .playerV f => { b with var := .playerV { f with forceX := 0 } }
  | _ => b

/-- `BodyPlayer.jump()`: a no-op unless on the ground. -/
def playerJump (b : Body) : Body :=
  match b.var with
  | .playerV f =>
    if !f.isOnGround then b
    else
      let jumpInitDir : ℤ := if f.forceX < 0 then -1 else if f.forceX > 0 then 1 else f.jumpInitDir
      { b with var := .playerV { f with
          jumpTimer := some 0
          lastGroundPositionY := b.position.y
          jumpInitDir := jumpInitDir
          isOnGround := false } }
  | _ => b

/-! ### Body constructors -/

/-- `BodyStatic` constructor. -/
def mkStaticBody (id : Nat) (x y width height : ℚ) (isSensor : Bool) : Body :=
  { id := id
    position := ⟨x, y⟩
    bounds := ⟨⟨-(width / 2) + x, -(height / 2) + y⟩, ⟨width / 2 + x, height / 2 + y⟩⟩
    isUpdated := false
    regions := none
    var := .staticV ⟨width, height⟩ isSensor }

/-- `BodyPlayer` constructor.  `jumpCoef = Math.sqrt(jumpDistance /
gravity)` in the source; the square root is irrational in general, so
the value is received as the argument `jumpCoef` (instantiated with the
exact root in every concrete scenario of this development).  A `none`
option models an absent/falsy constructor option. -/
def mkPlayerBody (id : Nat) (x y width height : ℚ) (moveSpeedOpt jumpDistanceOpt : Option ℚ)
    (gravity jumpCoef : ℚ) : Body :=
  let moveSpeed := match moveSpeedOpt with
    | some v => if v = 0 then 2 / 5 else v / 1000
    | none => 2 / 5
  let jumpDistance := match jumpDistanceOpt with
    | some v => if v = 0 then height * (11 / 10) else v
    | none => height * (11 / 10)
  let normalBounds : Bounds := ⟨⟨-(width / 2), -(height / 2)⟩, ⟨width / 2, height / 2⟩⟩
  { id := id
    position := ⟨x, y⟩
    bounds := boundsFromNormal normalBounds ⟨x, y⟩
    isUpdated := false
    regions := none
    var := .playerV
      { size := ⟨width, height⟩
        normalBounds := normalBounds
        moveSpeed := moveSpeed
        jumpDistance := jumpDistance
        gravity := gravity
        jumpCoef := jumpCoef
        lastGroundPositionY := y
        forceX := 0
        moveDirectionY := 0
        isOnGround := false
        jumpInitDir := 0
        jumpTimer := none
        fallTimer := none } }

/-- `BodyBounce` constructor. -/
def mkBounceBody (id : Nat) (x y width height fx fy gravity : ℚ) : Body :=
  let force : Vec := ⟨fx / 1000, fy / 1000⟩
  let normalBounds : Bounds := ⟨⟨-(width / 2), -(height / 2)⟩, ⟨width / 2, height / 2⟩⟩
  { id := id
    position := ⟨x, y⟩
    bounds := boundsFromNormal normalBounds ⟨x, y⟩
    isUpdated := false
    regions := none
    var := .bounceV
      { size := ⟨width, height⟩
        normalBounds := normalBounds
        force := force
        gravity := gravity
        reboundSpeed := if force.y > 0 then -force.y else force.y
        moveDirectionY := 0
        countCollisionsFix := ⟨0, 0⟩ } }

/-- `BodyBullet` constructor, including the line-equation coefficients
`a = −force.y`, `b = force.x`, `c = x·force.y − y·force.x` and their
stored quotients (non-finite quotients become `none`). -/
def mkBulletBody (id : Nat) (x y fx fy : ℚ) (ownerIdOpt : Option Nat)
    (longOfLifeOpt : Option ℚ) : Body :=
  let force : Vec := ⟨fx / 1000, fy / 1000⟩
  let a := -force.y
  let bc := force.x
  let c := x * force.y - y * force.x
  let pos : Vec := ⟨x, y⟩
  { id := id
    position := pos
    bounds := bulletBoundsOf pos pos
    isUpdated := true
    regions := none
    var := .bulletV
      { prevPosition := pos
        force := force
        ownerId := ownerIdOpt.getD 0
        longOfLife := match longOfLifeOpt with
          | some l => if l = 0 then none else some l
          | none => none
        long := 0
        equationCoefs :=
          { ab := jsDiv a bc
            ba := jsDiv bc a
            ca := jsDiv c a
            cb := jsDiv c bc } } }

/-! ### Engine stages (`engine.js`) -/

/-- A sensor record returned to the host; bodies are carried by
reference in the source and by id here. -/
inductive Sensor
  | outWorld (body : Nat)
  | overlap (bodyA bodyB : Nat)
  | isHit (bodyBullet bodyHitted : Nat) (point : Vec)
  deriving DecidableEq, Repr

/-- The world-bounds test of stage 1; a world constructed without bounds
has infinite bounds, against which no comparison succeeds. -/
def isOutWorld (v : Vec) (worldBounds : Option Bounds) : Bool :=
  match worldBounds with
  | some b => isOutOfRegion v b
  | none => false

/-- One body's step of `updatePositions`: statics and already-queued
bodies are skipped; otherwise the body is integrated, may self-enqueue
(bullet expiry), and is queued with an `isOutWorld` sensor record when
its position left the world bounds. -/
def updatePositionsStep (delta : ℚ) (worldBounds : Option Bounds)
    (acc : List Body × List Nat × List Sensor) (body : Body) :
    List Body × List Nat × List Sensor :=
  let (done, toRemove, sensors) := acc
  if body.type = .staticT then (done ++ [body], toRemove, sensors)
  else if toRemove.contains body.id then (done ++ [body], toRemove, sensors)
  else
    let (b', enq) := bodyUpdate delta body
    let toRemove1 := if enq then toRemove ++ [b'.id] else toRemove
    if isOutWorld b'.position worldBounds then
      (done ++ [b'], toRemove1 ++ [b'.id], sensors ++ [.outWorld b'.id])
    else (done ++ [b'], toRemove1, sensors)

/-- `updatePositions` (stage 1). -/
def updatePositions (delta : ℚ) (bodies : List Body) (toRemove : List Nat)
    (worldBounds : Option Bounds) : List Body × List Nat × List Sensor :=
  bodies.foldl (updatePositionsStep delta worldBounds) ([], toRemove, [])

/-- One id's step of `removeBodies`: remove the body from the grid, then
splice it out of the world list.  A second occurrence of an id finds
nothing and is a no-op, exactly like the source acting on a reference
whose `regions` were already deleted and which was already spliced out. -/
def removeBodiesStep (acc : List Body × Grid) (rid : Nat) : List Body × Grid :=
  let (bodies, g) := acc
  match findBody bodies rid with
  | some b =>
    let g' := (gridRemoveBody g b).1
    (bodies.eraseP (fun x => decide (x.id = rid)), g')
  | none => (bodies, g)

/-- `removeBodies` (stage 2); the removal queue is cleared afterwards by
the caller taking only the returned list and grid. -/
def removeBodies (bodies : List Body) (toRemove : List Nat) (g : Grid) :
    List Body × Grid :=
  toRemove.foldl removeBodiesStep (bodies, g)

/-- A `collisions` entry `{bodyA, bodyB, intersection}`. -/
structure Collision where
  bodyA : Nat
  bodyB : Nat
  intersection : Size
  deriving DecidableEq, Repr

/-- Accumulator of the pair-classification loop of `detectCollisions`:
the `bulletsTargets` dictionary (bullet id → bullet fields and hit
targets), the contact list and the sensor records pushed so far. -/
structure DetectAcc where
  bulletsTargets : List (Nat × BulletF × List Body)
  collisions : List Collision
  sensors : List Sensor
  deriving Repr

/-- One pair's step of the classification loop of `detectCollisions`. -/
def detectPairStep (env : List Body) (acc : DetectAcc) (pr : PairKey × GPair) : DetectAcc :=
  match findBody env pr.2.bodyA, findBody env pr.2.bodyB with
  | some bodyA, some bodyB =>
    let intersection := getIntersection bodyA.bounds bodyB.bounds
    if intersection.width < 0 ∨ intersection.height < 0 then acc
    else if bodyA.isSensorB || bodyB.isSensorB then
      { acc with sensors := acc.sensors ++ [.overlap bodyA.id bodyB.id] }
    else if bodyA.type = .bulletT ∨ bodyB.type = .bulletT then
      let bodyBullet := if bodyA.type = .bulletT then bodyA else bodyB
      let bodyHitted := if bodyA.type = .bulletT then bodyB else bodyA
      match bodyBullet.var with
      | .bulletV bf =>
        match alGet acc.bulletsTargets bodyBullet.id with
        | some (bf0, targets) =>
          let bt := alSet acc.bulletsTargets bodyBullet.id (bf0, targets ++ [bodyHitted])
          { acc with bulletsTargets := bt }
        | none =>
          let bt := acc.bulletsTargets ++ [(bodyBullet.id, bf, [bodyHitted])]
          { acc with bulletsTargets := bt }
      | _ => acc
    else
      { acc with collisions := acc.collisions ++ [⟨bodyA.id, bodyB.id, intersection⟩] }
  | _, _ => acc

/-- The current best bullet intersection: point, Manhattan distance from
the bullet's previous position, and struck target.  The source starts
from `{point:(0,0), halfSumm: Infinity, target: null}`; that initial
state is modelled as `none` (any finite distance beats `Infinity`). -/
structure HitCandidate where
  point : Vec
  halfSumm : ℚ
  target : Body
  deriving DecidableEq, Repr

/-- `handlingLineIntersect`: skip if a coefficient is non-finite, compute
the crossing, reject it outside the open edge interval, and keep it if
its Manhattan distance beats the current best strictly.  `isXInput`
tells which axis the input value lies on (the source passes the axis
names). -/
def handlingLineIntersect (input : ℚ) (a b : Option ℚ)
    (minOutputValue maxOutputValue prevInput prevOutput : ℚ) (isXInput : Bool)
    (target : Body) (result : Option HitCandidate) : Option HitCandidate :=
  match a, b with
  | some a, some b =>
    let output := -a * input - b
    if output ≤ minOutputValue ∨ output ≥ maxOutputValue then result
    else
      let halfSumm := |output - prevOutput| + |input - prevInput|
      let pt : Vec := if isXInput then ⟨input, output⟩ else ⟨output, input⟩
      match result with
      | none => some ⟨pt, halfSumm, target⟩
      | some r => if halfSumm < r.halfSumm then some ⟨pt, halfSumm, target⟩ else result
  | _, _ => result

/-- The four probes of one candidate target, in source order: min-X edge,
max-X edge, min-Y edge, max-Y edge. -/
def probeTarget (bf : BulletF) (result : Option HitCandidate) (target : Body) :
    Option HitCandidate :=
  let tb := target.bounds
  let r1 := handlingLineIntersect tb.min.x bf.equationCoefs.ab bf.equationCoefs.cb
    tb.min.y tb.max.y bf.prevPosition.x bf.prevPosition.y true target result
  let r2 := handlingLineIntersect tb.max.x bf.equationCoefs.ab bf.equationCoefs.cb
    tb.min.y tb.max.y bf.prevPosition.x bf.prevPosition.y true target r1
  let r3 := handlingLineIntersect tb.min.y bf.equationCoefs.ba bf.equationCoefs.ca
    tb.min.x tb.max.x bf.prevPosition.y bf.prevPosition.x false target r2
  handlingLineIntersect tb.max.y bf.equationCoefs.ba bf.equationCoefs.ca
    tb.min.x tb.max.x bf.prevPosition.y bf.prevPosition.x false target r3

/-- The inner loop of the bullet-resolution phase: fold the probes of all
candidate targets, starting from the infinite-distance initial result. -/
def bulletHitResult (bf : BulletF) (targets : List Body) : Option HitCandidate :=
  targets.foldl (probeTarget bf) none

/-- One bullet's step of the resolution phase: no event without a
surviving target; otherwise enqueue the bullet for removal when it has
no life budget or struck a static body, and emit the `isHit` record. -/
def detectBulletStep (acc : List Nat × List Sensor) (e : Nat × BulletF × List Body) :
    List Nat × List Sensor :=
  let (toRemove, sensors) := acc
  let (bid, bf, targets) := e
  match bulletHitResult bf targets with
  | none => acc
  | some r =>
    let toRemove1 :=
      if bf.longOfLife = none ∨ r.target.type = .staticT then toRemove ++ [bid] else toRemove
    (toRemove1, sensors ++ [.isHit bid r.target.id r.point])

/-- Outputs of `detectCollisions`: ids appended to the removal queue, the
contact list, and the sensor records pushed (in push order). -/
structure DetectOut where
  removeIds : List Nat
  collisions : List Collision
  sensors : List Sensor
  deriving Repr

/-- `detectCollisions` (stage 4): classify every candidate pair, then
resolve each bullet's nearest intersection. -/
def detectCollisions (env : List Body) (broadphasePairs : List (PairKey × GPair)) : DetectOut :=
  let acc := broadphasePairs.foldl (detectPairStep env) ⟨[], [], []⟩
  let phase2 := acc.bulletsTargets.foldl detectBulletStep ([], [])
  ⟨phase2.1, acc.collisions, acc.sensors ++ phase2.2⟩

/-- One contact's step of `correctionPositions` (stage 5): compute the
correction vector with the containment / jump-through / landing-bias /
min-axis rules, orient it, and apply `updateCollision` + `setPosition`
to the resolved body. -/
def correctionStep (bodies : List Body) (col : Collision) : List Body :=
  match findBody bodies col.bodyA, findBody bodies col.bodyB with
  | some bodyA, some bodyB =>
    let resolvedBody :=
      if bodyA.type = .playerT ∨ bodyA.type = .bounceT then bodyA else bodyB
    let staticBody :=
      if bodyA.type = .playerT ∨ bodyA.type = .bounceT then bodyB else bodyA
    let cx0 := col.intersection.width
    let cy0 := col.intersection.height
    let boundsResolved := resolvedBody.bounds
    let boundsStatic := staticBody.bounds
    let containX := boundsResolved.min.x > boundsStatic.min.x ∧
      boundsResolved.max.x < boundsStatic.max.x
    let containY := boundsResolved.min.y > boundsStatic.min.y ∧
      boundsResolved.max.y < boundsStatic.max.y
    let cx1 := if containX then 0 else cx0
    let cy1 := if containY then 0 else cy0
    let flag0 := ¬containX ∧ ¬containY
    let jumpThrough := cy1 ≠ 0 ∧ resolvedBody.position.y < staticBody.position.y ∧
      resolvedBody.type = .playerT ∧ resolvedBody.moveDirY = -1 ∧ ¬resolvedBody.isOnGroundB
    let cy2 := if jumpThrough then 0 else cy1
    let flag1 := flag0 ∧ ¬jumpThrough
    let landingBias := cy2 ≠ 0 ∧ resolvedBody.position.y < staticBody.position.y ∧
      resolvedBody.moveDirY = 1 ∧ cy2 < cx1
    let cx2 := if landingBias then 0 else cx1
    let flag2 := flag1 ∧ ¬landingBias
    let cx3 := if flag2 then (if cx2 < cy2 then cx2 else 0) else cx2
    let cy3 := if flag2 then (if cx2 < cy2 then 0 else cy2) else cy2
    let cy4 := if resolvedBody.position.y < staticBody.position.y then -cy3 else cy3
    let cx4 := if resolvedBody.position.x < staticBody.position.x then -cx3 else cx3
    let correction : Vec := ⟨cx4, cy4⟩
    let resolved1 := bodyUpdateCollision correction resolvedBody
    let resolved2 := bodySetPosition
      ⟨resolved1.position.x + correction.x, resolved1.position.y + correction.y⟩ resolved1
    bodies.map (fun x => if x.id = resolvedBody.id then resolved2 else x)
  | _, _ => bodies

/-- `correctionPositions` (stage 5). -/
def correctionPositions (collisions : List Collision) (bodies : List Body) : List Body :=
  collisions.foldl correctionStep bodies

/-- `afterUpdate`'s per-body action: arm the fall timer of an airborne
player with no active jump or fall timer. -/
def afterUpdateBody (b : Body) : Body :=
  match b.var with
  | .playerV f =>
    if !f.isOnGround && f.jumpTimer = none && f.fallTimer = none then
      { b with var := .playerV { f with
          fallTimer := some 0
          lastGroundPositionY := b.position.y } }
    else b
  | _ => b

/-- `afterUpdate` (stage 6). -/
def afterUpdate (bodies : List Body) : List Body :=
  bodies.map afterUpdateBody

/-! ### The world (`world.js`) -/

/-- The physical world.  `boundsW = none` models the default infinite
bounds; the removal queue stores body references, kept as ids. -/
structure World where
  boundsW : Option Bounds
  gravity : ℚ
  bodies : List Body
  bodiesToRemove : List Nat
  broadphase : Grid
  deriving DecidableEq, Repr

/-- The `World` constructor: `gravity = 0.001`, no bodies, empty queue,
fresh grid. -/
def mkWorld (bounds : Option Bounds) : World :=
  { boundsW := bounds
    gravity := 1 / 1000
    bodies := []
    bodiesToRemove := []
    broadphase := emptyGrid }

/-- `World._update(delta)`: the five-stage pipeline plus the
`afterUpdate` post-pass; returns the stepped world and this sub-step's
sensor records. -/
def worldSubUpdate (delta : ℚ) (w : World) : World × List Sensor :=
  let s1 := updatePositions delta w.bodies w.bodiesToRemove w.boundsW
  let bodies1 := s1.1
  let toRemove1 := s1.2.1
  let sensors1 := s1.2.2
  let s2 := removeBodies bodies1 toRemove1 w.broadphase
  let s3 := gridUpdate s2.2 s2.1
  let det := detectCollisions s3.2 s3.1.pairs
  let bodies4 := correctionPositions det.collisions s3.2
  let bodies5 := afterUpdate bodies4
  ({ w with
      bodies := bodies5
      bodiesToRemove := det.removeIds
      broadphase := s3.1 }, sensors1 ++ det.sensors)

/-- The sub-step loop of `World.update`, indexed by the remaining
`stepsCount`. -/
def worldUpdateLoop : Nat → ℚ → World → List Sensor → World × List Sensor
  | 0, _, w, sensors => (w, sensors)
  | n + 1, delta, w, sensors =>
    let stepDelta := if delta < 33 then delta else (33 : ℚ)
    let delta' := if delta < 33 then delta else delta - 33
    let step := worldSubUpdate stepDelta w
    worldUpdateLoop n delta' step.1 (sensors ++ step.2)

/-- `World.update(delta)`: `Math.ceil(delta / 33)` sub-steps of at most
33 ms each, concatenating the sensor lists. -/
def worldUpdate (delta : ℚ) (w : World) : World × List Sensor :=
  worldUpdateLoop (⌈delta / 33⌉).toNat delta w []

/-- `World.removeBody`: append to the deferred removal queue. -/
def worldRemoveBody (w : World) (bid : Nat) : World :=
  { w with bodiesToRemove := w.bodiesToRemove ++ [bid] }

/-! ### Concrete scenario bodies used by counterexamples and witnesses -/

/-- A solid static block centred at (500, 0), size 100×100
(bounds x ∈ [450, 550], y ∈ [−50, 50]). -/
def cxStatic : Body := mkStaticBody 1 500 0 100 100 false

/-- A bullet at (440, 0) moving horizontally: force (5000, 0) points/s,
i.e. (5, 0) points/ms — `force.y = 0`, exactly axis-aligned motion. -/
def cxBullet : Body := mkBulletBody 2 440 0 5000 0 none none

/-- A fresh world holding the block and the horizontal bullet. -/
def cxWorld : World := { mkWorld none with bodies := [cxStatic, cxBullet] }

/-- The bullet after one 16 ms integration step: swept from (440, 0) to
(520, 0). -/
def cxBulletMoved : Body := (bodyUpdate 16 cxBullet).1

/-- A static sensor tile with bounds [0, 10] × [0, 10]. -/
def cxSensorTile : Body :=
  { mkStaticBody 1 5 5 10 10 true with regions := some [(0, 0)] }

/-- A player whose bounds [10, 20] × [0, 10] touch the sensor tile
edge-to-edge: the intersection rectangle has width exactly 0. -/
def cxTouchPlayer : Body :=
  { mkPlayerBody 2 15 5 10 10 none none (1 / 1000) 30 with regions := some [(0, 0)] }

/-- A sensor tile and an overlapping player, both unregistered: sub-step
0 registers them and reports their overlap, while the public
`update(0)` runs no sub-step at all. -/
def cxSensorWorld : World :=
  { mkWorld none with
      bodies := [mkStaticBody 1 0 0 100 100 true, mkPlayerBody 2 0 0 20 40 none none (1 / 1000) 30] }

/-! ### Accessors and candidate lists used by the theorems -/

/-- The movement vector of a bullet body (points/ms). -/
def Body.bulletForce (b : Body) : Option Vec :=
  match b.var with
  | .bulletV f => some f.force
  | _ => none

/-- The player fields of a body, when it is a player. -/
def Body.playerF (b : Body) : Option PlayerF :=
  match b.var with
  | .playerV f => some f
  | _ => none

/-- The bounce fields of a body, when it is a bounce body. -/
def Body.bounceF (b : Body) : Option BounceF :=
  match b.var with
  | .bounceV f => some f
  | _ => none

/-- The candidate produced by one probe of `handlingLineIntersect`
(ignoring the running best): `none` when the probe is skipped for a
non-finite coefficient or an out-of-interval crossing. -/
def probeCandidate (input : ℚ) (a b : Option ℚ)
    (minOutputValue maxOutputValue prevInput prevOutput : ℚ) (isXInput : Bool)
    (target : Body) : Option HitCandidate :=
  match a, b with
  | some a, some b =>
    let output := -a * input - b
    if output ≤ minOutputValue ∨ output ≥ maxOutputValue then none
    else
      some ⟨if isXInput then ⟨input, output⟩ else ⟨output, input⟩,
        |output - prevOutput| + |input - prevInput|, target⟩
  | _, _ => none

/-- The accepted crossings of one target's four AABB edges, in probe
order: min-X, max-X, min-Y, max-Y. -/
def targetCandidates (bf : BulletF) (target : Body) : List HitCandidate :=
  let tb := target.bounds
  ([probeCandidate tb.min.x bf.equationCoefs.ab bf.equationCoefs.cb
      tb.min.y tb.max.y bf.prevPosition.x bf.prevPosition.y true target,
    probeCandidate tb.max.x bf.equationCoefs.ab bf.equationCoefs.cb
      tb.min.y tb.max.y bf.prevPosition.x bf.prevPosition.y true target,
    probeCandidate tb.min.y bf.equationCoefs.ba bf.equationCoefs.ca
      tb.min.x tb.max.x bf.prevPosition.y bf.prevPosition.x false target,
    probeCandidate tb.max.y bf.equationCoefs.ba bf.equationCoefs.ca
      tb.min.x tb.max.x bf.prevPosition.y bf.prevPosition.x false target]).filterMap id

/-- All accepted crossings of a bullet over its candidate targets, in
iteration order (targets in collection order, probes in probe order). -/
def bulletCandidates (bf : BulletF) (targets : List Body) : List HitCandidate :=
  targets.flatMap (targetCandidates bf)

/-- The running-best update of the bullet resolution: keep the new
candidate only when its Manhattan distance is strictly smaller. -/
def selectStep (acc : Option HitCandidate) (c : HitCandidate) : Option HitCandidate :=
  match acc with
  | none => some c
  | some r => if c.halfSumm < r.halfSumm then some c else acc

/-! ### Reachability of world states (host-visible operations) -/

/-- The host calling a method on a body reference it holds: the body of
that id is replaced by the method's result. -/
def applyToBody (w : World) (bid : Nat) (f : Body → Body) : World :=
  { w with bodies := w.bodies.map (fun b => if b.id = bid then f b else b) }

/-- One host-visible operation on a world: body creation through the
four factory methods (`jumpCoef` standing for the irrational
`Math.sqrt(jumpDistance/gravity)`), deferred removal, the player and
bounce methods, and the public step. -/
inductive WStep : World → World → Prop
  | createStatic (w : World) (id : Nat) (x y width height : ℚ) (isSensor : Bool) :
      WStep w { w with bodies := w.bodies ++ [mkStaticBody id x y width height isSensor] }
  | createPlayer (w : World) (id : Nat) (x y width height : ℚ) (ms jd : Option ℚ)
      (jumpCoef : ℚ) :
      WStep w { w with bodies := w.bodies ++ [mkPlayerBody id x y width height ms jd w.gravity jumpCoef] }
  | createBounce (w : World) (id : Nat) (x y width height fx fy : ℚ) :
      WStep w { w with bodies := w.bodies ++ [mkBounceBody id x y width height fx fy w.gravity] }
  | createBullet (w : World) (id : Nat) (x y fx fy : ℚ) (oid : Option Nat) (lol : Option ℚ) :
      WStep w { w with bodies := w.bodies ++ [mkBulletBody id x y fx fy oid lol] }
  | removeB (w : World) (bid : Nat) : WStep w (worldRemoveBody w bid)
  | move (w : World) (bid : Nat) (dir : ℚ) : WStep w (applyToBody w bid (playerMove dir))
  | stopP (w : World) (bid : Nat) : WStep w (applyToBody w bid playerStop)
  | jumpP (w : World) (bid : Nat) : WStep w (applyToBody w bid playerJump)
  | setPos (w : World) (bid : Nat) (p : Vec) : WStep w (applyToBody w bid (bodySetPosition p))
  | update (w : World) (delta : ℚ) : WStep w (worldUpdate delta w).1

/-- A world reachable from a freshly constructed world by host-visible
operations. -/
def WorldReachable (w : World) : Prop :=
  ∃ bounds, Relation.ReflTransGen WStep (mkWorld bounds) w

/-- The C5 invariant on one body: a bounce body's per-axis fix counters
are at most the limit (vacuous on other variants). -/
def bounceCountsOK (b : Body) : Prop :=
  ∀ f, b.var = .bounceV f →
    f.countCollisionsFix.x ≤ BOUNCE_FIXES_LIMIT ∧ f.countCollisionsFix.y ≤ BOUNCE_FIXES_LIMIT

/-! ### Reachability of grid states (grid operations) -/

/-- State of the broad-phase transition system: the bodies (carrying
their `regions` fields, as in the source) together with the grid. -/
structure GridSt where
  bodies : List Body
  grid : Grid

/-- Replace the body of the given id (the source mutates the object the
grid holds a reference to). -/
def replaceBody (bodies : List Body) (b' : Body) : List Body :=
  bodies.map (fun b => if b.id = b'.id then b' else b)

/-- `canCollide` read through stored ids. -/
def canCollideIds (bodies : List Body) (a b : Nat) : Bool :=
  match findBody bodies a, findBody bodies b with
  | some x, some y => canCollide x y
  | _, _ => false

/-- One grid operation, as performed by `Grid.update` / `removeBodies`:
registration of a body with no regions, re-index of a moved body,
removal, plus the world-side operations that do not touch the grid
(adding a fresh body to the world, dropping an unregistered body, and
mutating body fields other than id / type / ownerId / regions — the only
body fields the grid operations consult). The `bounds` argument of
registration and re-index stands for the body's current bounds at the
moment the operation runs. -/
inductive GStep : GridSt → GridSt → Prop
  | create (s : GridSt) (b : Body) (hid : b.id ∉ s.bodies.map Body.id)
      (hreg : b.regions = none) :
      GStep s ⟨s.bodies ++ [b], s.grid⟩
  | add (s : GridSt) (b : Body) (bounds : Bounds) (hb : b ∈ s.bodies)
      (hunreg : b.regions = none) :
      GStep s ⟨replaceBody s.bodies (gridAddBodyR s.bodies s.grid b (getRegions bounds)).2,
        (gridAddBodyR s.bodies s.grid b (getRegions bounds)).1⟩
  | reindex (s : GridSt) (b : Body) (bounds : Bounds) (old : List Region) (hb : b ∈ s.bodies)
      (hreg : b.regions = some old) :
      GStep s ⟨replaceBody s.bodies (gridUpdateBody s.bodies s.grid b (getRegions bounds)).2,
        (gridUpdateBody s.bodies s.grid b (getRegions bounds)).1⟩
  | remove (s : GridSt) (b : Body) (hb : b ∈ s.bodies) :
      GStep s ⟨replaceBody s.bodies (gridRemoveBody s.grid b).2, (gridRemoveBody s.grid b).1⟩
  | drop (s : GridSt) (b : Body) (hb : b ∈ s.bodies) (hunreg : b.regions = none) :
      GStep s ⟨s.bodies.eraseP (fun x => decide (x.id = b.id)), s.grid⟩
  | mutate (s : GridSt) (b b' : Body) (hb : b ∈ s.bodies) (hid : b'.id = b.id)
      (hty : b'.type = b.type) (hown : b'.ownerIdB = b.ownerIdB)
      (hreg : b'.regions = b.regions) :
      GStep s ⟨replaceBody s.bodies b', s.grid⟩

/-- A grid state reachable from the empty grid with no bodies. -/
def GridReachable (s : GridSt) : Prop :=
  Relation.ReflTransGen GStep ⟨[], emptyGrid⟩ s

/-- The number of region entries of `grid.hash` in whose list both ids
appear (with hash keys unique, the number of regions in which the two
bodies co-reside). -/
def coCount (g : Grid) (a b : Nat) : Nat :=
  g.hash.countP (fun e => e.2.contains a && e.2.contains b)

/-- The C1 invariant: every pair entry counts exactly the regions its
two bodies share. -/
def pairCountsAccurate (g : Grid) : Prop :=
  ∀ k p, (k, p) ∈ g.pairs → p.count = coCount g p.bodyA p.bodyB

/-! ### Further concrete states for counterexamples and witnesses -/

/-- A mid-jump player: jumping since 0 ms, `jumpCoef = 30` (consistent
with `gravity = 0.001`, `jumpDistance = 0.9`: √(0.9/0.001) = 30),
inactive fall timer. -/
def cxJumpPlayerF : PlayerF :=
  { size := ⟨20, 40⟩
    normalBounds := ⟨⟨-10, -20⟩, ⟨10, 20⟩⟩
    moveSpeed := 2 / 5
    jumpDistance := 9 / 10
    gravity := 1 / 1000
    jumpCoef := 30
    lastGroundPositionY := 100
    forceX := 0
    moveDirectionY := -1
    isOnGround := false
    jumpInitDir := 0
    jumpTimer := some 0
    fallTimer := none }

/-- The mid-jump player as a body. -/
def cxJumpPlayer : Body :=
  { id := 7
    position := ⟨0, 100⟩
    bounds := boundsFromNormal cxJumpPlayerF.normalBounds ⟨0, 100⟩
    isUpdated := false
    regions := none
    var := .playerV cxJumpPlayerF }

/-- A bounce body as created by the factory: 20×20 at the origin,
force (0, −300) points/s, world gravity. -/
def cxBounce : Body := mkBounceBody 3 0 0 20 20 0 (-300) (1 / 1000)

/-- A world holding only the bounce body. -/
def cxBounceWorld : World := { mkWorld none with bodies := [cxBounce] }

/-! ### Proof layer for the broad-phase pair-count invariant (C1) -/

/-- Number of regions of the list `rs` in whose hash list `i` appears. -/
def coCountIn (g : Grid) (rs : List Region) (i : Nat) : Nat :=
  rs.countP (fun r => (idsIn g r).contains i)

/-- The pairs-only effect of one inner step of `Grid._removePairs`. -/
def decPair (bid : Nat) (ps : List (PairKey × GPair)) (oid : Nat) :
    List (PairKey × GPair) :=
  let pairId := getPairId bid oid
  match alGet ps pairId with
  | none => ps
  | some p =>
    if p.count = 1 then alErase ps pairId
    else alSet ps pairId { p with count := p.count - 1 }

/-- The pairs-only effect of one inner step of `Grid._addPairs`. -/
def incPair (env : List Body) (body : Body) (ps : List (PairKey × GPair))
    (oid : Nat) : List (PairKey × GPair) :=
  if oid = body.id then ps
  else
    match findBody env oid with
    | none => ps
    | some other =>
      if !canCollide body other then ps
      else
        let pairId := getPairId body.id oid
        match alGet ps pairId with
        | some p => alSet ps pairId { p with count := p.count + 1 }
        | none => alSet ps pairId ⟨body.id, oid, 1⟩

/-- Pending contribution of the unprocessed id list `todo` to the count of
the pair `p`, relative to the pivot body `bid`. -/
def pendTodo (bid : Nat) (todo : List Nat) (p : GPair) : Nat :=
  if p.bodyA = bid then todo.count p.bodyB
  else if p.bodyB = bid then todo.count p.bodyA
  else 0

/-- Pending contribution of `todo` to the count of the pair of ids `i`,
`j`, relative to the pivot `bid`. -/
def pendXY (bid : Nat) (todo : List Nat) (i j : Nat) : Nat :=
  if i = bid then todo.count j else if j = bid then todo.count i else 0

/-- Structural well-formedness of one pair entry: canonical key, distinct
bodies, and the two referenced bodies exist and can collide. -/
def pairGood (env : List Body) (k : PairKey) (p : GPair) : Prop :=
  k = getPairId p.bodyA p.bodyB ∧ p.bodyA ≠ p.bodyB ∧
  ∃ x ∈ env, ∃ y ∈ env, x.id = p.bodyA ∧ y.id = p.bodyB ∧ canCollide x y = true

/-- The inductive invariant of the broad-phase transition system.  Its
`psound` component contains the C1 property; the remaining components
are what makes it inductive. -/
structure GridWF (s : GridSt) : Prop where
  idsN : (s.bodies.map Body.id).Nodup
  hkeys : (s.grid.hash.map Prod.fst).Nodup
  hlists : ∀ e ∈ s.grid.hash, List.Nodup e.2
  howned : ∀ e ∈ s.grid.hash, ∀ i ∈ e.2, ∃ b ∈ s.bodies, b.id = i
  hmem : ∀ b ∈ s.bodies, ∀ r : Region, (b.id ∈ idsIn s.grid r ↔ r ∈ b.regions.getD [])
  rnodup : ∀ b ∈ s.bodies, (b.regions.getD []).Nodup
  pkeys : (s.grid.pairs.map Prod.fst).Nodup
  psound : ∀ k p, (k, p) ∈ s.grid.pairs →
    pairGood s.bodies k p ∧ 1 ≤ p.count ∧ p.count = coCount s.grid p.bodyA p.bodyB
  pcomplete : ∀ x ∈ s.bodies, ∀ y ∈ s.bodies, x.id ≠ y.id → canCollide x y = true →
    1 ≤ coCount s.grid x.id y.id → ∃ p, (getPairId x.id y.id, p) ∈ s.grid.pairs

/-- The removal phase shared by `Grid.removeBody` and `Grid._updateBody`:
splice `bid` out of the hash lists of `rs`, then drop its pair
contributions for those regions. -/
def remPhaseG (bid : Nat) (g : Grid) (rs : List Region) : Grid :=
  removePairs bid (rs.foldl (fun g r => hashRemove g r bid) g) rs

/-- The insertion phase shared by `Grid._addBody` and `Grid._updateBody`:
push `body` into the hash lists of `rs`, then add its pair
contributions for those regions. -/
def addPhaseG (env : List Body) (body : Body) (g : Grid) (rs : List Region) : Grid :=
  addPairs env body (rs.foldl (fun g r => hashAdd g r body.id) g) rs

/-- A static tile for the C1 witness scenario. -/
def cxGA : Body := mkStaticBody 1 5 5 10 10 false

/-- A player overlapping the tile, for the C1 witness scenario. -/
def cxGB : Body := mkPlayerBody 2 5 5 4 4 none none (1 / 1000) 30

/-- The witness grid state holding both bodies, unregistered. -/
def cxGS2 : GridSt := ⟨[cxGA, cxGB], emptyGrid⟩

/-- The witness grid state after registering the tile. -/
def cxGS3 : GridSt :=
  ⟨replaceBody cxGS2.bodies (gridAddBodyR cxGS2.bodies cxGS2.grid cxGA (getRegions cxGA.bounds)).2,
    (gridAddBodyR cxGS2.bodies cxGS2.grid cxGA (getRegions cxGA.bounds)).1⟩

/-- The witness grid state after registering both bodies: the pair of the
two ids is present with count 1. -/
def cxGS4 : GridSt :=
  ⟨replaceBody cxGS3.bodies (gridAddBodyR cxGS3.bodies cxGS3.grid cxGB (getRegions cxGB.bounds)).2,
    (gridAddBodyR cxGS3.bodies cxGS3.grid cxGB (getRegions cxGB.bounds)).1⟩


/-! ### C9 / C8: the public step versus the internal step -/

/-- `update(0)` computes `Math.ceil(0/33) = 0` sub-steps, so the loop
body never runs. -/
theorem worldUpdate_zero (w : World) : worldUpdate 0 w = (w, []) := by
  have h : ((0 : ℚ) / 33) = 0 := by norm_num
  simp [worldUpdate, h, worldUpdateLoop]

/-- C9: `World.update(0)` runs `Math.ceil(0/33) = 0` sub-steps, so it
returns an empty sensor list and leaves the world state unchanged. -/
theorem claim_c9_update_zero_noop (w : World) : worldUpdate 0 w = (w, []) := by
  have h : ((0 : ℚ) / 33) = 0 := by norm_num
  simp [worldUpdate, h, worldUpdateLoop]

/-- C8 (counterexample): at `d = 0` (which satisfies `d ≤ 33`), the
public `update` does nothing, while a direct internal sub-step runs the
whole pipeline on `cxSensorWorld`: it registers the bodies, reports the
sensor overlap and arms the player's fall timer, so the two disagree on
both the resulting state and the sensor list. -/
theorem claim_c8_counterexample :
    worldUpdate 0 cxSensorWorld ≠ worldSubUpdate 0 cxSensorWorld := by
  rw [worldUpdate_zero]
  decide

/-- C8 (amended): for every world and every delta `0 < d ≤ 33`, the
public `World.update(d)` equals a single direct invocation of the
internal `World._update(d)` — same world state and same sensor list.
(The original claim included `d = 0`, where the two differ.) -/
theorem claim_c8_amended_single_substep (w : World) (d : ℚ) (h0 : 0 < d) (h33 : d ≤ 33) :
    worldUpdate d w = worldSubUpdate d w := by
  have hc : ⌈d / 33⌉ = (1 : ℤ) := by
    rw [Int.ceil_eq_iff]
    constructor
    · push_cast
      exact div_pos h0 (by norm_num)
    · push_cast
      rw [div_le_one (show (0 : ℚ) < 33 by norm_num)]
      exact h33
  have hstep : (if d < 33 then d else (33 : ℚ)) = d := by
    rcases lt_or_eq_of_le h33 with h | h
    · simp [h]
    · simp [h]
  unfold worldUpdate
  rw [hc]
  simp [worldUpdateLoop, hstep]

/-- C8 (witness for the amended theorem): at the concrete delta 16 ms on
the concrete sensor world the public step equals the internal step. -/
theorem claim_c8_amended_witness :
    worldUpdate 16 cxSensorWorld = worldSubUpdate 16 cxSensorWorld :=
  claim_c8_amended_single_substep cxSensorWorld 16 (by norm_num) (by norm_num)

/-! ### C2: zero-area intersections in stage 4 -/

/-- C2 (counterexample): the pair of `cxSensorTile` and `cxTouchPlayer`
has an intersection rectangle of width exactly 0, yet stage 4 does not
treat it as non-colliding: the sensor overlap record is emitted. -/
theorem claim_c2_counterexample :
    (getIntersection cxSensorTile.bounds cxTouchPlayer.bounds).width = 0 ∧
    (detectCollisions [cxSensorTile, cxTouchPlayer] [((1, 2), ⟨1, 2, 1⟩)]).sensors =
      [Sensor.overlap 1 2] := by
  decide

/-- C2 (amended): stage 4 skips a candidate pair exactly when the
intersection rectangle's width or height is strictly negative; a pair
whose intersection has a strictly negative dimension contributes no
sensor record, no bullet target and no contact (a zero-area pair is
processed as colliding). -/
theorem claim_c2_amended_negative_skipped (env : List Body) (pr : PairKey × GPair)
    (rest : List (PairKey × GPair)) (a b : Body)
    (ha : findBody env pr.2.bodyA = some a) (hb : findBody env pr.2.bodyB = some b)
    (hneg : (getIntersection a.bounds b.bounds).width < 0 ∨
      (getIntersection a.bounds b.bounds).height < 0) :
    detectCollisions env (pr :: rest) = detectCollisions env rest := by
  have hstep : ∀ acc, detectPairStep env acc pr = acc := by
    intro acc
    unfold detectPairStep
    rw [ha, hb]
    simp [hneg]
  unfold detectCollisions
  rw [List.foldl_cons, hstep]

/-- C2 (witness for the amended theorem): two far-apart bodies have a
negative-width intersection, and the detection run on their pair emits
nothing. -/
theorem claim_c2_amended_witness :
    (getIntersection cxStatic.bounds cxBullet.bounds).width < 0 ∧
    detectCollisions [cxStatic, cxBullet] [((1, 2), ⟨1, 2, 1⟩)] =
      detectCollisions [cxStatic, cxBullet] [] := by
  refine ⟨by decide, ?_⟩
  exact claim_c2_amended_negative_skipped [cxStatic, cxBullet] ((1, 2), ⟨1, 2, 1⟩) []
    cxStatic cxBullet (by decide) (by decide) (Or.inl (by decide))

/-! ### C3: axis-aligned bullets -/

/-- A probe whose pair of coefficients contains a non-finite value is
skipped and leaves the running best unchanged. -/
theorem handlingLineIntersect_skip_left (input : ℚ) (b : Option ℚ)
    (minO maxO pI pO : ℚ) (isX : Bool) (t : Body) (r : Option HitCandidate) :
    handlingLineIntersect input none b minO maxO pI pO isX t r = r := by
  cases b <;> rfl

/-- A bullet whose `ab` and `ba` coefficients are both non-finite skips
all four probes of every target. -/
theorem probeTarget_skip (bf : BulletF) (hab : bf.equationCoefs.ab = none)
    (hba : bf.equationCoefs.ba = none) (r : Option HitCandidate) (t : Body) :
    probeTarget bf r t = r := by
  unfold probeTarget
  rw [hab, hba]
  rw [handlingLineIntersect_skip_left, handlingLineIntersect_skip_left,
    handlingLineIntersect_skip_left, handlingLineIntersect_skip_left]

/-- C3 (counterexample): `cxBullet` moves exactly along the X axis
(`force = (5, 0)` points/ms, so `force.y = 0`), yet one public step on
`cxWorld` emits an `isHit` record for it — its `ab`/`cb` coefficients
are finite (`0/5` and `0/5`), so the two X-edge probes run and select
the static's min-X edge at (450, 0). -/
theorem claim_c3_counterexample :
    cxBullet.bulletForce = some ⟨5, 0⟩ ∧
    Sensor.isHit 2 1 ⟨450, 0⟩ ∈ (worldUpdate 16 cxWorld).2 := by
  decide

/-- C3 (amended): only the probes whose stored coefficients are
non-finite are skipped; a bullet with exactly one zero force component
keeps two finite coefficients and can hit along the other axis.  A
bullet whose force is zero on *both* axes has all four coefficients
non-finite, every probe is skipped, and `bulletHitResult` never selects
a target, so no `isHit` record is ever produced for it. -/
theorem claim_c3_amended_stationary_never_hits (id' : Nat) (x y : ℚ) (oid : Option Nat)
    (lol : Option ℚ) (bf : BulletF)
    (hvar : (mkBulletBody id' x y 0 0 oid lol).var = .bulletV bf)
    (targets : List Body) :
    bulletHitResult bf targets = none := by
  have hab : bf.equationCoefs.ab = none := by
    have h : (mkBulletBody id' x y 0 0 oid lol).var = .bulletV bf := hvar
    unfold mkBulletBody at h
    simp only [BodyVar.bulletV.injEq] at h
    rw [← h]
    simp [jsDiv]
  have hba : bf.equationCoefs.ba = none := by
    have h : (mkBulletBody id' x y 0 0 oid lol).var = .bulletV bf := hvar
    unfold mkBulletBody at h
    simp only [BodyVar.bulletV.injEq] at h
    rw [← h]
    simp [jsDiv]
  unfold bulletHitResult
  induction targets with
  | nil => rfl
  | cons t ts ih =>
    rw [List.foldl_cons, probeTarget_skip bf hab hba]
    exact ih

/-- C3 (witness for the amended theorem): a concrete stationary bullet
with two concrete targets selects nothing. -/
theorem claim_c3_amended_witness :
    ∃ bf, (mkBulletBody 9 3 4 0 0 none none).var = .bulletV bf ∧
      bulletHitResult bf [cxStatic, cxSensorTile] = none := by
  refine ⟨_, rfl, ?_⟩
  exact claim_c3_amended_stationary_never_hits 9 3 4 none none _ rfl [cxStatic, cxSensorTile]

/-! ### C7: the player jump branch -/

/-- C7 (counterexample): for the mid-jump player `cxJumpPlayer` and
`delta = 30`, the updated `jumpTimer` equals `jumpCoef` exactly, so
`jumpTimer − jumpCoef = 0`; the source's ternary sets
`moveDirectionY = −1`, while the claimed `sign(jumpTimer − jumpCoef)`
is 0. -/
theorem claim_c7_counterexample :
    (playerUpdate 30 cxJumpPlayer cxJumpPlayerF).moveDirY = -1 ∧
    qsign (0 + 30 - cxJumpPlayerF.jumpCoef) = 0 := by
  decide

/-- C7 (amended): for every player with an active `jumpTimer = t` and an
inactive `fallTimer` (the fall branch would otherwise overwrite the
position afterwards), `update(delta)` sets `jumpTimer` to `t + delta`,
sets `position.y` to
`lastGroundPositionY + gravity·(t + delta − jumpCoef)² − jumpDistance`,
and sets `moveDirectionY` to `1` when `t + delta − jumpCoef > 0` and to
`−1` otherwise — in particular `−1`, not `sign = 0`, at the exact
apex. -/
theorem claim_c7_amended_jump_branch (b : Body) (f : PlayerF) (delta t : ℚ)
    (_hvar : b.var = .playerV f) (hjump : f.jumpTimer = some t) (hfall : f.fallTimer = none) :
    ∃ f', (playerUpdate delta b f).var = .playerV f' ∧
      f'.jumpTimer = some (t + delta) ∧
      (playerUpdate delta b f).position.y =
        f.lastGroundPositionY + f.gravity * (t + delta - f.jumpCoef) ^ 2 - f.jumpDistance ∧
      f'.moveDirectionY = if t + delta - f.jumpCoef > 0 then 1 else -1 := by
  by_cases hfx : f.forceX = 0 <;> by_cases hog : f.isOnGround = true <;>
    simp [playerUpdate, hjump, hfall, hfx, hog]

/-- C7 (witness for the amended theorem): the amended statement at the
concrete mid-jump player with `delta = 16`. -/
theorem claim_c7_amended_witness :
    ∃ f', (playerUpdate 16 cxJumpPlayer cxJumpPlayerF).var = .playerV f' ∧
      f'.jumpTimer = some (0 + 16) ∧
      (playerUpdate 16 cxJumpPlayer cxJumpPlayerF).position.y =
        cxJumpPlayerF.lastGroundPositionY +
          cxJumpPlayerF.gravity * (0 + 16 - cxJumpPlayerF.jumpCoef) ^ 2 -
          cxJumpPlayerF.jumpDistance ∧
      f'.moveDirectionY = if (0 : ℚ) + 16 - cxJumpPlayerF.jumpCoef > 0 then 1 else -1 :=
  claim_c7_amended_jump_branch cxJumpPlayer cxJumpPlayerF 16 0 rfl rfl rfl

/-! ### C10: queued bodies are not integrated in stage 1 -/

/-- A body that is static or already queued is passed through stage 1
verbatim, leaving the queue and sensors untouched. -/
theorem updatePositionsStep_skip (delta : ℚ) (wb : Option Bounds)
    (acc : List Body × List Nat × List Sensor) (x : Body)
    (h : x.type = .staticT ∨ x.id ∈ acc.2.1) :
    updatePositionsStep delta wb acc x = (acc.1 ++ [x], acc.2.1, acc.2.2) := by
  rcases acc with ⟨done, q, s⟩
  rcases h with h | h
  · simp [updatePositionsStep, h]
  · by_cases hst : x.type = .staticT
    · simp [updatePositionsStep, hst]
    · simp [updatePositionsStep, hst, h]

/-- Stage 1 only appends to the list of processed bodies. -/
theorem updatePositionsStep_done_mono (delta : ℚ) (wb : Option Bounds)
    (acc : List Body × List Nat × List Sensor) (x : Body) (y : Body)
    (h : y ∈ acc.1) : y ∈ (updatePositionsStep delta wb acc x).1 := by
  rcases acc with ⟨done, q, s⟩
  rcases hbu : bodyUpdate delta x with ⟨b', enq⟩
  by_cases hst : x.type = .staticT
  · simp [updatePositionsStep, hst]
    exact Or.inl h
  · by_cases hq : x.id ∈ q
    · simp [updatePositionsStep, hst, hq]
      exact Or.inl h
    · by_cases hout : isOutWorld b'.position wb
      · simp [updatePositionsStep, hst, hq, hbu, hout]
        exact Or.inl h
      · simp [updatePositionsStep, hst, hq, hbu, hout]
        exact Or.inl h

/-- Stage 1 only appends to the removal queue. -/
theorem updatePositionsStep_queue_mono (delta : ℚ) (wb : Option Bounds)
    (acc : List Body × List Nat × List Sensor) (x : Body) (n : Nat)
    (h : n ∈ acc.2.1) : n ∈ (updatePositionsStep delta wb acc x).2.1 := by
  rcases acc with ⟨done, q, s⟩
  rcases hbu : bodyUpdate delta x with ⟨b', enq⟩
  by_cases hst : x.type = .staticT
  · simpa [updatePositionsStep, hst] using h
  · by_cases hq : x.id ∈ q
    · simpa [updatePositionsStep, hst, hq] using h
    · by_cases hout : isOutWorld b'.position wb <;>
        cases enq <;>
        simp [updatePositionsStep, hst, hq, hbu, hout, h]

/-- Generalised induction for C10: a body already emitted, or still
pending and queued, ends up in stage 1's output list unchanged. -/
theorem updatePositions_keeps_queued_aux (delta : ℚ) (wb : Option Bounds) :
    ∀ (bodies : List Body) (done : List Body) (q : List Nat) (s : List Sensor) (b : Body),
      (b ∈ done ∨ (b ∈ bodies ∧ b.id ∈ q)) →
      b ∈ (bodies.foldl (updatePositionsStep delta wb) (done, q, s)).1 := by
  intro bodies
  induction bodies with
  | nil =>
    intro done q s b h
    rcases h with h | ⟨h, _⟩
    · simpa using h
    · cases h
  | cons x xs ih =>
    intro done q s b h
    rw [List.foldl_cons]
    rcases h with hdone | ⟨hmem, hq⟩
    · rcases hstep : updatePositionsStep delta wb (done, q, s) x with ⟨done', q', s'⟩
      apply ih
      left
      have := updatePositionsStep_done_mono delta wb (done, q, s) x b hdone
      rwa [hstep] at this
    · rcases List.mem_cons.mp hmem with rfl | hxs
      · have hsk : updatePositionsStep delta wb (done, q, s) b = (done ++ [b], q, s) :=
          updatePositionsStep_skip delta wb (done, q, s) b
            (Or.inr hq)
        rw [hsk]
        apply ih
        left
        simp
      · rcases hstep : updatePositionsStep delta wb (done, q, s) x with ⟨done', q', s'⟩
        apply ih
        right
        refine ⟨hxs, ?_⟩
        have := updatePositionsStep_queue_mono delta wb (done, q, s) x b.id hq
        rwa [hstep] at this

/-- C10: a non-static body whose id is already in `bodiesToRemove` when
a sub-step begins is skipped by stage 1 (`updatePositions`): the body
value emitted into stage 2 — where it is extracted from the world list
and the grid — is exactly the value the host left, with position, force
and timers untouched. -/
theorem claim_c10_queued_body_not_updated (delta : ℚ) (bodies : List Body)
    (toRemove : List Nat) (wb : Option Bounds) (b : Body)
    (hmem : b ∈ bodies) (hq : b.id ∈ toRemove) (_hns : b.type ≠ .staticT) :
    b ∈ (updatePositions delta bodies toRemove wb).1 :=
  updatePositions_keeps_queued_aux delta wb bodies [] toRemove [] b (Or.inr ⟨hmem, hq⟩)

/-- C10 (witness): the mid-jump player, queued for removal, passes
through stage 1 with `delta = 16` unchanged. -/
theorem claim_c10_witness :
    cxJumpPlayer ∈ (updatePositions 16 [cxJumpPlayer] [7] none).1 :=
  claim_c10_queued_body_not_updated 16 [cxJumpPlayer] [7] none cxJumpPlayer
    (by decide) (by decide) (by decide)

/-! ### C4: the removal queue after a sub-step -/

/-- Every id enqueued by one bullet-resolution step has a matching
`isHit` sensor record. -/
theorem detectBulletStep_removal_has_hit (acc : List Nat × List Sensor)
    (e : Nat × BulletF × List Body)
    (h : ∀ id' ∈ acc.1, ∃ hid pt, Sensor.isHit id' hid pt ∈ acc.2) :
    ∀ id' ∈ (detectBulletStep acc e).1,
      ∃ hid pt, Sensor.isHit id' hid pt ∈ (detectBulletStep acc e).2 := by
  rcases acc with ⟨rem, sens⟩
  rcases e with ⟨bid, bf, targets⟩
  unfold detectBulletStep
  dsimp only
  rcases bulletHitResult bf targets with _ | r
  · simpa using h
  · dsimp only
    by_cases hcond : bf.longOfLife = none ∨ r.target.type = .staticT
    · simp only [if_pos hcond]
      intro id' hid'
      rcases List.mem_append.mp hid' with hold | hnew
      · rcases h id' hold with ⟨hid, pt, hs⟩
        exact ⟨hid, pt, List.mem_append_left _ hs⟩
      · rcases List.mem_singleton.mp hnew with rfl
        exact ⟨r.target.id, r.point, List.mem_append_right _ (List.mem_singleton.mpr rfl)⟩
    · simp only [if_neg hcond]
      intro id' hid'
      rcases h id' hid' with ⟨hid, pt, hs⟩
      exact ⟨hid, pt, List.mem_append_left _ hs⟩

/-- Every id enqueued by the whole bullet-resolution phase has a
matching `isHit` sensor record. -/
theorem detect_phase2_removals (entries : List (Nat × BulletF × List Body)) :
    ∀ (acc : List Nat × List Sensor),
      (∀ id' ∈ acc.1, ∃ hid pt, Sensor.isHit id' hid pt ∈ acc.2) →
      ∀ id' ∈ (entries.foldl detectBulletStep acc).1,
        ∃ hid pt, Sensor.isHit id' hid pt ∈ (entries.foldl detectBulletStep acc).2 := by
  induction entries with
  | nil => intro acc h; simpa using h
  | cons e es ih =>
    intro acc h
    rw [List.foldl_cons]
    exact ih (detectBulletStep acc e) (detectBulletStep_removal_has_hit acc e h)

/-- Every id `detectCollisions` appends to the removal queue belongs to
a bullet that produced an `isHit` record in the same stage-4 run. -/
theorem detectCollisions_removals_have_hits (env : List Body)
    (pairs : List (PairKey × GPair)) :
    ∀ id' ∈ (detectCollisions env pairs).removeIds,
      ∃ hid pt, Sensor.isHit id' hid pt ∈ (detectCollisions env pairs).sensors := by
  unfold detectCollisions
  intro id' hid'
  rcases detect_phase2_removals _ ([], []) (by simp) id' hid' with ⟨hid, pt, hs⟩
  exact ⟨hid, pt, List.mem_append_right _ hs⟩

/-- C4 (counterexample): after one public `update(16)` on `cxWorld` —
whose single sub-step makes the bullet hit the static — the world's
`bodiesToRemove` holds the bullet's id, so the queue is *not* empty when
the step returns (neither for `update` nor for the direct `_update`). -/
theorem claim_c4_counterexample :
    (worldUpdate 16 cxWorld).1.bodiesToRemove = [2] ∧
    (worldSubUpdate 16 cxWorld).1.bodiesToRemove ≠ [] := by
  decide

/-- C4 (amended): stage 2 clears the queue, and the only later pushes
are stage 4's bullet enqueues; hence after `_update` returns,
`bodiesToRemove` holds exactly the bullets enqueued by stage 4 of that
sub-step — every id left in the queue belongs to a bullet for which an
`isHit` sensor record of the same sub-step was emitted.  The queue is
therefore empty after a step only when no bullet scored a removing hit
(the original claim said it is always empty). -/
theorem claim_c4_amended_queue_is_stage4_bullets (w : World) (delta : ℚ) (id' : Nat)
    (h : id' ∈ (worldSubUpdate delta w).1.bodiesToRemove) :
    ∃ hid pt, Sensor.isHit id' hid pt ∈ (worldSubUpdate delta w).2 := by
  unfold worldSubUpdate at h ⊢
  dsimp only at h ⊢
  rcases detectCollisions_removals_have_hits _ _ id' h with ⟨hid, pt, hs⟩
  exact ⟨hid, pt, List.mem_append_right _ hs⟩

/-- C4 (witness for the amended theorem): the bullet id left queued
after the `cxWorld` sub-step indeed has its `isHit` record among the
sub-step's sensors. -/
theorem claim_c4_amended_witness :
    ∃ hid pt, Sensor.isHit 2 hid pt ∈ (worldSubUpdate 16 cxWorld).2 :=
  claim_c4_amended_queue_is_stage4_bullets cxWorld 16 2 (by decide)

/-! ### C6: the emitted hit is the first nearest accepted crossing -/

/-- One probe equals: compute the probe's candidate, then fold it into
the running best. -/
theorem handlingLineIntersect_eq_select (input : ℚ) (a b : Option ℚ)
    (minO maxO pI pO : ℚ) (isX : Bool) (t : Body) (r : Option HitCandidate) :
    handlingLineIntersect input a b minO maxO pI pO isX t r =
      match probeCandidate input a b minO maxO pI pO isX t with
      | none => r
      | some c => selectStep r c := by
  rcases a with _ | a
  · cases b <;> rfl
  · rcases b with _ | b
    · rfl
    · unfold handlingLineIntersect probeCandidate selectStep
      dsimp only
      split
      · rfl
      · cases r <;> rfl

/-- Folding over the accepted candidates of an option list equals
folding over the options, skipping the rejected ones. -/
theorem foldl_filterMap_id {α : Type} (g : Option α → α → Option α) (l : List (Option α)) :
    ∀ r : Option α,
      (l.filterMap id).foldl g r =
        l.foldl (fun r o => match o with | none => r | some c => g r c) r := by
  induction l with
  | nil => intro r; rfl
  | cons o os ih =>
    intro r
    cases o <;> simp [List.filterMap_cons, ih]

/-- The four probes of one target equal folding the running best over
the target's accepted candidates. -/
theorem probeTarget_eq_foldl (bf : BulletF) (r : Option HitCandidate) (t : Body) :
    probeTarget bf r t = (targetCandidates bf t).foldl selectStep r := by
  unfold targetCandidates
  rw [foldl_filterMap_id]
  simp only [List.foldl_cons, List.foldl_nil]
  unfold probeTarget
  rw [handlingLineIntersect_eq_select, handlingLineIntersect_eq_select,
    handlingLineIntersect_eq_select, handlingLineIntersect_eq_select]
  repeat' split
  all_goals first | rfl | simp_all

/-- The whole bullet resolution equals folding the running best over all
accepted candidates in iteration order. -/
theorem bulletHitResult_eq_foldl (bf : BulletF) (targets : List Body) :
    bulletHitResult bf targets = (bulletCandidates bf targets).foldl selectStep none := by
  unfold bulletHitResult bulletCandidates
  generalize none = r
  induction targets generalizing r with
  | nil => rfl
  | cons t ts ih =>
    rw [List.foldl_cons, List.flatMap_cons, List.foldl_append, probeTarget_eq_foldl, ih]

/-- First-minimum property of the strict-improvement fold, starting from
a running best `a`: the result either is `a` (no candidate strictly
beat it) or is a candidate strictly better than `a`, strictly better
than everything before it and at least as good as everything after. -/
theorem selectStep_foldl_some (l : List HitCandidate) :
    ∀ (a r : HitCandidate), l.foldl selectStep (some a) = some r →
      (r = a ∧ ∀ c ∈ l, a.halfSumm ≤ c.halfSumm) ∨
      (∃ l1 l2, l = l1 ++ r :: l2 ∧ r.halfSumm < a.halfSumm ∧
        (∀ c ∈ l1, r.halfSumm < c.halfSumm) ∧ (∀ c ∈ l2, r.halfSumm ≤ c.halfSumm)) := by
  induction l with
  | nil =>
    intro a r h
    left
    exact ⟨(Option.some.inj h).symm, by simp⟩
  | cons c cs ih =>
    intro a r h
    rw [List.foldl_cons] at h
    by_cases hlt : c.halfSumm < a.halfSumm
    · have hsel : selectStep (some a) c = some c := by simp [selectStep, hlt]
      rw [hsel] at h
      rcases ih c r h with ⟨rfl, hall⟩ | ⟨l1, l2, heq, hra, h1, h2⟩
      · right
        exact ⟨[], cs, by simp, hlt, by simp, hall⟩
      · right
        refine ⟨c :: l1, l2, by rw [heq]; rfl, lt_trans hra hlt, ?_, h2⟩
        intro x hx
        rcases List.mem_cons.mp hx with rfl | hx
        · exact hra
        · exact h1 x hx
    · have hsel : selectStep (some a) c = some a := by simp [selectStep, hlt]
      rw [hsel] at h
      rcases ih a r h with ⟨rfl, hall⟩ | ⟨l1, l2, heq, hra, h1, h2⟩
      · left
        refine ⟨rfl, ?_⟩
        intro x hx
        rcases List.mem_cons.mp hx with rfl | hx
        · exact le_of_not_lt hlt
        · exact hall x hx
      · right
        refine ⟨c :: l1, l2, by rw [heq]; rfl, hra, ?_, h2⟩
        intro x hx
        rcases List.mem_cons.mp hx with rfl | hx
        · exact lt_of_lt_of_le hra (le_of_not_lt hlt)
        · exact h1 x hx

/-- First-minimum property of the strict-improvement fold from the
infinite initial best: the selected candidate occurs in the list,
strictly beats everything before it, and is at least as good as
everything after — the first minimiser of the Manhattan distance. -/
theorem selectStep_foldl_first_min (l : List HitCandidate) (r : HitCandidate)
    (h : l.foldl selectStep none = some r) :
    ∃ l1 l2, l = l1 ++ r :: l2 ∧ (∀ c ∈ l1, r.halfSumm < c.halfSumm) ∧
      (∀ c ∈ l2, r.halfSumm ≤ c.halfSumm) := by
  cases l with
  | nil => cases h
  | cons c cs =>
    rw [List.foldl_cons] at h
    have h' : cs.foldl selectStep (some c) = some r := h
    rcases selectStep_foldl_some cs c r h' with ⟨rfl, hall⟩ | ⟨l1, l2, heq, hra, h1, h2⟩
    · exact ⟨[], cs, rfl, by simp, hall⟩
    · refine ⟨c :: l1, l2, by rw [heq]; rfl, ?_, h2⟩
      intro x hx
      rcases List.mem_cons.mp hx with rfl | hx
      · exact hra
      · exact h1 x hx

/-- The pair-classification loop only ever pushes overlap records. -/
theorem detectPairStep_sensors_overlap (env : List Body) (acc : DetectAcc)
    (pr : PairKey × GPair) (h : ∀ s ∈ acc.sensors, ∃ a b, s = Sensor.overlap a b) :
    ∀ s ∈ (detectPairStep env acc pr).sensors, ∃ a b, s = Sensor.overlap a b := by
  intro s hs
  unfold detectPairStep at hs
  rcases hA : findBody env pr.2.bodyA with _ | bodyA <;> rw [hA] at hs
  · exact h s hs
  rcases hB : findBody env pr.2.bodyB with _ | bodyB <;> rw [hB] at hs
  · exact h s hs
  dsimp only at hs
  by_cases hneg : (getIntersection bodyA.bounds bodyB.bounds).width < 0 ∨
      (getIntersection bodyA.bounds bodyB.bounds).height < 0
  · rw [if_pos hneg] at hs
    exact h s hs
  rw [if_neg hneg] at hs
  by_cases hsens : (bodyA.isSensorB || bodyB.isSensorB) = true
  · rw [if_pos hsens] at hs
    dsimp only at hs
    rcases List.mem_append.mp hs with hs | hs
    · exact h s hs
    · exact ⟨_, _, List.mem_singleton.mp hs⟩
  rw [if_neg hsens] at hs
  by_cases hbul : bodyA.type = .bulletT ∨ bodyB.type = .bulletT
  · rw [if_pos hbul] at hs
    rcases hvar : (if bodyA.type = .bulletT then bodyA else bodyB).var <;>
      rw [hvar] at hs <;> try exact h s hs
    rcases halg : alGet acc.bulletsTargets (if bodyA.type = .bulletT then bodyA else bodyB).id
      with _ | e <;> rw [halg] at hs
    · exact h s hs
    · rcases e with ⟨bf0, targets⟩
      exact h s hs
  · rw [if_neg hbul] at hs
    exact h s hs

/-- All sensor records of the pair-classification phase are overlap
records. -/
theorem detect_phase1_sensors_overlap (env : List Body) (pairs : List (PairKey × GPair)) :
    ∀ (acc : DetectAcc), (∀ s ∈ acc.sensors, ∃ a b, s = Sensor.overlap a b) →
      ∀ s ∈ (pairs.foldl (detectPairStep env) acc).sensors, ∃ a b, s = Sensor.overlap a b := by
  induction pairs with
  | nil => intro acc h; exact h
  | cons pr rest ih =>
    intro acc h
    rw [List.foldl_cons]
    exact ih _ (detectPairStep_sensors_overlap env acc pr h)

/-- Provenance of an `isHit` record pushed by the bullet-resolution
phase: it comes from an entry whose `bulletHitResult` selected the
record's target and point. -/
theorem detect_phase2_hits (entries : List (Nat × BulletF × List Body)) :
    ∀ (acc : List Nat × List Sensor) (bid hid : Nat) (pt : Vec),
      Sensor.isHit bid hid pt ∈ (entries.foldl detectBulletStep acc).2 →
      Sensor.isHit bid hid pt ∈ acc.2 ∨
      ∃ bf targets r, (bid, bf, targets) ∈ entries ∧ bulletHitResult bf targets = some r ∧
        hid = r.target.id ∧ pt = r.point := by
  induction entries with
  | nil =>
    intro acc bid hid pt h
    exact Or.inl h
  | cons e es ih =>
    intro acc bid hid pt h
    rw [List.foldl_cons] at h
    rcases ih _ bid hid pt h with hacc | ⟨bf, targets, r, hentry, hres, hhid, hpt⟩
    · rcases e with ⟨bid', bf, targets⟩
      unfold detectBulletStep at hacc
      dsimp only at hacc
      rcases hres : bulletHitResult bf targets with _ | r <;> rw [hres] at hacc
      · exact Or.inl hacc
      · dsimp only at hacc
        rcases List.mem_append.mp hacc with hacc | hnew
        · exact Or.inl hacc
        · have h0 := List.mem_singleton.mp hnew
          rcases Sensor.isHit.injEq .. ▸ h0 with ⟨h4, h5, h6⟩
          exact Or.inr ⟨bf, targets, r, by rw [h4]; exact List.mem_cons_self _ _,
            hres, h5, h6⟩
    · exact Or.inr ⟨bf, targets, r, List.mem_cons_of_mem e hentry, hres, hhid, hpt⟩

/-- C6: every `isHit` record emitted by stage 4 carries the point of the
accepted AABB-edge crossing that minimises the Manhattan distance
`|Δx| + |Δy|` from the bullet's `prevPosition` over all candidate
targets and all four per-target probes, ties broken in favour of the
earlier probe (min-X, max-X, min-Y, max-Y per target, targets in
iteration order): the selected candidate strictly beats every earlier
candidate and is at least as close as every later one. -/
theorem claim_c6_hit_is_first_nearest_crossing (env : List Body)
    (pairs : List (PairKey × GPair)) (bid hid : Nat) (pt : Vec)
    (h : Sensor.isHit bid hid pt ∈ (detectCollisions env pairs).sensors) :
    ∃ bf targets r l1 l2,
      (bid, bf, targets) ∈ (pairs.foldl (detectPairStep env) ⟨[], [], []⟩).bulletsTargets ∧
      bulletHitResult bf targets = some r ∧ hid = r.target.id ∧ pt = r.point ∧
      bulletCandidates bf targets = l1 ++ r :: l2 ∧
      (∀ c ∈ l1, r.halfSumm < c.halfSumm) ∧
      (∀ c ∈ l2, r.halfSumm ≤ c.halfSumm) := by
  unfold detectCollisions at h
  dsimp only at h
  rcases List.mem_append.mp h with h1 | h2
  · rcases detect_phase1_sensors_overlap env pairs ⟨[], [], []⟩ (by simp) _ h1 with ⟨a, b, habs⟩
    cases habs
  · rcases detect_phase2_hits _ ([], []) bid hid pt h2 with habs | ⟨bf, targets, r, hentry, hres, hhid, hpt⟩
    · simp at habs
    · have hfold : (bulletCandidates bf targets).foldl selectStep none = some r := by
        rw [← bulletHitResult_eq_foldl]
        exact hres
      obtain ⟨l1, l2, heq, hl1, hl2⟩ := selectStep_foldl_first_min _ r hfold
      exact ⟨bf, targets, r, l1, l2, hentry, hres, hhid, hpt, heq, hl1, hl2⟩

/-- C6 (witness): the concrete detection run of the swept horizontal
bullet against the static block emits `isHit` at (450, 0), and the
theorem applies to it. -/
theorem claim_c6_witness :
    ∃ bf targets r l1 l2,
      (2, bf, targets) ∈
        ([((1, 2), (⟨1, 2, 1⟩ : GPair))].foldl
          (detectPairStep [cxStatic, cxBulletMoved]) ⟨[], [], []⟩).bulletsTargets ∧
      bulletHitResult bf targets = some r ∧ 1 = r.target.id ∧ (⟨450, 0⟩ : Vec) = r.point ∧
      bulletCandidates bf targets = l1 ++ r :: l2 ∧
      (∀ c ∈ l1, r.halfSumm < c.halfSumm) ∧
      (∀ c ∈ l2, r.halfSumm ≤ c.halfSumm) :=
  claim_c6_hit_is_first_nearest_crossing [cxStatic, cxBulletMoved]
    [((1, 2), ⟨1, 2, 1⟩)] 2 1 ⟨450, 0⟩ (by decide)


/-! ### C5: bounce fix counters never exceed the limit -/

/-- The X block leaves the Y counter alone and keeps the X counter at
most the limit. -/
theorem bounceUpdateCollisionX_counts_le (corr : Vec) (f : BounceF)
    (hx : f.countCollisionsFix.x ≤ BOUNCE_FIXES_LIMIT) :
    (bounceUpdateCollisionX corr f).countCollisionsFix.x ≤ BOUNCE_FIXES_LIMIT ∧
    (bounceUpdateCollisionX corr f).countCollisionsFix.y = f.countCollisionsFix.y := by
  unfold bounceUpdateCollisionX
  split_ifs <;> simp_all <;> omega

/-- The Y block leaves the X counter alone and keeps the Y counter at
most the limit. -/
theorem bounceUpdateCollisionY_counts_le (corr : Vec) (f1 : BounceF)
    (hy : f1.countCollisionsFix.y ≤ BOUNCE_FIXES_LIMIT) :
    (bounceUpdateCollisionY corr f1).countCollisionsFix.y ≤ BOUNCE_FIXES_LIMIT ∧
    (bounceUpdateCollisionY corr f1).countCollisionsFix.x = f1.countCollisionsFix.x := by
  unfold bounceUpdateCollisionY
  split_ifs <;> simp_all <;> omega

/-- `BodyBounce.updateCollision` keeps both fix counters at most the
limit. -/
theorem bounceUpdateCollision_counts_le (corr : Vec) (f : BounceF)
    (hx : f.countCollisionsFix.x ≤ BOUNCE_FIXES_LIMIT)
    (hy : f.countCollisionsFix.y ≤ BOUNCE_FIXES_LIMIT) :
    (bounceUpdateCollision corr f).countCollisionsFix.x ≤ BOUNCE_FIXES_LIMIT ∧
    (bounceUpdateCollision corr f).countCollisionsFix.y ≤ BOUNCE_FIXES_LIMIT := by
  obtain ⟨hx1, hy1⟩ := bounceUpdateCollisionX_counts_le corr f hx
  obtain ⟨hy2, hx2⟩ := bounceUpdateCollisionY_counts_le corr (bounceUpdateCollisionX corr f)
    (by rw [hy1]; exact hy)
  exact ⟨by rw [bounceUpdateCollision, hx2]; exact hx1, by rw [bounceUpdateCollision]; exact hy2⟩

/-- `BodyBounce.update` does not modify the fix counters. -/
theorem bounceUpdate_counts (delta : ℚ) (b : Body) (f : BounceF) :
    ∀ f', (bounceUpdate delta b f).var = .bounceV f' →
      f'.countCollisionsFix = f.countCollisionsFix := by
  intro f' h
  unfold bounceUpdate at h
  dsimp only at h
  repeat' split at h
  all_goals
    first
      | (simp only [BodyVar.bounceV.injEq] at h; rw [← h])
      | simp_all

/-- The variant tag of the final conditional bounds refresh. -/
theorem ite_mk_var (c : Prop) [h : Decidable c] (i : Nat) (p : Vec) (bd bd2 : Bounds)
    (u : Bool) (r : Option (List Region)) (v : BodyVar) :
    (if c then Body.mk i p bd u r v else Body.mk i p bd2 u r v).var = v := by
  split <;> rfl

/-- `BodyPlayer.update` always returns a player body. -/
theorem playerUpdate_var (delta : ℚ) (b : Body) (f : PlayerF) :
    ∃ g, (playerUpdate delta b f).var = .playerV g := by
  unfold playerUpdate
  dsimp only
  rw [ite_mk_var]
  exact ⟨_, rfl⟩

/-- `BodyBullet.update` always returns a bullet body. -/
theorem bulletUpdate_var (delta : ℚ) (b : Body) (f : BulletF) :
    ∃ g, (bulletUpdate delta b f).1.var = .bulletV g := by
  unfold bulletUpdate
  dsimp only
  rcases f.longOfLife with _ | lol
  · exact ⟨_, rfl⟩
  · dsimp only
    split
    · exact ⟨_, rfl⟩
    · exact ⟨_, rfl⟩

/-- Integrating a body (stage 1) preserves the C5 invariant. -/
theorem bounceCountsOK_bodyUpdate (delta : ℚ) (b : Body) (h : bounceCountsOK b) :
    bounceCountsOK (bodyUpdate delta b).1 := by
  intro f' hf'
  rcases hv : b.var with ⟨sz, sens⟩ | f | f | f
  · have he : bodyUpdate delta b = (b, false) := by unfold bodyUpdate; rw [hv]
    rw [he] at hf'
    rw [hv] at hf'
    cases hf'
  · have he : bodyUpdate delta b = (playerUpdate delta b f, false) := by
      unfold bodyUpdate; rw [hv]
    rw [he] at hf'
    obtain ⟨g, hg⟩ := playerUpdate_var delta b f
    rw [hg] at hf'
    cases hf'
  · have he : bodyUpdate delta b = (bounceUpdate delta b f, false) := by
      unfold bodyUpdate; rw [hv]
    rw [he] at hf'
    have hc := bounceUpdate_counts delta b f f' hf'
    rw [hc]
    exact h f hv
  · have he : bodyUpdate delta b = bulletUpdate delta b f := by
      unfold bodyUpdate; rw [hv]
    rw [he] at hf'
    obtain ⟨g, hg⟩ := bulletUpdate_var delta b f
    rw [hg] at hf'
    cases hf'

/-- `setPosition` preserves the C5 invariant. -/
theorem bounceCountsOK_setPosition (p : Vec) (b : Body) (h : bounceCountsOK b) :
    bounceCountsOK (bodySetPosition p b) := by
  intro f' hf'
  rcases hv : b.var with ⟨sz, sens⟩ | f | f | f
  all_goals unfold bodySetPosition at hf'
  all_goals rw [hv] at hf'
  all_goals dsimp only at hf'
  · first | cases hf' | (rw [hv] at hf'; cases hf')
  · first | cases hf' | (rw [hv] at hf'; cases hf')
  · first
      | exact h f' hf'
      | (rcases BodyVar.bounceV.injEq .. ▸ hf' with rfl; exact h f hv)
  · first | cases hf' | (rw [hv] at hf'; cases hf')

/-- `updateCollision` (stage 5) preserves the C5 invariant. -/
theorem bounceCountsOK_updateCollision (corr : Vec) (b : Body) (h : bounceCountsOK b) :
    bounceCountsOK (bodyUpdateCollision corr b) := by
  intro f' hf'
  rcases hv : b.var with ⟨sz, sens⟩ | f | f | f
  all_goals unfold bodyUpdateCollision at hf'
  all_goals rw [hv] at hf'
  all_goals dsimp only at hf'
  · first | cases hf' | (rw [hv] at hf'; cases hf')
  · first | cases hf' | (rw [hv] at hf'; cases hf')
  · rcases h f hv with ⟨hx, hy⟩
    rcases BodyVar.bounceV.injEq .. ▸ hf' with rfl
    exact bounceUpdateCollision_counts_le corr f hx hy
  · first | cases hf' | (rw [hv] at hf'; cases hf')

/-- `setRegions` / `setIsUpdated` (grid bookkeeping) preserve the C5
invariant. -/
theorem bounceCountsOK_setRegions (r : Option (List Region)) (b : Body)
    (h : bounceCountsOK b) : bounceCountsOK (b.setRegions r) := by
  intro f' hf'
  exact h f' hf'

theorem bounceCountsOK_setIsUpdated (u : Bool) (b : Body)
    (h : bounceCountsOK b) : bounceCountsOK (b.setIsUpdated u) := by
  intro f' hf'
  exact h f' hf'

/-- The `afterUpdate` post-pass preserves the C5 invariant. -/
theorem bounceCountsOK_afterUpdateBody (b : Body) (h : bounceCountsOK b) :
    bounceCountsOK (afterUpdateBody b) := by
  intro f' hf'
  rcases hv : b.var with ⟨sz, sens⟩ | f | f | f
  all_goals unfold afterUpdateBody at hf'
  all_goals rw [hv] at hf'
  all_goals dsimp only at hf'
  · first | cases hf' | (rw [hv] at hf'; cases hf')
  · first
      | cases hf'
      | (split at hf' <;> first | cases hf' | (rw [hv] at hf'; cases hf'))
  · first
      | exact h f' hf'
      | (rcases BodyVar.bounceV.injEq .. ▸ hf' with rfl; exact h f hv)
  · first | cases hf' | (rw [hv] at hf'; cases hf')

/-- The player methods preserve the C5 invariant. -/
theorem bounceCountsOK_playerMove (dir : ℚ) (b : Body) (h : bounceCountsOK b) :
    bounceCountsOK (playerMove dir b) := by
  intro f' hf'
  rcases hv : b.var with ⟨sz, sens⟩ | f | f | f
  all_goals unfold playerMove at hf'
  all_goals rw [hv] at hf'
  all_goals dsimp only at hf'
  · first | cases hf' | (rw [hv] at hf'; cases hf')
  · first
      | cases hf'
      | (split at hf' <;> first | cases hf' | (rw [hv] at hf'; cases hf'))
  · first
      | exact h f' hf'
      | (rcases BodyVar.bounceV.injEq .. ▸ hf' with rfl; exact h f hv)
  · first | cases hf' | (rw [hv] at hf'; cases hf')

theorem bounceCountsOK_playerStop (b : Body) (h : bounceCountsOK b) :
    bounceCountsOK (playerStop b) := by
  intro f' hf'
  rcases hv : b.var with ⟨sz, sens⟩ | f | f | f
  all_goals unfold playerStop at hf'
  all_goals rw [hv] at hf'
  all_goals dsimp only at hf'
  · first | cases hf' | (rw [hv] at hf'; cases hf')
  · first
      | cases hf'
      | (split at hf' <;> first | cases hf' | (rw [hv] at hf'; cases hf'))
  · first
      | exact h f' hf'
      | (rcases BodyVar.bounceV.injEq .. ▸ hf' with rfl; exact h f hv)
  · first | cases hf' | (rw [hv] at hf'; cases hf')

theorem bounceCountsOK_playerJump (b : Body) (h : bounceCountsOK b) :
    bounceCountsOK (playerJump b) := by
  intro f' hf'
  rcases hv : b.var with ⟨sz, sens⟩ | f | f | f
  all_goals unfold playerJump at hf'
  all_goals rw [hv] at hf'
  all_goals dsimp only at hf'
  · first | cases hf' | (rw [hv] at hf'; cases hf')
  · first
      | cases hf'
      | (split at hf' <;> first | cases hf' | (rw [hv] at hf'; cases hf'))
  · first
      | exact h f' hf'
      | (rcases BodyVar.bounceV.injEq .. ▸ hf' with rfl; exact h f hv)
  · first | cases hf' | (rw [hv] at hf'; cases hf')


/-- One stage-1 step appends either the unchanged body or its
integrated version. -/
theorem updatePositionsStep_done (delta : ℚ) (wb : Option Bounds)
    (acc : List Body × List Nat × List Sensor) (x : Body) :
    (updatePositionsStep delta wb acc x).1 = acc.1 ++ [x] ∨
    (updatePositionsStep delta wb acc x).1 = acc.1 ++ [(bodyUpdate delta x).1] := by
  rcases acc with ⟨done, q, s⟩
  by_cases h1 : x.type = .staticT
  · left
    simp [updatePositionsStep, h1]
  by_cases h2 : x.id ∈ q
  · left
    simp [updatePositionsStep, h1, h2]
  rcases hbu : bodyUpdate delta x with ⟨b', enq⟩
  by_cases h3 : isOutWorld b'.position wb
  · right
    simp [updatePositionsStep, h1, h2, hbu, h3]
  · right
    simp [updatePositionsStep, h1, h2, hbu, h3]

/-- Stage 1 preserves the C5 invariant. -/
theorem bounceCountsOK_updatePositions_aux (delta : ℚ) (wb : Option Bounds) :
    ∀ (bodies done : List Body) (q : List Nat) (s : List Sensor),
      (∀ b ∈ done, bounceCountsOK b) → (∀ b ∈ bodies, bounceCountsOK b) →
      ∀ b ∈ (bodies.foldl (updatePositionsStep delta wb) (done, q, s)).1, bounceCountsOK b := by
  intro bodies
  induction bodies with
  | nil =>
    intro done q s hd _ b hb
    exact hd b (by simpa using hb)
  | cons x xs ih =>
    intro done q s hd hx b hb
    rw [List.foldl_cons] at hb
    rcases hstep : updatePositionsStep delta wb (done, q, s) x with ⟨done', q', s'⟩
    rw [hstep] at hb
    have hdone' : ∀ y ∈ done', bounceCountsOK y := by
      intro y hy
      rcases updatePositionsStep_done delta wb (done, q, s) x with he | he <;>
        rw [hstep] at he <;> dsimp only at he <;> rw [he] at hy <;>
        rcases List.mem_append.mp hy with hy | hy
      · exact hd y hy
      · rw [List.mem_singleton.mp hy]
        exact hx x (List.mem_cons_self x xs)
      · exact hd y hy
      · rw [List.mem_singleton.mp hy]
        exact bounceCountsOK_bodyUpdate delta x (hx x (List.mem_cons_self x xs))
    exact ih done' q' s' hdone' (fun y hy => hx y (List.mem_cons_of_mem x hy)) b hb

/-- Stage 2 only removes bodies from the list. -/
theorem removeBodiesStep_subset (acc : List Body × Grid) (rid : Nat) (b : Body)
    (hb : b ∈ (removeBodiesStep acc rid).1) : b ∈ acc.1 := by
  rcases acc with ⟨bodies, g⟩
  unfold removeBodiesStep at hb
  dsimp only at hb
  rcases hfb : findBody bodies rid with _ | bb <;> rw [hfb] at hb
  · exact hb
  · exact (List.eraseP_sublist _).mem hb

theorem removeBodies_subset (toRemove : List Nat) :
    ∀ (bodies : List Body) (g : Grid) (b : Body),
      b ∈ (removeBodies bodies toRemove g).1 → b ∈ bodies := by
  induction toRemove with
  | nil =>
    intro bodies g b hb
    exact hb
  | cons rid rest ih =>
    intro bodies g b hb
    unfold removeBodies at hb
    rw [List.foldl_cons] at hb
    rcases hstep : removeBodiesStep (bodies, g) rid with ⟨bodies', g'⟩
    rw [hstep] at hb
    have : b ∈ bodies' := ih bodies' g' b hb
    have h2 := removeBodiesStep_subset (bodies, g) rid b (by rw [hstep]; exact this)
    exact h2

/-- Stage 3 preserves the C5 invariant (it only rewrites `regions` and
`isUpdated`). -/
theorem bounceCountsOK_gridUpdateStep (env : List Body) (acc : Grid × List Body) (x : Body)
    (hacc : ∀ b ∈ acc.2, bounceCountsOK b) (hx : bounceCountsOK x) :
    ∀ b ∈ (gridUpdateStep env acc x).2, bounceCountsOK b := by
  rcases acc with ⟨g, done⟩
  intro b hb
  unfold gridUpdateStep at hb
  rcases hreg : x.regions with _ | oldRegions <;> rw [hreg] at hb <;> try dsimp only at hb
  · rcases List.mem_append.mp hb with hy | hy
    · exact hacc b hy
    · rw [List.mem_singleton.mp hy]
      exact bounceCountsOK_setRegions _ x hx
  · by_cases hst : x.type = .staticT
    · rw [if_pos hst] at hb
      rcases List.mem_append.mp hb with hy | hy
      · exact hacc b hy
      · rw [List.mem_singleton.mp hy]
        exact hx
    rw [if_neg hst] at hb
    by_cases hup : x.isUpdated = true
    · rw [if_pos hup] at hb
      try dsimp only at hb
      split at hb
      · rcases List.mem_append.mp hb with hy | hy
        · exact hacc b hy
        · rw [List.mem_singleton.mp hy]
          exact bounceCountsOK_setRegions _ _ (bounceCountsOK_setIsUpdated _ x hx)
      · rcases List.mem_append.mp hb with hy | hy
        · exact hacc b hy
        · rw [List.mem_singleton.mp hy]
          exact bounceCountsOK_setIsUpdated _ x hx
    · rw [if_neg hup] at hb
      rcases List.mem_append.mp hb with hy | hy
      · exact hacc b hy
      · rw [List.mem_singleton.mp hy]
        exact hx

theorem bounceCountsOK_gridUpdate (env : List Body) :
    ∀ (bodies : List Body) (g : Grid) (done : List Body),
      (∀ b ∈ done, bounceCountsOK b) → (∀ b ∈ bodies, bounceCountsOK b) →
      ∀ b ∈ (bodies.foldl (gridUpdateStep env) (g, done)).2, bounceCountsOK b := by
  intro bodies
  induction bodies with
  | nil =>
    intro g done hd _ b hb
    exact hd b hb
  | cons x xs ih =>
    intro g done hd hx b hb
    rw [List.foldl_cons] at hb
    rcases hstep : gridUpdateStep env (g, done) x with ⟨g', done'⟩
    rw [hstep] at hb
    have hdone' : ∀ y ∈ done', bounceCountsOK y := by
      intro y hy
      have := bounceCountsOK_gridUpdateStep env (g, done) x hd
        (hx x (List.mem_cons_self x xs)) y
      rw [hstep] at this
      exact this hy
    exact ih g' done' hdone' (fun y hy => hx y (List.mem_cons_of_mem x hy)) b hb

/-- Looking a body up by id finds a member of the list. -/
theorem findBody_mem (bodies : List Body) (id' : Nat) (b : Body)
    (h : findBody bodies id' = some b) : b ∈ bodies :=
  List.mem_of_find?_eq_some h

/-- Stage 5 preserves the C5 invariant. -/
theorem bounceCountsOK_correctionStep (bodies : List Body) (col : Collision)
    (h : ∀ b ∈ bodies, bounceCountsOK b) :
    ∀ b ∈ correctionStep bodies col, bounceCountsOK b := by
  intro b hb
  unfold correctionStep at hb
  rcases hA : findBody bodies col.bodyA with _ | bodyA <;> rw [hA] at hb
  · exact h b hb
  rcases hB : findBody bodies col.bodyB with _ | bodyB <;> rw [hB] at hb
  · exact h b hb
  dsimp only at hb
  rcases List.mem_map.mp hb with ⟨y, hy, hyb⟩
  by_cases hid : y.id = (if bodyA.type = .playerT ∨ bodyA.type = .bounceT then bodyA else bodyB).id
  · rw [if_pos hid] at hyb
    rw [← hyb]
    apply bounceCountsOK_setPosition
    apply bounceCountsOK_updateCollision
    by_cases hres : bodyA.type = .playerT ∨ bodyA.type = .bounceT
    · simp only [if_pos hres]
      exact h bodyA (findBody_mem bodies col.bodyA bodyA hA)
    · simp only [if_neg hres]
      exact h bodyB (findBody_mem bodies col.bodyB bodyB hB)
  · rw [if_neg hid] at hyb
    rw [← hyb]
    exact h y hy

theorem bounceCountsOK_correctionPositions (collisions : List Collision) :
    ∀ (bodies : List Body), (∀ b ∈ bodies, bounceCountsOK b) →
      ∀ b ∈ correctionPositions collisions bodies, bounceCountsOK b := by
  induction collisions with
  | nil =>
    intro bodies h b hb
    exact h b hb
  | cons col rest ih =>
    intro bodies h b hb
    unfold correctionPositions at hb
    rw [List.foldl_cons] at hb
    exact ih (correctionStep bodies col) (bounceCountsOK_correctionStep bodies col h) b hb

/-- A sub-step preserves the C5 invariant on all bodies. -/
theorem bounceCountsOK_subUpdate (delta : ℚ) (w : World)
    (h : ∀ b ∈ w.bodies, bounceCountsOK b) :
    ∀ b ∈ (worldSubUpdate delta w).1.bodies, bounceCountsOK b := by
  have hstage1 : ∀ y ∈ (updatePositions delta w.bodies w.bodiesToRemove w.boundsW).1,
      bounceCountsOK y := by
    intro y hy
    exact bounceCountsOK_updatePositions_aux delta w.boundsW w.bodies [] w.bodiesToRemove []
      (by intro c hc; cases hc) h y hy
  have hstage2 : ∀ y ∈ (removeBodies (updatePositions delta w.bodies w.bodiesToRemove w.boundsW).1
      (updatePositions delta w.bodies w.bodiesToRemove w.boundsW).2.1 w.broadphase).1,
      bounceCountsOK y := by
    intro y hy
    exact hstage1 y (removeBodies_subset _ _ _ _ hy)
  have hstage3 : ∀ y ∈ (gridUpdate
      (removeBodies (updatePositions delta w.bodies w.bodiesToRemove w.boundsW).1
        (updatePositions delta w.bodies w.bodiesToRemove w.boundsW).2.1 w.broadphase).2
      (removeBodies (updatePositions delta w.bodies w.bodiesToRemove w.boundsW).1
        (updatePositions delta w.bodies w.bodiesToRemove w.boundsW).2.1 w.broadphase).1).2,
      bounceCountsOK y := by
    intro y hy
    exact bounceCountsOK_gridUpdate _ _ _ [] (by intro c hc; cases hc) hstage2 y hy
  intro b hb
  unfold worldSubUpdate at hb
  dsimp only at hb
  rcases List.mem_map.mp hb with ⟨y, hy, hyb⟩
  rw [← hyb]
  exact bounceCountsOK_afterUpdateBody y (bounceCountsOK_correctionPositions _ _ hstage3 y hy)

/-- The sub-step loop preserves the C5 invariant. -/
theorem bounceCountsOK_worldUpdateLoop :
    ∀ (n : Nat) (delta : ℚ) (w : World) (sensors : List Sensor),
      (∀ b ∈ w.bodies, bounceCountsOK b) →
      ∀ b ∈ (worldUpdateLoop n delta w sensors).1.bodies, bounceCountsOK b := by
  intro n
  induction n with
  | zero =>
    intro delta w sensors h b hb
    exact h b hb
  | succ m ih =>
    intro delta w sensors h b hb
    unfold worldUpdateLoop at hb
    exact ih _ _ _ (bounceCountsOK_subUpdate _ w h) b hb

/-- The four factories create bodies satisfying the C5 invariant. -/
theorem bounceCountsOK_mkStatic (id' : Nat) (x y wd ht : ℚ) (s : Bool) :
    bounceCountsOK (mkStaticBody id' x y wd ht s) := by
  intro f' hf'
  cases hf'

theorem bounceCountsOK_mkPlayer (id' : Nat) (x y wd ht : ℚ) (ms jd : Option ℚ) (g jc : ℚ) :
    bounceCountsOK (mkPlayerBody id' x y wd ht ms jd g jc) := by
  intro f' hf'
  cases hf'

theorem bounceCountsOK_mkBullet (id' : Nat) (x y fx fy : ℚ) (oid : Option Nat)
    (lol : Option ℚ) : bounceCountsOK (mkBulletBody id' x y fx fy oid lol) := by
  intro f' hf'
  cases hf'

theorem bounceCountsOK_mkBounce (id' : Nat) (x y wd ht fx fy g : ℚ) :
    bounceCountsOK (mkBounceBody id' x y wd ht fx fy g) := by
  intro f' hf'
  rcases BodyVar.bounceV.injEq .. ▸ hf' with rfl
  exact ⟨by norm_num [BOUNCE_FIXES_LIMIT], by norm_num [BOUNCE_FIXES_LIMIT]⟩

/-- Host mutation of one body preserves the C5 invariant, for any
per-body map that does. -/
theorem bounceCountsOK_applyToBody (w : World) (bid : Nat) (f : Body → Body)
    (hf : ∀ b, bounceCountsOK b → bounceCountsOK (f b))
    (h : ∀ b ∈ w.bodies, bounceCountsOK b) :
    ∀ b ∈ (applyToBody w bid f).bodies, bounceCountsOK b := by
  intro b hb
  unfold applyToBody at hb
  dsimp only at hb
  rcases List.mem_map.mp hb with ⟨y, hy, hyb⟩
  rw [← hyb]
  by_cases hid : y.id = bid
  · rw [if_pos hid]
    exact hf y (h y hy)
  · rw [if_neg hid]
    exact h y hy

/-- Every host-visible operation preserves the C5 invariant. -/
theorem bounceCountsOK_wstep (w w' : World) (hs : WStep w w')
    (h : ∀ b ∈ w.bodies, bounceCountsOK b) : ∀ b ∈ w'.bodies, bounceCountsOK b := by
  cases hs with
  | createStatic id' x y wd ht s =>
    intro b hb
    rcases List.mem_append.mp hb with hb | hb
    · exact h b hb
    · rw [List.mem_singleton.mp hb]
      exact bounceCountsOK_mkStatic id' x y wd ht s
  | createPlayer id' x y wd ht ms jd jc =>
    intro b hb
    rcases List.mem_append.mp hb with hb | hb
    · exact h b hb
    · rw [List.mem_singleton.mp hb]
      exact bounceCountsOK_mkPlayer id' x y wd ht ms jd w.gravity jc
  | createBounce id' x y wd ht fx fy =>
    intro b hb
    rcases List.mem_append.mp hb with hb | hb
    · exact h b hb
    · rw [List.mem_singleton.mp hb]
      exact bounceCountsOK_mkBounce id' x y wd ht fx fy w.gravity
  | createBullet id' x y fx fy oid lol =>
    intro b hb
    rcases List.mem_append.mp hb with hb | hb
    · exact h b hb
    · rw [List.mem_singleton.mp hb]
      exact bounceCountsOK_mkBullet id' x y fx fy oid lol
  | removeB bid =>
    exact h
  | move bid dir =>
    exact bounceCountsOK_applyToBody w bid (playerMove dir)
      (fun b hb => bounceCountsOK_playerMove dir b hb) h
  | stopP bid =>
    exact bounceCountsOK_applyToBody w bid playerStop
      (fun b hb => bounceCountsOK_playerStop b hb) h
  | jumpP bid =>
    exact bounceCountsOK_applyToBody w bid playerJump
      (fun b hb => bounceCountsOK_playerJump b hb) h
  | setPos bid p =>
    exact bounceCountsOK_applyToBody w bid (bodySetPosition p)
      (fun b hb => bounceCountsOK_setPosition p b hb) h
  | update delta =>
    exact bounceCountsOK_worldUpdateLoop _ _ _ _ h

/-- The C5 invariant holds in every reachable world. -/
theorem bounceCountsOK_reachable (w : World) (h : WorldReachable w) :
    ∀ b ∈ w.bodies, bounceCountsOK b := by
  rcases h with ⟨bounds, hr⟩
  induction hr with
  | refl =>
    intro b hb
    cases hb
  | tail _ hstep ih =>
    exact bounceCountsOK_wstep _ _ hstep ih

/-- C5: in every reachable world state, every BOUNCE body's per-axis
collision-fix counters are at most 3: they start at 0 and no sequence
of `update` / `updateCollision` calls (nor any other host-visible
operation) drives either counter above the limit. -/
theorem claim_c5_bounce_fix_counters_bounded (w : World) (hw : WorldReachable w)
    (b : Body) (hb : b ∈ w.bodies) (f : BounceF) (hf : b.var = .bounceV f) :
    f.countCollisionsFix.x ≤ BOUNCE_FIXES_LIMIT ∧
    f.countCollisionsFix.y ≤ BOUNCE_FIXES_LIMIT :=
  bounceCountsOK_reachable w hw b hb f hf

/-- C5 (witness): the freshly created bounce world is reachable and its
bounce body's counters are within the limit. -/
theorem claim_c5_witness :
    ∃ f, cxBounce.var = .bounceV f ∧
      f.countCollisionsFix.x ≤ BOUNCE_FIXES_LIMIT ∧
      f.countCollisionsFix.y ≤ BOUNCE_FIXES_LIMIT :=
  ⟨_, rfl, claim_c5_bounce_fix_counters_bounded cxBounceWorld
    ⟨none, Relation.ReflTransGen.single (WStep.createBounce (mkWorld none) 3 0 0 20 20 0 (-300))⟩
    cxBounce (List.mem_singleton.mpr rfl) _ rfl⟩


/-! ### Association-list lemmas for the C1 development -/

theorem alGet_cons {κ α : Type} [DecidableEq κ] (e : κ × α) (rest : List (κ × α))
    (k : κ) : alGet (e :: rest) k = if e.1 = k then some e.2 else alGet rest k := by
  simp only [alGet, List.find?_cons]
  by_cases he : e.1 = k <;> simp [he]

theorem alSet_cons {κ α : Type} [DecidableEq κ] (e : κ × α) (rest : List (κ × α))
    (k : κ) (v : α) :
    alSet (e :: rest) k v = if e.1 = k then (k, v) :: rest else e :: alSet rest k v :=
  rfl

theorem alErase_cons {κ α : Type} [DecidableEq κ] (e : κ × α) (rest : List (κ × α))
    (k : κ) : alErase (e :: rest) k = if e.1 = k then rest else e :: alErase rest k := by
  simp only [alErase, List.eraseP_cons]
  by_cases he : e.1 = k <;> simp [he]

theorem alGet_none_iff {κ α : Type} [DecidableEq κ] (l : List (κ × α)) (k : κ) :
    alGet l k = none ↔ k ∉ l.map Prod.fst := by
  induction l with
  | nil => simp [alGet]
  | cons e rest ih =>
    rw [alGet_cons]
    by_cases he : e.1 = k
    · rw [if_pos he]
      simp [he]
    · rw [if_neg he, ih]
      simp only [List.map_cons, List.mem_cons]
      constructor
      · intro h hc
        rcases hc with hc | hc
        · exact he hc.symm
        · exact h hc
      · intro h hc
        exact h (Or.inr hc)

theorem mem_of_alGet_eq_some {κ α : Type} [DecidableEq κ] {l : List (κ × α)} {k : κ}
    {v : α} (h : alGet l k = some v) : (k, v) ∈ l := by
  induction l with
  | nil => simp [alGet] at h
  | cons e rest ih =>
    rw [alGet_cons] at h
    by_cases he : e.1 = k
    · rw [if_pos he] at h
      obtain ⟨e1, e2⟩ := e
      simp only at he
      simp only [Option.some.injEq] at h
      rw [← he, ← h]
      exact List.mem_cons_self _ _
    · rw [if_neg he] at h
      exact List.mem_cons_of_mem e (ih h)

theorem alGet_ne_none_of_mem {κ α : Type} [DecidableEq κ] {l : List (κ × α)} {k : κ}
    {v : α} (h : (k, v) ∈ l) : alGet l k ≠ none := by
  intro hn
  exact (alGet_none_iff l k).mp hn (List.mem_map.mpr ⟨(k, v), h, rfl⟩)

theorem alGet_of_mem_nodup {κ α : Type} [DecidableEq κ] {l : List (κ × α)} {k : κ}
    {v : α} (hN : (l.map Prod.fst).Nodup) (h : (k, v) ∈ l) : alGet l k = some v := by
  induction l with
  | nil => cases h
  | cons e rest ih =>
    simp only [List.map_cons, List.nodup_cons] at hN
    rw [alGet_cons]
    rcases List.mem_cons.mp h with he | hr
    · rw [← he]
      simp
    · have hke : ¬(e.1 = k) := by
        intro hk
        exact hN.1 (List.mem_map.mpr ⟨(k, v), hr, hk.symm⟩)
      rw [if_neg hke]
      exact ih hN.2 hr

theorem alSet_map_fst_of_mem {κ α : Type} [DecidableEq κ] {l : List (κ × α)} {k : κ}
    (v : α) (h : k ∈ l.map Prod.fst) : (alSet l k v).map Prod.fst = l.map Prod.fst := by
  induction l with
  | nil => simp at h
  | cons e rest ih =>
    rw [alSet_cons]
    by_cases he : e.1 = k
    · rw [if_pos he]
      simp [he]
    · rw [if_neg he]
      simp only [List.map_cons, List.mem_cons] at h
      rcases h with h | h
      · exact absurd h.symm he
      · simp [ih h]

theorem alSet_eq_append {κ α : Type} [DecidableEq κ] {l : List (κ × α)} {k : κ}
    (v : α) (h : k ∉ l.map Prod.fst) : alSet l k v = l ++ [(k, v)] := by
  induction l with
  | nil => rfl
  | cons e rest ih =>
    simp only [List.map_cons, List.mem_cons] at h
    push_neg at h
    rw [alSet_cons, if_neg (fun hk => h.1 hk.symm), ih h.2]
    rfl

theorem alGet_alSet_self {κ α : Type} [DecidableEq κ] (l : List (κ × α)) (k : κ)
    (v : α) : alGet (alSet l k v) k = some v := by
  induction l with
  | nil => simp [alSet, alGet]
  | cons e rest ih =>
    rw [alSet_cons]
    by_cases he : e.1 = k
    · rw [if_pos he, alGet_cons]
      simp
    · rw [if_neg he, alGet_cons, if_neg he]
      exact ih

theorem alGet_alSet_ne {κ α : Type} [DecidableEq κ] (l : List (κ × α)) {k k' : κ}
    (v : α) (h : k' ≠ k) : alGet (alSet l k v) k' = alGet l k' := by
  induction l with
  | nil =>
    simp only [alSet, alGet, List.find?_cons, List.find?_nil]
    simp [Ne.symm h]
  | cons e rest ih =>
    rw [alSet_cons]
    by_cases he : e.1 = k
    · rw [if_pos he, alGet_cons, alGet_cons]
      have h1 : ¬((k, v).1 = k') := by simpa using Ne.symm h
      rw [if_neg h1, if_neg (by rw [he]; exact fun hk => h hk.symm)]
    · rw [if_neg he, alGet_cons, alGet_cons]
      by_cases hk' : e.1 = k'
      · rw [if_pos hk', if_pos hk']
      · rw [if_neg hk', if_neg hk']
        exact ih

theorem mem_alSet_self {κ α : Type} [DecidableEq κ] (l : List (κ × α)) (k : κ)
    (v : α) : (k, v) ∈ alSet l k v := by
  induction l with
  | nil => simp [alSet]
  | cons e rest ih =>
    rw [alSet_cons]
    by_cases he : e.1 = k
    · rw [if_pos he]
      exact List.mem_cons_self _ _
    · rw [if_neg he]
      exact List.mem_cons_of_mem e ih

theorem mem_alSet_of_ne {κ α : Type} [DecidableEq κ] {l : List (κ × α)} {k k' : κ}
    {v v' : α} (h : (k', v') ∈ l) (hne : k' ≠ k) : (k', v') ∈ alSet l k v := by
  induction l with
  | nil => cases h
  | cons e rest ih =>
    rw [alSet_cons]
    by_cases he : e.1 = k
    · rw [if_pos he]
      rcases List.mem_cons.mp h with he' | hr
      · exact absurd (by rw [← he]; exact congrArg Prod.fst he') hne
      · exact List.mem_cons_of_mem _ hr
    · rw [if_neg he]
      rcases List.mem_cons.mp h with he' | hr
      · rw [he']
        exact List.mem_cons_self _ _
      · exact List.mem_cons_of_mem e (ih hr)

theorem mem_alSet_elim {κ α : Type} [DecidableEq κ] {l : List (κ × α)} {k k' : κ}
    {v v' : α} (hN : (l.map Prod.fst).Nodup) (h : (k', v') ∈ alSet l k v) :
    (k' = k ∧ v' = v) ∨ ((k', v') ∈ l ∧ k' ≠ k) := by
  induction l with
  | nil =>
    simp only [alSet, List.mem_singleton, Prod.mk.injEq] at h
    exact Or.inl h
  | cons e rest ih =>
    simp only [List.map_cons, List.nodup_cons] at hN
    rw [alSet_cons] at h
    by_cases he : e.1 = k
    · rw [if_pos he] at h
      rcases List.mem_cons.mp h with hh | hr
      · simp only [Prod.mk.injEq] at hh
        exact Or.inl hh
      · refine Or.inr ⟨List.mem_cons_of_mem e hr, ?_⟩
        intro hkk
        apply hN.1
        have : e.1 = k' := by rw [he, hkk]
        rw [this]
        exact List.mem_map.mpr ⟨(k', v'), hr, rfl⟩
    · rw [if_neg he] at h
      rcases List.mem_cons.mp h with hh | hr
      · refine Or.inr ⟨List.mem_cons.mpr (Or.inl hh), ?_⟩
        intro hkk
        apply he
        rw [← hkk]
        exact (congrArg Prod.fst hh).symm
      · rcases ih hN.2 hr with h1 | h2
        · exact Or.inl h1
        · exact Or.inr ⟨List.mem_cons_of_mem e h2.1, h2.2⟩

theorem countP_alSet {κ α : Type} [DecidableEq κ] {l : List (κ × α)} {k : κ} {w : α}
    (v : α) (hN : (l.map Prod.fst).Nodup) (hm : (k, w) ∈ l) (p : κ × α → Bool) :
    (alSet l k v).countP p + (if p (k, w) then 1 else 0) =
      l.countP p + (if p (k, v) then 1 else 0) := by
  induction l with
  | nil => cases hm
  | cons e rest ih =>
    simp only [List.map_cons, List.nodup_cons] at hN
    rw [alSet_cons]
    by_cases he : e.1 = k
    · rcases List.mem_cons.mp hm with hh | hr
      · rw [if_pos he, ← hh]
        simp only [List.countP_cons]
        omega
      · exact absurd (List.mem_map.mpr ⟨(k, w), hr, he.symm ▸ rfl⟩) (he ▸ hN.1)
    · rcases List.mem_cons.mp hm with hh | hr
      · exact absurd (congrArg Prod.fst hh.symm) he
      · rw [if_neg he]
        simp only [List.countP_cons]
        have := ih hN.2 hr
        omega

theorem alErase_of_not_mem {κ α : Type} [DecidableEq κ] {l : List (κ × α)} {k : κ}
    (h : k ∉ l.map Prod.fst) : alErase l k = l := by
  induction l with
  | nil => rfl
  | cons e rest ih =>
    simp only [List.map_cons, List.mem_cons] at h
    push_neg at h
    rw [alErase_cons, if_neg (fun hk => h.1 hk.symm), ih h.2]

theorem mem_of_mem_alErase {κ α : Type} [DecidableEq κ] {l : List (κ × α)} {k : κ}
    {e : κ × α} (h : e ∈ alErase l k) : e ∈ l :=
  (List.eraseP_sublist l).mem h

theorem mem_alErase_of_ne {κ α : Type} [DecidableEq κ] {l : List (κ × α)} {k k' : κ}
    {v' : α} (h : (k', v') ∈ l) (hne : k' ≠ k) : (k', v') ∈ alErase l k := by
  induction l with
  | nil => cases h
  | cons e rest ih =>
    rw [alErase_cons]
    by_cases he : e.1 = k
    · rw [if_pos he]
      rcases List.mem_cons.mp h with hh | hr
      · exact absurd (by rw [← he]; exact congrArg Prod.fst hh) hne
      · exact hr
    · rw [if_neg he]
      rcases List.mem_cons.mp h with hh | hr
      · rw [hh]
        exact List.mem_cons_self _ _
      · exact List.mem_cons_of_mem e (ih hr)

theorem not_mem_alErase_self {κ α : Type} [DecidableEq κ] {l : List (κ × α)} {k : κ}
    {v : α} (hN : (l.map Prod.fst).Nodup) : (k, v) ∉ alErase l k := by
  induction l with
  | nil => simp [alErase]
  | cons e rest ih =>
    simp only [List.map_cons, List.nodup_cons] at hN
    rw [alErase_cons]
    by_cases he : e.1 = k
    · rw [if_pos he]
      intro hm
      exact hN.1 (List.mem_map.mpr ⟨(k, v), hm, he.symm ▸ rfl⟩)
    · rw [if_neg he]
      intro hm
      rcases List.mem_cons.mp hm with hh | hr
      · exact he (congrArg Prod.fst hh.symm)
      · exact ih hN.2 hr

theorem map_fst_alErase {κ α : Type} [DecidableEq κ] (l : List (κ × α)) (k : κ) :
    (alErase l k).map Prod.fst = (l.map Prod.fst).erase k := by
  induction l with
  | nil => rfl
  | cons e rest ih =>
    rw [alErase_cons, List.map_cons]
    by_cases he : e.1 = k
    · rw [if_pos he, ← he, List.erase_cons_head]
    · rw [if_neg he, List.erase_cons_tail (by simpa using he), List.map_cons, ih]

theorem countP_alErase {κ α : Type} [DecidableEq κ] {l : List (κ × α)} {k : κ} {w : α}
    (hN : (l.map Prod.fst).Nodup) (hm : (k, w) ∈ l) (p : κ × α → Bool) :
    (alErase l k).countP p + (if p (k, w) then 1 else 0) = l.countP p := by
  induction l with
  | nil => cases hm
  | cons e rest ih =>
    simp only [List.map_cons, List.nodup_cons] at hN
    rw [alErase_cons]
    by_cases he : e.1 = k
    · rw [if_pos he]
      rcases List.mem_cons.mp hm with hh | hr
      · rw [← hh]
        simp [List.countP_cons]
      · exact absurd (List.mem_map.mpr ⟨(k, w), hr, he.symm ▸ rfl⟩) (he ▸ hN.1)
    · rw [if_neg he]
      rcases List.mem_cons.mp hm with hh | hr
      · exact absurd (congrArg Prod.fst hh.symm) he
      · simp only [List.countP_cons]
        have := ih hN.2 hr
        omega

/-! ### Pair keys, body lookup and structural helpers -/

theorem alErase_keys_nodup {κ α : Type} [DecidableEq κ] {l : List (κ × α)}
    (hN : (l.map Prod.fst).Nodup) (k : κ) : ((alErase l k).map Prod.fst).Nodup :=
  List.Nodup.sublist ((List.eraseP_sublist l).map Prod.fst) hN

theorem getPairId_comm (a b : Nat) : getPairId a b = getPairId b a := by
  simp only [getPairId]
  split_ifs <;> simp_all [Prod.ext_iff] <;> omega

theorem getPairId_inj {a b c d : Nat} (h : getPairId a b = getPairId c d) :
    (a = c ∧ b = d) ∨ (a = d ∧ b = c) := by
  simp only [getPairId] at h
  split_ifs at h <;> simp_all [Prod.ext_iff] <;> omega

theorem body_id_inj {l : List Body} (hN : (l.map Body.id).Nodup) {x y : Body}
    (hx : x ∈ l) (hy : y ∈ l) (h : x.id = y.id) : x = y :=
  List.inj_on_of_nodup_map hN hx hy h

theorem findBody_some {env : List Body} {i : Nat} {b : Body}
    (h : findBody env i = some b) : b ∈ env ∧ b.id = i := by
  have h1 := List.mem_of_find?_eq_some h
  have h2 := List.find?_some h
  simp only [decide_eq_true_eq] at h2
  exact ⟨h1, h2⟩

theorem findBody_eq_of_mem {env : List Body} (hN : (env.map Body.id).Nodup) {b : Body}
    (hb : b ∈ env) : findBody env b.id = some b := by
  rcases h : findBody env b.id with _ | c
  · rw [findBody, List.find?_eq_none] at h
    exact absurd (by simp) (h b hb)
  · obtain ⟨hc, hid⟩ := findBody_some h
    rw [body_id_inj hN hc hb hid]

theorem canCollide_congr {a a' b b' : Body} (ha1 : a'.type = a.type)
    (ha2 : a'.ownerIdB = a.ownerIdB) (ha3 : a'.id = a.id) (hb1 : b'.type = b.type)
    (hb2 : b'.ownerIdB = b.ownerIdB) (hb3 : b'.id = b.id) :
    canCollide a' b' = canCollide a b := by
  simp only [canCollide, ha1, ha2, ha3, hb1, hb2, hb3]

theorem replaceBody_map_id (l : List Body) (b' : Body) :
    (replaceBody l b').map Body.id = l.map Body.id := by
  simp only [replaceBody, List.map_map]
  apply List.map_congr_left
  intro x _
  by_cases h : x.id = b'.id <;> simp [h]

theorem replaceBody_mem_elim {l : List Body} {b' c : Body} (h : c ∈ replaceBody l b') :
    ∃ x ∈ l, c = if x.id = b'.id then b' else x := by
  obtain ⟨x, hx, hc⟩ := List.mem_map.mp h
  exact ⟨x, hx, hc.symm⟩

theorem replaceBody_self_mem {l : List Body} {b b' : Body} (hb : b ∈ l)
    (hid : b.id = b'.id) : b' ∈ replaceBody l b' := by
  refine List.mem_map.mpr ⟨b, hb, ?_⟩
  rw [if_pos hid]

theorem mem_replaceBody_of_ne {l : List Body} {b' x : Body} (hx : x ∈ l)
    (h : x.id ≠ b'.id) : x ∈ replaceBody l b' := by
  refine List.mem_map.mpr ⟨x, hx, ?_⟩
  rw [if_neg h]

theorem replaceBody_eq_self {l : List Body} (hN : (l.map Body.id).Nodup) {b : Body}
    (hb : b ∈ l) : replaceBody l b = l := by
  have : ∀ x ∈ l, (if x.id = b.id then b else x) = x := by
    intro x hx
    by_cases h : x.id = b.id
    · rw [if_pos h, body_id_inj hN hx hb h]
    · rw [if_neg h]
  calc replaceBody l b = l.map id := List.map_congr_left this
  _ = l := List.map_id l

theorem replaceBody_exists_id (l : List Body) (b' : Body) (i : Nat) :
    (∃ x ∈ l, x.id = i) → ∃ x ∈ replaceBody l b', x.id = i ∧
      (x.id = b'.id → x = b') := by
  rintro ⟨x, hx, rfl⟩
  by_cases h : x.id = b'.id
  · exact ⟨b', replaceBody_self_mem hx h, h.symm, fun _ => rfl⟩
  · exact ⟨x, mem_replaceBody_of_ne hx h, rfl, fun hc => absurd hc h⟩

theorem count_eq_ite_of_nodup {l : List Nat} (h : l.Nodup) (j : Nat) :
    l.count j = if j ∈ l then 1 else 0 := by
  by_cases hj : j ∈ l
  · rw [if_pos hj, List.count_eq_one_of_mem h hj]
  · rw [if_neg hj, List.count_eq_zero_of_not_mem hj]

theorem count_flatMap_eq_countP (rs : List Region) (f : Region → List Nat)
    (hf : ∀ r ∈ rs, (f r).Nodup) (j : Nat) :
    (rs.flatMap f).count j = rs.countP (fun r => (f r).contains j) := by
  induction rs with
  | nil => rfl
  | cons r0 rest ih =>
    rw [List.flatMap_cons, List.count_append, List.countP_cons,
      ih (fun r hr => hf r (List.mem_cons_of_mem r0 hr)),
      count_eq_ite_of_nodup (hf r0 (List.mem_cons_self _ _))]
    by_cases hj : j ∈ f r0
    · rw [if_pos hj, if_pos (by simpa using hj)]
      omega
    · rw [if_neg hj, if_neg (by simpa using hj)]
      omega

theorem intRange_nodup (s e : ℤ) : (intRange s e).Nodup := by
  unfold intRange
  have h1 : Function.Injective (fun i : ℕ => s + Int.ofNat i) := by
    intro a b h
    simp only [Int.ofNat_eq_coe] at h
    omega
  exact List.Nodup.map h1 (List.nodup_range _)

theorem getRegions_nodup (bd : Bounds) : (getRegions bd).Nodup := by
  have hrep : getRegions bd =
      (intRange (regionCoord bd.min.y) (regionCoord bd.max.y)).flatMap
        (fun y => (intRange (regionCoord bd.min.x) (regionCoord bd.max.x)).map
          (fun x => (x, y))) := rfl
  rw [hrep, List.nodup_flatMap]
  constructor
  · intro y _
    have hinj : Function.Injective (fun x : ℤ => (x, y)) := by
      intro a b h
      simpa using (Prod.ext_iff.mp h).1
    exact List.Nodup.map hinj (intRange_nodup _ _)
  · have hp : List.Pairwise (fun a b => a ≠ b)
        (intRange (regionCoord bd.min.y) (regionCoord bd.max.y)) :=
      intRange_nodup _ _
    refine hp.imp ?_
    intro y1 y2 hne
    simp only [Function.onFun]
    intro a ha1 ha2
    simp only [List.mem_map] at ha1 ha2
    obtain ⟨x1, _, rfl⟩ := ha1
    obtain ⟨x2, _, h2⟩ := ha2
    exact hne ((Prod.ext_iff.mp h2).2).symm

/-! ### Hash-phase lemmas: single-region insert and splice -/

theorem coCount_mk (ps : List (PairKey × GPair)) (h : List (Region × List Nat))
    (i j : Nat) : coCount { pairs := ps, hash := h } i j =
      h.countP (fun e => e.2.contains i && e.2.contains j) := rfl

theorem idsIn_mk (ps : List (PairKey × GPair)) (h : List (Region × List Nat))
    (r : Region) : idsIn { pairs := ps, hash := h } r = (alGet h r).getD [] := rfl

theorem contains_decide {α : Type} [BEq α] [LawfulBEq α] (l : List α) (a : α) :
    l.contains a = decide (a ∈ l) :=
  List.elem_eq_mem a l

theorem hashAdd_spec (g : Grid) (r : Region) (bid : Nat)
    (hkeys : (g.hash.map Prod.fst).Nodup)
    (hlists : ∀ e ∈ g.hash, List.Nodup e.2)
    (hfresh : bid ∉ idsIn g r) :
    ((hashAdd g r bid).hash.map Prod.fst).Nodup ∧
    (∀ e ∈ (hashAdd g r bid).hash, List.Nodup e.2) ∧
    (∀ r', idsIn (hashAdd g r bid) r' = if r' = r then idsIn g r ++ [bid] else idsIn g r') ∧
    (∀ e ∈ (hashAdd g r bid).hash, ∀ i ∈ e.2, i = bid ∨ ∃ e₀ ∈ g.hash, i ∈ e₀.2) ∧
    (∀ i j, i ≠ bid → j ≠ bid → coCount (hashAdd g r bid) i j = coCount g i j) ∧
    (∀ j, j ≠ bid → coCount (hashAdd g r bid) bid j =
      coCount g bid j + (if j ∈ idsIn g r then 1 else 0)) ∧
    (hashAdd g r bid).pairs = g.pairs := by
  rcases halg : alGet g.hash r with _ | l
  · have hkr : r ∉ g.hash.map Prod.fst := (alGet_none_iff _ _).mp halg
    have hrepl : hashAdd g r bid = { pairs := g.pairs, hash := g.hash ++ [(r, [bid])] } := by
      simp only [hashAdd, halg, alSet_eq_append _ hkr]
    have hids0 : idsIn g r = [] := by
      rw [idsIn, halg]
      rfl
    rw [hrepl]
    refine ⟨?_, ?_, ?_, ?_, ?_, ?_, rfl⟩
    · simp only [List.map_append, List.nodup_append]
      refine ⟨hkeys, by simp, ?_⟩
      intro a ha hb
      simp only [List.map_cons, List.map_nil, List.mem_singleton] at hb
      exact hkr (hb ▸ ha)
    · intro e he
      rcases List.mem_append.mp he with he | he
      · exact hlists e he
      · simp only [List.mem_singleton] at he
        simp [he]
    · intro r'
      rw [idsIn_mk]
      by_cases hrr : r' = r
      · rw [if_pos hrr, hids0, hrr, ← alSet_eq_append _ hkr, alGet_alSet_self]
        rfl
      · rw [if_neg hrr, ← alSet_eq_append _ hkr, alGet_alSet_ne _ _ hrr]
        rfl
    · intro e he i hi
      rcases List.mem_append.mp he with he | he
      · exact Or.inr ⟨e, he, hi⟩
      · simp only [List.mem_singleton] at he
        rw [he] at hi
        simp only [List.mem_singleton] at hi
        exact Or.inl hi
    · intro i j hi hj
      rw [coCount_mk, coCount, List.countP_append]
      have hone : ((r, [bid]).2.contains i && (r, [bid]).2.contains j) = false := by
        rw [Bool.eq_false_iff]
        intro hcontr
        simp only [Bool.and_eq_true, contains_decide, decide_eq_true_eq,
          List.mem_singleton] at hcontr
        exact hi hcontr.1
      rw [List.countP_cons, List.countP_nil, hone]
      simp
    · intro j hj
      rw [coCount_mk, coCount, List.countP_append, hids0]
      have hone : ((r, [bid]).2.contains bid && (r, [bid]).2.contains j) = false := by
        rw [Bool.eq_false_iff]
        intro hcontr
        simp only [Bool.and_eq_true, contains_decide, decide_eq_true_eq,
          List.mem_singleton] at hcontr
        exact hj hcontr.2
      rw [List.countP_cons, List.countP_nil, hone]
      simp
  · have hmem_entry : (r, l) ∈ g.hash := mem_of_alGet_eq_some halg
    have hkr : r ∈ g.hash.map Prod.fst := List.mem_map.mpr ⟨(r, l), hmem_entry, rfl⟩
    have hidsl : idsIn g r = l := by
      rw [idsIn, halg]
      rfl
    have hbidl : bid ∉ l := hidsl ▸ hfresh
    have hrepl : hashAdd g r bid = { pairs := g.pairs, hash := alSet g.hash r (l ++ [bid]) } := by
      simp only [hashAdd, halg]
    rw [hrepl]
    refine ⟨?_, ?_, ?_, ?_, ?_, ?_, rfl⟩
    · rw [alSet_map_fst_of_mem _ hkr]
      exact hkeys
    · intro e he
      rcases mem_alSet_elim hkeys he with ⟨h1, h2⟩ | ⟨h1, _⟩
      · obtain ⟨e1, e2⟩ := e
        simp only at h1 h2
        rw [h2]
        simp only [List.nodup_append]
        refine ⟨hlists _ hmem_entry, by simp, ?_⟩
        intro a ha hb
        simp only [List.mem_singleton] at hb
        rw [hb] at ha
        exact hbidl ha
      · exact hlists e h1
    · intro r'
      rw [idsIn_mk]
      by_cases hrr : r' = r
      · rw [if_pos hrr, hidsl, hrr, alGet_alSet_self]
        rfl
      · rw [if_neg hrr, alGet_alSet_ne _ _ hrr]
        rfl
    · intro e he i hi
      rcases mem_alSet_elim hkeys he with ⟨h1, h2⟩ | ⟨h1, _⟩
      · obtain ⟨e1, e2⟩ := e
        simp only at h1 h2
        rw [h2] at hi
        rcases List.mem_append.mp hi with hi | hi
        · exact Or.inr ⟨(r, l), hmem_entry, hi⟩
        · simp only [List.mem_singleton] at hi
          exact Or.inl hi
      · exact Or.inr ⟨e, h1, hi⟩
    · intro i j hi hj
      have hc := countP_alSet (l ++ [bid]) hkeys hmem_entry
        (fun e => e.2.contains i && e.2.contains j)
      have he1 : ((r, l).2.contains i && (r, l).2.contains j) =
          ((r, l ++ [bid]).2.contains i && (r, l ++ [bid]).2.contains j) := by
        rw [Bool.eq_iff_iff]
        simp only [Bool.and_eq_true, contains_decide, decide_eq_true_eq, List.mem_append,
          List.mem_singleton]
        constructor
        · intro hp
          exact ⟨Or.inl hp.1, Or.inl hp.2⟩
        · intro hp
          rcases hp.1 with h1 | h1
          · rcases hp.2 with h2 | h2
            · exact ⟨h1, h2⟩
            · exact absurd h2 hj
          · exact absurd h1 hi
      rw [he1] at hc
      rw [coCount_mk, coCount]
      omega
    · intro j hj
      have hc := countP_alSet (l ++ [bid]) hkeys hmem_entry
        (fun e => e.2.contains bid && e.2.contains j)
      have he1 : ((r, l).2.contains bid && (r, l).2.contains j) = false := by
        rw [Bool.eq_false_iff]
        intro hcontr
        simp only [Bool.and_eq_true, contains_decide, decide_eq_true_eq] at hcontr
        exact hbidl hcontr.1
      rw [he1] at hc
      rw [coCount_mk, coCount, hidsl]
      by_cases hjl : j ∈ l
      · have he2 : ((r, l ++ [bid]).2.contains bid && (r, l ++ [bid]).2.contains j) =
            true := by
          simp only [Bool.and_eq_true, contains_decide, decide_eq_true_eq,
            List.mem_append, List.mem_singleton]
          exact ⟨by simp, Or.inl hjl⟩
        rw [he2] at hc
        rw [if_neg Bool.false_ne_true, if_pos rfl] at hc
        rw [if_pos hjl]
        omega
      · have he2 : ((r, l ++ [bid]).2.contains bid && (r, l ++ [bid]).2.contains j) =
            false := by
          rw [Bool.eq_false_iff]
          intro hcontr
          simp only [Bool.and_eq_true, contains_decide, decide_eq_true_eq,
            List.mem_append, List.mem_singleton] at hcontr
          rcases hcontr.2 with h | h
          · exact hjl h
          · exact hj h
        rw [he2] at hc
        rw [if_neg Bool.false_ne_true] at hc
        rw [if_neg hjl]
        omega

theorem hashRemove_spec (g : Grid) (r : Region) (bid : Nat)
    (hkeys : (g.hash.map Prod.fst).Nodup)
    (hlists : ∀ e ∈ g.hash, List.Nodup e.2)
    (hpres : bid ∈ idsIn g r) :
    (hashRemove g r bid).hash.map Prod.fst = g.hash.map Prod.fst ∧
    (∀ e ∈ (hashRemove g r bid).hash, List.Nodup e.2) ∧
    (∀ r', idsIn (hashRemove g r bid) r' =
      if r' = r then (idsIn g r).erase bid else idsIn g r') ∧
    (∀ e ∈ (hashRemove g r bid).hash, ∀ i ∈ e.2, ∃ e₀ ∈ g.hash, i ∈ e₀.2) ∧
    (∀ i j, i ≠ bid → j ≠ bid → coCount (hashRemove g r bid) i j = coCount g i j) ∧
    (∀ j, j ≠ bid → coCount (hashRemove g r bid) bid j +
      (if j ∈ idsIn g r then 1 else 0) = coCount g bid j) ∧
    (hashRemove g r bid).pairs = g.pairs := by
  rcases halg : alGet g.hash r with _ | l
  · rw [idsIn, halg] at hpres
    cases hpres
  · have hmem_entry : (r, l) ∈ g.hash := mem_of_alGet_eq_some halg
    have hkr : r ∈ g.hash.map Prod.fst := List.mem_map.mpr ⟨(r, l), hmem_entry, rfl⟩
    have hidsl : idsIn g r = l := by
      rw [idsIn, halg]
      rfl
    have hbidl : bid ∈ l := hidsl ▸ hpres
    have hlnd : l.Nodup := hlists _ hmem_entry
    have hbide : bid ∉ l.erase bid := hlnd.not_mem_erase
    have hrepl : hashRemove g r bid = { pairs := g.pairs, hash := alSet g.hash r (l.erase bid) } := by
      simp only [hashRemove, halg]
    rw [hrepl]
    refine ⟨alSet_map_fst_of_mem _ hkr, ?_, ?_, ?_, ?_, ?_, rfl⟩
    · intro e he
      rcases mem_alSet_elim hkeys he with ⟨h1, h2⟩ | ⟨h1, _⟩
      · obtain ⟨e1, e2⟩ := e
        simp only at h1 h2
        rw [h2]
        exact hlnd.erase bid
      · exact hlists e h1
    · intro r'
      rw [idsIn_mk]
      by_cases hrr : r' = r
      · rw [if_pos hrr, hidsl, hrr, alGet_alSet_self]
        rfl
      · rw [if_neg hrr, alGet_alSet_ne _ _ hrr]
        rfl
    · intro e he i hi
      rcases mem_alSet_elim hkeys he with ⟨h1, h2⟩ | ⟨h1, _⟩
      · obtain ⟨e1, e2⟩ := e
        simp only at h1 h2
        rw [h2] at hi
        exact ⟨(r, l), hmem_entry, (List.erase_sublist _ _).mem hi⟩
      · exact ⟨e, h1, hi⟩
    · intro i j hi hj
      have hc := countP_alSet (l.erase bid) hkeys hmem_entry
        (fun e => e.2.contains i && e.2.contains j)
      have he1 : ((r, l).2.contains i && (r, l).2.contains j) =
          ((r, l.erase bid).2.contains i && (r, l.erase bid).2.contains j) := by
        rw [Bool.eq_iff_iff]
        simp only [Bool.and_eq_true, contains_decide, decide_eq_true_eq]
        rw [List.mem_erase_of_ne hi, List.mem_erase_of_ne hj]
      rw [he1] at hc
      rw [coCount_mk, coCount]
      omega
    · intro j hj
      have hc := countP_alSet (l.erase bid) hkeys hmem_entry
        (fun e => e.2.contains bid && e.2.contains j)
      have he2 : ((r, l.erase bid).2.contains bid && (r, l.erase bid).2.contains j) =
          false := by
        rw [Bool.eq_false_iff]
        intro hcontr
        simp only [Bool.and_eq_true, contains_decide, decide_eq_true_eq] at hcontr
        exact hbide hcontr.1
      rw [he2] at hc
      rw [coCount_mk, coCount, hidsl]
      by_cases hjl : j ∈ l
      · have he1 : ((r, l).2.contains bid && (r, l).2.contains j) = true := by
          simp only [Bool.and_eq_true, contains_decide, decide_eq_true_eq]
          exact ⟨hbidl, hjl⟩
        rw [he1] at hc
        rw [if_pos rfl, if_neg Bool.false_ne_true] at hc
        rw [if_pos hjl]
        omega
      · have he1 : ((r, l).2.contains bid && (r, l).2.contains j) = false := by
          rw [Bool.eq_false_iff]
          intro hcontr
          simp only [Bool.and_eq_true, contains_decide, decide_eq_true_eq] at hcontr
          exact hjl hcontr.2
        rw [he1] at hc
        rw [if_neg Bool.false_ne_true] at hc
        rw [if_neg hjl]
        omega

/-! ### Hash-phase lemmas: folds over a region list -/

theorem hashAddFold_spec (bid : Nat) :
    ∀ (rs : List Region) (g : Grid), rs.Nodup →
    (g.hash.map Prod.fst).Nodup → (∀ e ∈ g.hash, List.Nodup e.2) →
    (∀ r ∈ rs, bid ∉ idsIn g r) →
    (((rs.foldl (fun g r => hashAdd g r bid) g).hash.map Prod.fst).Nodup ∧
     (∀ e ∈ (rs.foldl (fun g r => hashAdd g r bid) g).hash, List.Nodup e.2) ∧
     (∀ r', idsIn (rs.foldl (fun g r => hashAdd g r bid) g) r' =
        if r' ∈ rs then idsIn g r' ++ [bid] else idsIn g r') ∧
     (∀ e ∈ (rs.foldl (fun g r => hashAdd g r bid) g).hash, ∀ i ∈ e.2,
        i = bid ∨ ∃ e₀ ∈ g.hash, i ∈ e₀.2) ∧
     (∀ i j, i ≠ bid → j ≠ bid →
        coCount (rs.foldl (fun g r => hashAdd g r bid) g) i j = coCount g i j) ∧
     (∀ j, j ≠ bid → coCount (rs.foldl (fun g r => hashAdd g r bid) g) bid j =
        coCount g bid j + coCountIn g rs j) ∧
     (rs.foldl (fun g r => hashAdd g r bid) g).pairs = g.pairs) := by
  intro rs
  induction rs with
  | nil =>
    intro g _ hkeys hlists _
    refine ⟨hkeys, hlists, fun r' => by simp, fun e he i hi => Or.inr ⟨e, he, hi⟩,
      fun i j _ _ => rfl, fun j _ => ?_, rfl⟩
    simp [coCountIn]
  | cons r0 rest ih =>
    intro g hnd hkeys hlists hfresh
    have hr0rest : r0 ∉ rest := (List.nodup_cons.mp hnd).1
    have hndrest : rest.Nodup := (List.nodup_cons.mp hnd).2
    obtain ⟨k1, l1, ids1, own1, cij1, cbid1, prs1⟩ :=
      hashAdd_spec g r0 bid hkeys hlists (hfresh r0 (List.mem_cons_self _ _))
    have hfresh1 : ∀ r ∈ rest, bid ∉ idsIn (hashAdd g r0 bid) r := by
      intro r hr
      have hne : ¬ r = r0 := by
        intro hc
        rw [hc] at hr
        exact hr0rest hr
      rw [ids1 r, if_neg hne]
      exact hfresh r (List.mem_cons_of_mem r0 hr)
    obtain ⟨k2, l2, ids2, own2, cij2, cbid2, prs2⟩ :=
      ih (hashAdd g r0 bid) hndrest k1 l1 hfresh1
    have hfold : (r0 :: rest).foldl (fun g r => hashAdd g r bid) g =
        rest.foldl (fun g r => hashAdd g r bid) (hashAdd g r0 bid) := rfl
    rw [hfold]
    refine ⟨k2, l2, ?_, ?_, ?_, ?_, ?_⟩
    · intro r'
      rw [ids2 r', ids1 r']
      by_cases h0 : r' = r0
      · have hnr : r' ∉ rest := by
          rw [h0]
          exact hr0rest
        rw [if_neg hnr, if_pos h0, if_pos (by rw [h0]; exact List.mem_cons_self _ _), h0]
      · rw [if_neg h0]
        by_cases hrr : r' ∈ rest
        · rw [if_pos hrr, if_pos (List.mem_cons_of_mem r0 hrr)]
        · rw [if_neg hrr, if_neg (by
            intro hc
            rcases List.mem_cons.mp hc with hc | hc
            · exact h0 hc
            · exact hrr hc)]
    · intro e he i hi
      rcases own2 e he i hi with h | ⟨e0, he0, hi0⟩
      · exact Or.inl h
      · exact own1 e0 he0 i hi0
    · intro i j hi hj
      rw [cij2 i j hi hj, cij1 i j hi hj]
    · intro j hj
      rw [cbid2 j hj, cbid1 j hj]
      have hcongr : coCountIn (hashAdd g r0 bid) rest j = coCountIn g rest j := by
        apply List.countP_congr
        intro r hr
        have hne : ¬ r = r0 := by
          intro hc
          rw [hc] at hr
          exact hr0rest hr
        rw [ids1 r, if_neg hne]
      rw [hcongr]
      simp only [coCountIn, List.countP_cons, contains_decide]
      by_cases hj0 : j ∈ idsIn g r0
      · rw [if_pos hj0, if_pos (by simp [hj0])]
        omega
      · rw [if_neg hj0, if_neg (by simp [hj0])]
        omega
    · rw [prs2, prs1]

theorem hashRemoveFold_spec (bid : Nat) :
    ∀ (rs : List Region) (g : Grid), rs.Nodup →
    (g.hash.map Prod.fst).Nodup → (∀ e ∈ g.hash, List.Nodup e.2) →
    (∀ r ∈ rs, bid ∈ idsIn g r) →
    ((rs.foldl (fun g r => hashRemove g r bid) g).hash.map Prod.fst = g.hash.map Prod.fst ∧
     (∀ e ∈ (rs.foldl (fun g r => hashRemove g r bid) g).hash, List.Nodup e.2) ∧
     (∀ r', idsIn (rs.foldl (fun g r => hashRemove g r bid) g) r' =
        if r' ∈ rs then (idsIn g r').erase bid else idsIn g r') ∧
     (∀ e ∈ (rs.foldl (fun g r => hashRemove g r bid) g).hash, ∀ i ∈ e.2,
        ∃ e₀ ∈ g.hash, i ∈ e₀.2) ∧
     (∀ i j, i ≠ bid → j ≠ bid →
        coCount (rs.foldl (fun g r => hashRemove g r bid) g) i j = coCount g i j) ∧
     (∀ j, j ≠ bid → coCount (rs.foldl (fun g r => hashRemove g r bid) g) bid j +
        coCountIn g rs j = coCount g bid j) ∧
     (rs.foldl (fun g r => hashRemove g r bid) g).pairs = g.pairs) := by
  intro rs
  induction rs with
  | nil =>
    intro g _ hkeys hlists _
    refine ⟨rfl, hlists, fun r' => by simp, fun e he i hi => ⟨e, he, hi⟩,
      fun i j _ _ => rfl, fun j _ => ?_, rfl⟩
    simp [coCountIn]
  | cons r0 rest ih =>
    intro g hnd hkeys hlists hpres
    have hr0rest : r0 ∉ rest := (List.nodup_cons.mp hnd).1
    have hndrest : rest.Nodup := (List.nodup_cons.mp hnd).2
    obtain ⟨k1, l1, ids1, own1, cij1, cbid1, prs1⟩ :=
      hashRemove_spec g r0 bid hkeys hlists (hpres r0 (List.mem_cons_self _ _))
    have hkeys1 : ((hashRemove g r0 bid).hash.map Prod.fst).Nodup := by
      rw [k1]
      exact hkeys
    have hpres1 : ∀ r ∈ rest, bid ∈ idsIn (hashRemove g r0 bid) r := by
      intro r hr
      have hne : ¬ r = r0 := by
        intro hc
        rw [hc] at hr
        exact hr0rest hr
      rw [ids1 r, if_neg hne]
      exact hpres r (List.mem_cons_of_mem r0 hr)
    obtain ⟨k2, l2, ids2, own2, cij2, cbid2, prs2⟩ :=
      ih (hashRemove g r0 bid) hndrest hkeys1 l1 hpres1
    have hfold : (r0 :: rest).foldl (fun g r => hashRemove g r bid) g =
        rest.foldl (fun g r => hashRemove g r bid) (hashRemove g r0 bid) := rfl
    rw [hfold]
    refine ⟨k2.trans k1, l2, ?_, ?_, ?_, ?_, ?_⟩
    · intro r'
      rw [ids2 r', ids1 r']
      by_cases h0 : r' = r0
      · have hnr : r' ∉ rest := by
          rw [h0]
          exact hr0rest
        rw [if_neg hnr, if_pos h0, if_pos (by rw [h0]; exact List.mem_cons_self _ _), h0]
      · rw [if_neg h0]
        by_cases hrr : r' ∈ rest
        · rw [if_pos hrr, if_pos (List.mem_cons_of_mem r0 hrr)]
        · rw [if_neg hrr, if_neg (by
            intro hc
            rcases List.mem_cons.mp hc with hc | hc
            · exact h0 hc
            · exact hrr hc)]
    · intro e he i hi
      obtain ⟨e0, he0, hi0⟩ := own2 e he i hi
      exact own1 e0 he0 i hi0
    · intro i j hi hj
      rw [cij2 i j hi hj, cij1 i j hi hj]
    · intro j hj
      have h2 := cbid2 j hj
      have h1 := cbid1 j hj
      have hcongr : coCountIn (hashRemove g r0 bid) rest j = coCountIn g rest j := by
        apply List.countP_congr
        intro r hr
        have hne : ¬ r = r0 := by
          intro hc
          rw [hc] at hr
          exact hr0rest hr
        rw [ids1 r, if_neg hne]
      rw [hcongr] at h2
      simp only [coCountIn, List.countP_cons, contains_decide] at h2 ⊢
      by_cases hj0 : j ∈ idsIn g r0
      · rw [if_pos (by simp [hj0])]
        rw [if_pos hj0] at h1
        omega
      · rw [if_neg (by simp [hj0])]
        rw [if_neg hj0] at h1
        omega
    · rw [prs2, prs1]

/-! ### Pairs-phase lemmas: lifting the inner folds to the pairs list -/

theorem foldl_grid_pairs_lift (step : Grid → Nat → Grid)
    (f : List (PairKey × GPair) → Nat → List (PairKey × GPair))
    (hstep : ∀ g oid, step g oid = { pairs := f g.pairs oid, hash := g.hash }) :
    ∀ (l : List Nat) (g : Grid),
      l.foldl step g = { pairs := l.foldl f g.pairs, hash := g.hash } := by
  intro l
  induction l with
  | nil =>
    intro g
    rfl
  | cons o rest ih =>
    intro g
    rw [List.foldl_cons, List.foldl_cons, ih (step g o), hstep g o]

theorem removePairsRegion_eq (bid : Nat) (g : Grid) (r : Region) :
    removePairsRegion bid g r =
      { pairs := (idsIn g r).foldl (decPair bid) g.pairs, hash := g.hash } := by
  rw [removePairsRegion]
  apply foldl_grid_pairs_lift
  intro g' oid
  rcases halg : alGet g'.pairs (getPairId bid oid) with _ | p
  · simp [decPair, halg]
  · by_cases hc : p.count = 1 <;> simp [decPair, halg, hc]

theorem addPairsRegion_eq (env : List Body) (body : Body) (g : Grid) (r : Region) :
    addPairsRegion env body g r =
      { pairs := (idsIn g r).foldl (incPair env body) g.pairs, hash := g.hash } := by
  rw [addPairsRegion]
  apply foldl_grid_pairs_lift
  intro g' oid
  by_cases hoid : oid = body.id
  · simp [incPair, hoid]
  · rcases hfb : findBody env oid with _ | other
    · simp [incPair, hoid, hfb]
    · by_cases hcc : canCollide body other
      · rcases halg : alGet g'.pairs (getPairId body.id oid) with _ | p <;>
          simp [incPair, hoid, hfb, hcc, halg]
      · simp [incPair, hoid, hfb, hcc]

theorem removePairs_eq_flat (bid : Nat) :
    ∀ (rs : List Region) (g : Grid), removePairs bid g rs =
      { pairs := (rs.flatMap (fun r => idsIn g r)).foldl (decPair bid) g.pairs,
        hash := g.hash } := by
  intro rs
  induction rs with
  | nil =>
    intro g
    rfl
  | cons r0 rest ih =>
    intro g
    have h1 : removePairs bid g (r0 :: rest) =
        removePairs bid (removePairsRegion bid g r0) rest := rfl
    rw [h1, ih, removePairsRegion_eq, List.flatMap_cons, List.foldl_append]
    rfl

theorem addPairs_eq_flat (env : List Body) (body : Body) :
    ∀ (rs : List Region) (g : Grid), addPairs env body g rs =
      { pairs := (rs.flatMap (fun r => idsIn g r)).foldl (incPair env body) g.pairs,
        hash := g.hash } := by
  intro rs
  induction rs with
  | nil =>
    intro g
    rfl
  | cons r0 rest ih =>
    intro g
    have h1 : addPairs env body g (r0 :: rest) =
        addPairs env body (addPairsRegion env body g r0) rest := rfl
    rw [h1, ih, addPairsRegion_eq, List.flatMap_cons, List.foldl_append]
    rfl

/-! ### The pair-count bookkeeping of `_removePairs`, one id at a time -/

theorem pendTodo_nil (bid : Nat) (p : GPair) : pendTodo bid [] p = 0 := by
  unfold pendTodo
  split_ifs <;> simp

theorem pendXY_nil (bid i j : Nat) : pendXY bid [] i j = 0 := by
  unfold pendXY
  split_ifs <;> simp

theorem count_cons_self_nat (oid : Nat) (rest : List Nat) :
    (oid :: rest).count oid = rest.count oid + 1 := by
  rw [List.count_cons]
  simp

theorem count_cons_ne_nat {j oid : Nat} (h : j ≠ oid) (rest : List Nat) :
    (oid :: rest).count j = rest.count j := by
  rw [List.count_cons]
  simp [Ne.symm h]

theorem pendXY_cons_le (bid oid : Nat) (rest : List Nat) (i j : Nat) :
    pendXY bid rest i j ≤ pendXY bid (oid :: rest) i j := by
  unfold pendXY
  split_ifs
  · rw [List.count_cons]
    omega
  · rw [List.count_cons]
    omega
  · exact le_refl _

theorem pendTodo_cons_ne {bid oid : Nat} {rest : List Nat} {p : GPair}
    (h : ¬(getPairId p.bodyA p.bodyB = getPairId bid oid)) :
    pendTodo bid (oid :: rest) p = pendTodo bid rest p := by
  unfold pendTodo
  by_cases hA : p.bodyA = bid
  · rw [if_pos hA, if_pos hA]
    have hBo : p.bodyB ≠ oid := by
      intro hc
      exact h (by rw [hA, hc])
    rw [count_cons_ne_nat hBo]
  · rw [if_neg hA, if_neg hA]
    by_cases hB : p.bodyB = bid
    · rw [if_pos hB, if_pos hB]
      have hAo : p.bodyA ≠ oid := by
        intro hc
        exact h (by rw [hB, hc]; exact getPairId_comm _ _)
      rw [count_cons_ne_nat hAo]
    · rw [if_neg hB, if_neg hB]

theorem coCount_comm (g : Grid) (i j : Nat) : coCount g i j = coCount g j i := by
  unfold coCount
  apply List.countP_congr
  intro e _
  simp only [Bool.and_eq_true]
  exact ⟨fun h => ⟨h.2, h.1⟩, fun h => ⟨h.2, h.1⟩⟩

theorem decFold_spec (env : List Body) (H : Grid) (bid : Nat) :
    ∀ (todo : List Nat) (ps : List (PairKey × GPair)),
    bid ∉ todo →
    (ps.map Prod.fst).Nodup →
    (∀ k p, (k, p) ∈ ps → pairGood env k p ∧ 1 ≤ p.count ∧
      p.count = coCount H p.bodyA p.bodyB + pendTodo bid todo p) →
    (∀ x ∈ env, ∀ y ∈ env, x.id ≠ y.id → canCollide x y = true →
      1 ≤ coCount H x.id y.id + pendXY bid todo x.id y.id →
      ∃ p, (getPairId x.id y.id, p) ∈ ps) →
    (((todo.foldl (decPair bid) ps).map Prod.fst).Nodup ∧
     (∀ k p, (k, p) ∈ todo.foldl (decPair bid) ps → pairGood env k p ∧ 1 ≤ p.count ∧
       p.count = coCount H p.bodyA p.bodyB) ∧
     (∀ x ∈ env, ∀ y ∈ env, x.id ≠ y.id → canCollide x y = true →
       1 ≤ coCount H x.id y.id →
       ∃ p, (getPairId x.id y.id, p) ∈ todo.foldl (decPair bid) ps)) := by
  intro todo
  induction todo with
  | nil =>
    intro ps _ hkeys hsound hcompl
    refine ⟨hkeys, ?_, ?_⟩
    · intro k p hkp
      obtain ⟨hg, hc1, hc2⟩ := hsound k p hkp
      rw [pendTodo_nil] at hc2
      exact ⟨hg, hc1, by omega⟩
    · intro x hx y hy hne hcc hco
      refine hcompl x hx y hy hne hcc ?_
      rw [pendXY_nil]
      omega
  | cons oid rest ih =>
    intro ps hbid hkeys hsound hcompl
    have hod : ¬ bid = oid := by
      intro hc
      exact hbid (by rw [hc]; exact List.mem_cons_self _ _)
    have hbrest : bid ∉ rest := by
      intro hc
      exact hbid (List.mem_cons_of_mem _ hc)
    rw [List.foldl_cons]
    rcases halg : alGet ps (getPairId bid oid) with _ | p
    · have hstep : decPair bid ps oid = ps := by
        simp [decPair, halg]
      rw [hstep]
      apply ih ps hbrest hkeys
      · intro k p hkp
        obtain ⟨hg, hc1, hc2⟩ := hsound k p hkp
        refine ⟨hg, hc1, ?_⟩
        have hkne : ¬(getPairId p.bodyA p.bodyB = getPairId bid oid) := by
          intro hc
          have h1 : alGet ps k = some p := alGet_of_mem_nodup hkeys hkp
          rw [hg.1, hc, halg] at h1
          cases h1
        rw [pendTodo_cons_ne hkne] at hc2
        exact hc2
      · intro x hx y hy hne hcc hco
        apply hcompl x hx y hy hne hcc
        have := pendXY_cons_le bid oid rest x.id y.id
        omega
    · have hkpmem : (getPairId bid oid, p) ∈ ps := mem_of_alGet_eq_some halg
      obtain ⟨hg, hc1, hc2⟩ := hsound _ p hkpmem
      have hAB : (bid = p.bodyA ∧ oid = p.bodyB) ∨ (bid = p.bodyB ∧ oid = p.bodyA) :=
        getPairId_inj hg.1
      have hpend : pendTodo bid (oid :: rest) p = rest.count oid + 1 := by
        unfold pendTodo
        rcases hAB with ⟨h1, h2⟩ | ⟨h1, h2⟩
        · rw [if_pos h1.symm, ← h2, count_cons_self_nat]
        · have hnA : ¬ p.bodyA = bid := by
            rw [← h2]
            intro hc
            exact hod hc.symm
          rw [if_neg hnA, if_pos h1.symm, ← h2, count_cons_self_nat]
      have hpendr : pendTodo bid rest p = rest.count oid := by
        unfold pendTodo
        rcases hAB with ⟨h1, h2⟩ | ⟨h1, h2⟩
        · rw [if_pos h1.symm, ← h2]
        · have hnA : ¬ p.bodyA = bid := by
            rw [← h2]
            intro hc
            exact hod hc.symm
          rw [if_neg hnA, if_pos h1.symm, ← h2]
      have hcoAB : coCount H p.bodyA p.bodyB = coCount H bid oid := by
        rcases hAB with ⟨h1, h2⟩ | ⟨h1, h2⟩
        · rw [← h1, ← h2]
        · rw [← h1, ← h2, coCount_comm]
      by_cases hcnt : p.count = 1
      · have hstep : decPair bid ps oid = alErase ps (getPairId bid oid) := by
          simp [decPair, halg, hcnt]
        rw [hstep]
        have hz : coCount H bid oid = 0 ∧ rest.count oid = 0 := by
          rw [hcnt, hpend, hcoAB] at hc2
          omega
        apply ih (alErase ps (getPairId bid oid)) hbrest
        · exact alErase_keys_nodup hkeys _
        · intro k q hkq
          have hkq' : (k, q) ∈ ps := mem_of_mem_alErase hkq
          obtain ⟨hg', hc1', hc2'⟩ := hsound k q hkq'
          refine ⟨hg', hc1', ?_⟩
          have hkne : ¬(getPairId q.bodyA q.bodyB = getPairId bid oid) := by
            intro hc
            have hkk : k = getPairId bid oid := by
              rw [hg'.1, hc]
            rw [hkk] at hkq
            exact not_mem_alErase_self hkeys hkq
          rw [pendTodo_cons_ne hkne] at hc2'
          exact hc2'
        · intro x hx y hy hne hcc hco
          by_cases hkxy : getPairId x.id y.id = getPairId bid oid
          · exfalso
            have hxy : (x.id = bid ∧ y.id = oid) ∨ (x.id = oid ∧ y.id = bid) := by
              rcases getPairId_inj hkxy with ⟨h1, h2⟩ | ⟨h1, h2⟩
              · exact Or.inl ⟨h1, h2⟩
              · exact Or.inr ⟨h1, h2⟩
            have hcoxy : coCount H x.id y.id = coCount H bid oid := by
              rcases hxy with ⟨h1, h2⟩ | ⟨h1, h2⟩
              · rw [h1, h2]
              · rw [h1, h2, coCount_comm]
            have hpxy : pendXY bid rest x.id y.id = rest.count oid := by
              unfold pendXY
              rcases hxy with ⟨h1, h2⟩ | ⟨h1, h2⟩
              · rw [if_pos h1, h2]
              · have hnx : ¬ x.id = bid := by
                  rw [h1]
                  intro hc
                  exact hod hc.symm
                rw [if_neg hnx, if_pos h2, h1]
            rw [hcoxy, hpxy] at hco
            omega
          · have hco' : 1 ≤ coCount H x.id y.id + pendXY bid (oid :: rest) x.id y.id := by
              have := pendXY_cons_le bid oid rest x.id y.id
              omega
            obtain ⟨q, hq⟩ := hcompl x hx y hy hne hcc hco'
            exact ⟨q, mem_alErase_of_ne hq hkxy⟩
      · have hstep : decPair bid ps oid =
            alSet ps (getPairId bid oid) { p with count := p.count - 1 } := by
          simp [decPair, halg, hcnt]
        rw [hstep]
        have hkmem : getPairId bid oid ∈ ps.map Prod.fst :=
          List.mem_map.mpr ⟨(getPairId bid oid, p), hkpmem, rfl⟩
        apply ih _ hbrest
        · rw [alSet_map_fst_of_mem _ hkmem]
          exact hkeys
        · intro k q hkq
          rcases mem_alSet_elim hkeys hkq with ⟨hk, hq⟩ | ⟨hmem', hkne⟩
          · refine ⟨?_, ?_, ?_⟩
            · rw [hq, hk]
              exact ⟨hg.1, hg.2.1, hg.2.2⟩
            · rw [hq]
              show 1 ≤ p.count - 1
              omega
            · rw [hq]
              show p.count - 1 = coCount H p.bodyA p.bodyB +
                pendTodo bid rest { p with count := p.count - 1 }
              have hpq : pendTodo bid rest { p with count := p.count - 1 } =
                  pendTodo bid rest p := rfl
              rw [hpq, hpendr, hcoAB]
              rw [hpend, hcoAB] at hc2
              omega
          · obtain ⟨hg', hc1', hc2'⟩ := hsound k q hmem'
            refine ⟨hg', hc1', ?_⟩
            have hknq : ¬(getPairId q.bodyA q.bodyB = getPairId bid oid) := by
              intro hc
              exact hkne (by rw [hg'.1, hc])
            rw [pendTodo_cons_ne hknq] at hc2'
            exact hc2'
        · intro x hx y hy hne hcc hco
          by_cases hkxy : getPairId x.id y.id = getPairId bid oid
          · refine ⟨{ p with count := p.count - 1 }, ?_⟩
            rw [hkxy]
            exact mem_alSet_self _ _ _
          · have hco' : 1 ≤ coCount H x.id y.id + pendXY bid (oid :: rest) x.id y.id := by
              have := pendXY_cons_le bid oid rest x.id y.id
              omega
            obtain ⟨q, hq⟩ := hcompl x hx y hy hne hcc hco'
            exact ⟨q, mem_alSet_of_ne hq hkxy⟩

/-! ### The pair-count bookkeeping of `_addPairs`, one id at a time -/

theorem pendXY_cons_ne {bid oid : Nat} {rest : List Nat} {i j : Nat}
    (h : ¬(getPairId i j = getPairId bid oid)) :
    pendXY bid (oid :: rest) i j = pendXY bid rest i j := by
  unfold pendXY
  by_cases hA : i = bid
  · rw [if_pos hA, if_pos hA]
    have hBo : j ≠ oid := by
      intro hc
      exact h (by rw [hA, hc])
    rw [count_cons_ne_nat hBo]
  · rw [if_neg hA, if_neg hA]
    by_cases hB : j = bid
    · rw [if_pos hB, if_pos hB]
      have hAo : i ≠ oid := by
        intro hc
        exact h (by rw [hB, hc]; exact getPairId_comm _ _)
      rw [count_cons_ne_nat hAo]
    · rw [if_neg hB, if_neg hB]

theorem alSet_keys_nodup_append {κ α : Type} [DecidableEq κ] {l : List (κ × α)}
    (hN : (l.map Prod.fst).Nodup) {k : κ} (hk : k ∉ l.map Prod.fst) (v : α) :
    ((alSet l k v).map Prod.fst).Nodup := by
  rw [alSet_eq_append _ hk, List.map_append]
  simp only [List.map_cons, List.map_nil]
  rw [List.nodup_append]
  refine ⟨hN, by simp, ?_⟩
  intro a ha hc
  simp only [List.mem_singleton] at hc
  rw [hc] at ha
  exact hk ha

theorem not_mem_of_alGet_none {κ α : Type} [DecidableEq κ] {l : List (κ × α)} {k : κ}
    (h : alGet l k = none) : ∀ v, (k, v) ∉ l := by
  intro v hv
  exact alGet_ne_none_of_mem hv h

theorem canCollide_symm (a b : Body) : canCollide a b = canCollide b a := by
  rcases ha : a.var with ⟨sa, ssa⟩ | fa | fa | fa <;>
    rcases hb : b.var with ⟨sb, ssb⟩ | fb | fb | fb <;>
    simp [canCollide, Body.type, Body.ownerIdB, ha, hb] <;>
    split_ifs <;>
    simp_all

theorem pairsSound_shift (env : List Body) (H : Grid) (bid oid : Nat) (rest : List Nat)
    (ps : List (PairKey × GPair))
    (h : ∀ k p, (k, p) ∈ ps → pairGood env k p ∧ 1 ≤ p.count ∧
      p.count + pendTodo bid (oid :: rest) p = coCount H p.bodyA p.bodyB)
    (hne : ∀ k p, (k, p) ∈ ps → ¬(getPairId p.bodyA p.bodyB = getPairId bid oid)) :
    ∀ k p, (k, p) ∈ ps → pairGood env k p ∧ 1 ≤ p.count ∧
      p.count + pendTodo bid rest p = coCount H p.bodyA p.bodyB := by
  intro k p hkp
  obtain ⟨hg, h1, h2⟩ := h k p hkp
  rw [pendTodo_cons_ne (hne k p hkp)] at h2
  exact ⟨hg, h1, h2⟩

theorem pairsCompl_shift (env : List Body) (H : Grid) (bid oid : Nat) (rest : List Nat)
    (ps : List (PairKey × GPair))
    (h : ∀ x ∈ env, ∀ y ∈ env, x.id ≠ y.id → canCollide x y = true →
      (∀ q, (getPairId x.id y.id, q) ∉ ps) →
      coCount H x.id y.id = pendXY bid (oid :: rest) x.id y.id)
    (hne : ∀ x ∈ env, ∀ y ∈ env, x.id ≠ y.id → canCollide x y = true →
      ¬(getPairId x.id y.id = getPairId bid oid)) :
    ∀ x ∈ env, ∀ y ∈ env, x.id ≠ y.id → canCollide x y = true →
      (∀ q, (getPairId x.id y.id, q) ∉ ps) →
      coCount H x.id y.id = pendXY bid rest x.id y.id := by
  intro x hx y hy hxy hcc habs
  rw [← pendXY_cons_ne (hne x hx y hy hxy hcc)]
  exact h x hx y hy hxy hcc habs

theorem incFold_spec (env : List Body) (H : Grid) (body : Body)
    (hids : (env.map Body.id).Nodup) (hbody : body ∈ env) :
    ∀ (todo : List Nat) (ps : List (PairKey × GPair)),
    (ps.map Prod.fst).Nodup →
    (∀ k p, (k, p) ∈ ps → pairGood env k p ∧ 1 ≤ p.count ∧
      p.count + pendTodo body.id todo p = coCount H p.bodyA p.bodyB) →
    (∀ x ∈ env, ∀ y ∈ env, x.id ≠ y.id → canCollide x y = true →
      (∀ q, (getPairId x.id y.id, q) ∉ ps) →
      coCount H x.id y.id = pendXY body.id todo x.id y.id) →
    (((todo.foldl (incPair env body) ps).map Prod.fst).Nodup ∧
     (∀ k p, (k, p) ∈ todo.foldl (incPair env body) ps → pairGood env k p ∧ 1 ≤ p.count ∧
       p.count = coCount H p.bodyA p.bodyB) ∧
     (∀ x ∈ env, ∀ y ∈ env, x.id ≠ y.id → canCollide x y = true →
       1 ≤ coCount H x.id y.id →
       ∃ p, (getPairId x.id y.id, p) ∈ todo.foldl (incPair env body) ps)) := by
  intro todo
  induction todo with
  | nil =>
    intro ps hkeys hsound hcompl
    refine ⟨hkeys, ?_, ?_⟩
    · intro k p hkp
      obtain ⟨hg, hc1, hc2⟩ := hsound k p hkp
      rw [pendTodo_nil] at hc2
      exact ⟨hg, hc1, by omega⟩
    · intro x hx y hy hne hcc hco
      by_contra hnex
      push_neg at hnex
      have h0 := hcompl x hx y hy hne hcc hnex
      rw [pendXY_nil] at h0
      omega
  | cons oid rest ih =>
    intro ps hkeys hsound hcompl
    rw [List.foldl_cons]
    by_cases hoid : oid = body.id
    · have hstep : incPair env body ps oid = ps := by
        simp [incPair, hoid]
      rw [hstep]
      apply ih ps hkeys
      · apply pairsSound_shift env H body.id oid rest ps hsound
        intro k p hkp hc
        rcases getPairId_inj hc with ⟨h1, h2⟩ | ⟨h1, h2⟩
        · exact (hsound k p hkp).1.2.1 (by rw [h1, h2, hoid])
        · exact (hsound k p hkp).1.2.1 (by rw [h1, h2, hoid])
      · apply pairsCompl_shift env H body.id oid rest ps hcompl
        intro x hx y hy hxy hcc hc
        rcases getPairId_inj hc with ⟨h1, h2⟩ | ⟨h1, h2⟩
        · exact hxy (by rw [h1, h2, hoid])
        · exact hxy (by rw [h1, h2, hoid])
    · rcases hfb : findBody env oid with _ | other
      · have hstep : incPair env body ps oid = ps := by
          simp [incPair, hoid, hfb]
        rw [hstep]
        have hnooid : ∀ z ∈ env, z.id ≠ oid := by
          intro z hz hc
          have := findBody_eq_of_mem hids hz
          rw [hc, hfb] at this
          cases this
        apply ih ps hkeys
        · apply pairsSound_shift env H body.id oid rest ps hsound
          intro k p hkp hc
          obtain ⟨_, _, x0, hx0, y0, hy0, hxid, hyid, _⟩ := (hsound k p hkp).1
          rcases getPairId_inj hc with ⟨_, h2⟩ | ⟨h1, _⟩
          · exact hnooid y0 hy0 (by rw [hyid, h2])
          · exact hnooid x0 hx0 (by rw [hxid, h1])
        · apply pairsCompl_shift env H body.id oid rest ps hcompl
          intro x hx y hy hxy hcc hc
          rcases getPairId_inj hc with ⟨_, h2⟩ | ⟨h1, _⟩
          · exact hnooid y hy h2
          · exact hnooid x hx h1
      · obtain ⟨hother, hotherid⟩ := findBody_some hfb
        by_cases hcc : canCollide body other = true
        · rcases halg : alGet ps (getPairId body.id oid) with _ | p
          · have hstep : incPair env body ps oid =
                alSet ps (getPairId body.id oid) ⟨body.id, oid, 1⟩ := by
              simp [incPair, hoid, hfb, hcc, halg]
            rw [hstep]
            have hknotin : getPairId body.id oid ∉ ps.map Prod.fst :=
              (alGet_none_iff _ _).mp halg
            have hbo : body.id ≠ oid := fun hc => hoid hc.symm
            have hbo' : body.id ≠ other.id := by
              rw [hotherid]
              exact hbo
            have habs : ∀ q, (getPairId body.id other.id, q) ∉ ps := by
              rw [hotherid]
              exact not_mem_of_alGet_none halg
            have hcoeq := hcompl body hbody other hother hbo' hcc habs
            rw [hotherid] at hcoeq
            have hpxy : pendXY body.id (oid :: rest) body.id oid = rest.count oid + 1 := by
              unfold pendXY
              rw [if_pos rfl, count_cons_self_nat]
            rw [hpxy] at hcoeq
            apply ih _ (alSet_keys_nodup_append hkeys hknotin _)
            · intro k q hkq
              rcases mem_alSet_elim hkeys hkq with ⟨hk, hq⟩ | ⟨hmem', hkne⟩
              · refine ⟨?_, ?_, ?_⟩
                · rw [hq, hk]
                  exact ⟨rfl, hbo, body, hbody, other, hother, rfl, hotherid, hcc⟩
                · rw [hq]
                · rw [hq]
                  show 1 + pendTodo body.id rest ⟨body.id, oid, 1⟩ =
                    coCount H body.id oid
                  have hpt : pendTodo body.id rest ⟨body.id, oid, 1⟩ = rest.count oid := by
                    unfold pendTodo
                    rw [if_pos rfl]
                  rw [hpt]
                  omega
              · obtain ⟨hg', hc1', hc2'⟩ := hsound k q hmem'
                refine ⟨hg', hc1', ?_⟩
                rw [← pendTodo_cons_ne (by
                  intro hc
                  exact hkne (by rw [hg'.1, hc]))]
                exact hc2'
            · intro x hx y hy hxy hcc2 habs2
              by_cases hkxy : getPairId x.id y.id = getPairId body.id oid
              · exfalso
                exact habs2 ⟨body.id, oid, 1⟩ (by rw [hkxy]; exact mem_alSet_self _ _ _)
              · have habs3 : ∀ q, (getPairId x.id y.id, q) ∉ ps := by
                  intro q hq
                  exact habs2 q (mem_alSet_of_ne hq hkxy)
                rw [← pendXY_cons_ne hkxy]
                exact hcompl x hx y hy hxy hcc2 habs3
          · have hstep : incPair env body ps oid =
                alSet ps (getPairId body.id oid) { p with count := p.count + 1 } := by
              simp [incPair, hoid, hfb, hcc, halg]
            rw [hstep]
            have hkpmem : (getPairId body.id oid, p) ∈ ps := mem_of_alGet_eq_some halg
            obtain ⟨hg, hc1, hc2⟩ := hsound _ p hkpmem
            have hAB : (body.id = p.bodyA ∧ oid = p.bodyB) ∨
                (body.id = p.bodyB ∧ oid = p.bodyA) := getPairId_inj hg.1
            have hbo : ¬ body.id = oid := fun hc => hoid hc.symm
            have hpend : pendTodo body.id (oid :: rest) p = rest.count oid + 1 := by
              unfold pendTodo
              rcases hAB with ⟨h1, h2⟩ | ⟨h1, h2⟩
              · rw [if_pos h1.symm, ← h2, count_cons_self_nat]
              · have hnA : ¬ p.bodyA = body.id := by
                  rw [← h2]
                  intro hc
                  exact hbo hc.symm
                rw [if_neg hnA, if_pos h1.symm, ← h2, count_cons_self_nat]
            have hpendr : pendTodo body.id rest p = rest.count oid := by
              unfold pendTodo
              rcases hAB with ⟨h1, h2⟩ | ⟨h1, h2⟩
              · rw [if_pos h1.symm, ← h2]
              · have hnA : ¬ p.bodyA = body.id := by
                  rw [← h2]
                  intro hc
                  exact hbo hc.symm
                rw [if_neg hnA, if_pos h1.symm, ← h2]
            have hkmem : getPairId body.id oid ∈ ps.map Prod.fst :=
              List.mem_map.mpr ⟨(getPairId body.id oid, p), hkpmem, rfl⟩
            apply ih _ (by rw [alSet_map_fst_of_mem _ hkmem]; exact hkeys)
            · intro k q hkq
              rcases mem_alSet_elim hkeys hkq with ⟨hk, hq⟩ | ⟨hmem', hkne⟩
              · refine ⟨?_, ?_, ?_⟩
                · rw [hq, hk]
                  exact ⟨hg.1, hg.2.1, hg.2.2⟩
                · rw [hq]
                  show 1 ≤ p.count + 1
                  omega
                · rw [hq]
                  show p.count + 1 + pendTodo body.id rest { p with count := p.count + 1 } =
                    coCount H p.bodyA p.bodyB
                  have hpq : pendTodo body.id rest { p with count := p.count + 1 } =
                      pendTodo body.id rest p := rfl
                  rw [hpq, hpendr]
                  rw [hpend] at hc2
                  omega
              · obtain ⟨hg', hc1', hc2'⟩ := hsound k q hmem'
                refine ⟨hg', hc1', ?_⟩
                rw [← pendTodo_cons_ne (by
                  intro hc
                  exact hkne (by rw [hg'.1, hc]))]
                exact hc2'
            · intro x hx y hy hxy hcc2 habs2
              by_cases hkxy : getPairId x.id y.id = getPairId body.id oid
              · exfalso
                exact habs2 { p with count := p.count + 1 }
                  (by rw [hkxy]; exact mem_alSet_self _ _ _)
              · have habs3 : ∀ q, (getPairId x.id y.id, q) ∉ ps := by
                  intro q hq
                  exact habs2 q (mem_alSet_of_ne hq hkxy)
                rw [← pendXY_cons_ne hkxy]
                exact hcompl x hx y hy hxy hcc2 habs3
        · have hstep : incPair env body ps oid = ps := by
            simp [incPair, hoid, hfb]
            intro hcc'
            exact absurd hcc' hcc
          rw [hstep]
          have hccf : canCollide body other = false := by
            rcases Bool.eq_false_or_eq_true (canCollide body other) with h | h
            · exact absurd h hcc
            · exact h
          apply ih ps hkeys
          · apply pairsSound_shift env H body.id oid rest ps hsound
            intro k p hkp hc
            obtain ⟨_, _, x0, hx0, y0, hy0, hxid, hyid, hcc0⟩ := (hsound k p hkp).1
            rcases getPairId_inj hc with ⟨h1, h2⟩ | ⟨h1, h2⟩
            · have hxb : x0 = body := body_id_inj hids hx0 hbody (by rw [hxid, h1])
              have hyo : y0 = other := body_id_inj hids hy0 hother
                (by rw [hyid, h2, hotherid])
              rw [hxb, hyo, hccf] at hcc0
              cases hcc0
            · have hxo : x0 = other := body_id_inj hids hx0 hother
                (by rw [hxid, h1, hotherid])
              have hyb : y0 = body := body_id_inj hids hy0 hbody (by rw [hyid, h2])
              rw [hxo, hyb, ← canCollide_symm, hccf] at hcc0
              cases hcc0
          · apply pairsCompl_shift env H body.id oid rest ps hcompl
            intro x hx y hy hxy hcc2 hc
            rcases getPairId_inj hc with ⟨h1, h2⟩ | ⟨h1, h2⟩
            · have hxb : x = body := body_id_inj hids hx hbody h1
              have hyo : y = other := body_id_inj hids hy hother
                (by rw [h2, hotherid])
              rw [hxb, hyo, hccf] at hcc2
              cases hcc2
            · have hxo : x = other := body_id_inj hids hx hother
                (by rw [h1, hotherid])
              have hyb : y = body := body_id_inj hids hy hbody h2
              rw [hxo, hyb, ← canCollide_symm, hccf] at hcc2
              cases hcc2

/-! ### The two grid phases preserve the pair-count invariant -/

theorem idsIn_nodup {g : Grid} (hlists : ∀ e ∈ g.hash, List.Nodup e.2) (r : Region) :
    (idsIn g r).Nodup := by
  rw [idsIn]
  rcases h : alGet g.hash r with _ | l
  · exact List.nodup_nil
  · exact hlists _ (mem_of_alGet_eq_some h)

theorem remPhaseG_spec (env : List Body) (bid : Nat) (g : Grid) (rs : List Region)
    (hids : (env.map Body.id).Nodup)
    (hrs : rs.Nodup)
    (hkeys : (g.hash.map Prod.fst).Nodup)
    (hlists : ∀ e ∈ g.hash, List.Nodup e.2)
    (hpres : ∀ r ∈ rs, bid ∈ idsIn g r)
    (pkeys : (g.pairs.map Prod.fst).Nodup)
    (psound : ∀ k p, (k, p) ∈ g.pairs → pairGood env k p ∧ 1 ≤ p.count ∧
      p.count = coCount g p.bodyA p.bodyB)
    (pcompl : ∀ x ∈ env, ∀ y ∈ env, x.id ≠ y.id → canCollide x y = true →
      1 ≤ coCount g x.id y.id → ∃ p, (getPairId x.id y.id, p) ∈ g.pairs) :
    ((remPhaseG bid g rs).hash.map Prod.fst = g.hash.map Prod.fst ∧
     (∀ e ∈ (remPhaseG bid g rs).hash, List.Nodup e.2) ∧
     (∀ r', idsIn (remPhaseG bid g rs) r' =
        if r' ∈ rs then (idsIn g r').erase bid else idsIn g r') ∧
     (∀ e ∈ (remPhaseG bid g rs).hash, ∀ i ∈ e.2, ∃ e₀ ∈ g.hash, i ∈ e₀.2) ∧
     (∀ i j, i ≠ bid → j ≠ bid → coCount (remPhaseG bid g rs) i j = coCount g i j) ∧
     (∀ j, j ≠ bid →
        coCount (remPhaseG bid g rs) bid j + coCountIn g rs j = coCount g bid j) ∧
     (((remPhaseG bid g rs).pairs.map Prod.fst).Nodup ∧
      (∀ k p, (k, p) ∈ (remPhaseG bid g rs).pairs → pairGood env k p ∧ 1 ≤ p.count ∧
        p.count = coCount (remPhaseG bid g rs) p.bodyA p.bodyB) ∧
      (∀ x ∈ env, ∀ y ∈ env, x.id ≠ y.id → canCollide x y = true →
        1 ≤ coCount (remPhaseG bid g rs) x.id y.id →
        ∃ p, (getPairId x.id y.id, p) ∈ (remPhaseG bid g rs).pairs))) := by
  obtain ⟨hkeq, hl1, hids1, hown1, hcij1, hcbid1, hprs1⟩ :=
    hashRemoveFold_spec bid rs g hrs hkeys hlists hpres
  have hG : remPhaseG bid g rs =
      { pairs := (rs.flatMap (fun r =>
          idsIn (rs.foldl (fun g r => hashRemove g r bid) g) r)).foldl (decPair bid)
          g.pairs,
        hash := (rs.foldl (fun g r => hashRemove g r bid) g).hash } := by
    rw [remPhaseG, removePairs_eq_flat, hprs1]
  have hl1' : ∀ r, (idsIn (rs.foldl (fun g r => hashRemove g r bid) g) r).Nodup :=
    idsIn_nodup hl1
  have hgl : ∀ r, (idsIn g r).Nodup := idsIn_nodup hlists
  have htodoc : ∀ j, j ≠ bid →
      (rs.flatMap (fun r => idsIn (rs.foldl (fun g r => hashRemove g r bid) g) r)).count j =
      coCountIn g rs j := by
    intro j hj
    rw [count_flatMap_eq_countP _ _ (fun r _ => hl1' r)]
    apply List.countP_congr
    intro r hr
    rw [contains_decide, contains_decide, hids1 r, if_pos hr]
    simp only [decide_eq_true_eq]
    exact List.mem_erase_of_ne hj
  have hbidtodo : bid ∉
      rs.flatMap (fun r => idsIn (rs.foldl (fun g r => hashRemove g r bid) g) r) := by
    intro hmem
    obtain ⟨r, hr, hbm⟩ := List.mem_flatMap.mp hmem
    rw [hids1 r, if_pos hr] at hbm
    exact (List.Nodup.not_mem_erase (hgl r)) hbm
  obtain ⟨qk, qs, qc⟩ := decFold_spec env (rs.foldl (fun g r => hashRemove g r bid) g) bid
    (rs.flatMap (fun r => idsIn (rs.foldl (fun g r => hashRemove g r bid) g) r))
    g.pairs hbidtodo pkeys
    (by
      intro k p hkp
      obtain ⟨hg', hc1, hc2⟩ := psound k p hkp
      refine ⟨hg', hc1, ?_⟩
      by_cases hA : p.bodyA = bid
      · have hBne : p.bodyB ≠ bid := by
          rw [← hA]
          exact fun hc => hg'.2.1 hc.symm
        have hpt : pendTodo bid
            (rs.flatMap (fun r => idsIn (rs.foldl (fun g r => hashRemove g r bid) g) r)) p =
            coCountIn g rs p.bodyB := by
          unfold pendTodo
          rw [if_pos hA, htodoc _ hBne]
        rw [hpt, hA]
        have := hcbid1 p.bodyB hBne
        rw [hA] at hc2
        omega
      · by_cases hB : p.bodyB = bid
        · have hAne : p.bodyA ≠ bid := hA
          have hpt : pendTodo bid
              (rs.flatMap (fun r => idsIn (rs.foldl (fun g r => hashRemove g r bid) g) r)) p =
              coCountIn g rs p.bodyA := by
            unfold pendTodo
            rw [if_neg hA, if_pos hB, htodoc _ hAne]
          rw [hpt, hB, coCount_comm]
          have := hcbid1 p.bodyA hAne
          rw [hB, coCount_comm g p.bodyA bid] at hc2
          omega
        · have hpt : pendTodo bid
              (rs.flatMap (fun r => idsIn (rs.foldl (fun g r => hashRemove g r bid) g) r)) p =
              0 := by
            unfold pendTodo
            rw [if_neg hA, if_neg hB]
          rw [hpt, hcij1 p.bodyA p.bodyB hA hB]
          omega)
    (by
      intro x hx y hy hne hcc hco
      apply pcompl x hx y hy hne hcc
      by_cases hA : x.id = bid
      · have hBne : y.id ≠ bid := by
          rw [← hA]
          exact fun hc => hne hc.symm
        have hpt : pendXY bid
            (rs.flatMap (fun r => idsIn (rs.foldl (fun g r => hashRemove g r bid) g) r))
            x.id y.id = coCountIn g rs y.id := by
          unfold pendXY
          rw [if_pos hA, htodoc _ hBne]
        rw [hpt, hA] at hco
        have := hcbid1 y.id hBne
        rw [hA]
        omega
      · by_cases hB : y.id = bid
        · have hpt : pendXY bid
              (rs.flatMap (fun r => idsIn (rs.foldl (fun g r => hashRemove g r bid) g) r))
              x.id y.id = coCountIn g rs x.id := by
            unfold pendXY
            rw [if_neg hA, if_pos hB, htodoc _ hA]
          rw [hpt, hB, coCount_comm] at hco
          have := hcbid1 x.id hA
          rw [hB, coCount_comm g x.id bid]
          omega
        · have hpt : pendXY bid
              (rs.flatMap (fun r => idsIn (rs.foldl (fun g r => hashRemove g r bid) g) r))
              x.id y.id = 0 := by
            unfold pendXY
            rw [if_neg hA, if_neg hB]
          rw [hpt, hcij1 x.id y.id hA hB] at hco
          omega)
  rw [hG]
  refine ⟨hkeq, hl1, ?_, hown1, ?_, ?_, qk, ?_, ?_⟩
  · intro r'
    exact hids1 r'
  · intro i j hi hj
    rw [coCount_mk]
    exact hcij1 i j hi hj
  · intro j hj
    rw [coCount_mk]
    exact hcbid1 j hj
  · intro k p hkp
    obtain ⟨hg', h1, h2⟩ := qs k p hkp
    refine ⟨hg', h1, ?_⟩
    rw [coCount_mk]
    exact h2
  · intro x hx y hy hne hcc hco
    rw [coCount_mk] at hco
    exact qc x hx y hy hne hcc hco

theorem addPhaseG_spec (env : List Body) (body : Body) (g : Grid) (rs : List Region)
    (hids : (env.map Body.id).Nodup)
    (hbody : body ∈ env)
    (hrs : rs.Nodup)
    (hkeys : (g.hash.map Prod.fst).Nodup)
    (hlists : ∀ e ∈ g.hash, List.Nodup e.2)
    (hfresh : ∀ r ∈ rs, body.id ∉ idsIn g r)
    (pkeys : (g.pairs.map Prod.fst).Nodup)
    (psound : ∀ k p, (k, p) ∈ g.pairs → pairGood env k p ∧ 1 ≤ p.count ∧
      p.count = coCount g p.bodyA p.bodyB)
    (pcompl : ∀ x ∈ env, ∀ y ∈ env, x.id ≠ y.id → canCollide x y = true →
      1 ≤ coCount g x.id y.id → ∃ p, (getPairId x.id y.id, p) ∈ g.pairs) :
    (((addPhaseG env body g rs).hash.map Prod.fst).Nodup ∧
     (∀ e ∈ (addPhaseG env body g rs).hash, List.Nodup e.2) ∧
     (∀ r', idsIn (addPhaseG env body g rs) r' =
        if r' ∈ rs then idsIn g r' ++ [body.id] else idsIn g r') ∧
     (∀ e ∈ (addPhaseG env body g rs).hash, ∀ i ∈ e.2,
        i = body.id ∨ ∃ e₀ ∈ g.hash, i ∈ e₀.2) ∧
     (∀ i j, i ≠ body.id → j ≠ body.id →
        coCount (addPhaseG env body g rs) i j = coCount g i j) ∧
     (∀ j, j ≠ body.id → coCount (addPhaseG env body g rs) body.id j =
        coCount g body.id j + coCountIn g rs j) ∧
     (((addPhaseG env body g rs).pairs.map Prod.fst).Nodup ∧
      (∀ k p, (k, p) ∈ (addPhaseG env body g rs).pairs → pairGood env k p ∧ 1 ≤ p.count ∧
        p.count = coCount (addPhaseG env body g rs) p.bodyA p.bodyB) ∧
      (∀ x ∈ env, ∀ y ∈ env, x.id ≠ y.id → canCollide x y = true →
        1 ≤ coCount (addPhaseG env body g rs) x.id y.id →
        ∃ p, (getPairId x.id y.id, p) ∈ (addPhaseG env body g rs).pairs))) := by
  obtain ⟨hk1, hl1, hids1, hown1, hcij1, hcbid1, hprs1⟩ :=
    hashAddFold_spec body.id rs g hrs hkeys hlists hfresh
  have hG : addPhaseG env body g rs =
      { pairs := (rs.flatMap (fun r =>
          idsIn (rs.foldl (fun g r => hashAdd g r body.id) g) r)).foldl (incPair env body)
          g.pairs,
        hash := (rs.foldl (fun g r => hashAdd g r body.id) g).hash } := by
    rw [addPhaseG, addPairs_eq_flat, hprs1]
  have hl1' : ∀ r, (idsIn (rs.foldl (fun g r => hashAdd g r body.id) g) r).Nodup :=
    idsIn_nodup hl1
  have htodoc : ∀ j, j ≠ body.id →
      (rs.flatMap (fun r => idsIn (rs.foldl (fun g r => hashAdd g r body.id) g) r)).count j =
      coCountIn g rs j := by
    intro j hj
    rw [count_flatMap_eq_countP _ _ (fun r _ => hl1' r)]
    apply List.countP_congr
    intro r hr
    rw [contains_decide, contains_decide, hids1 r, if_pos hr]
    simp only [decide_eq_true_eq, List.mem_append, List.mem_singleton]
    constructor
    · intro h
      rcases h with h | h
      · exact h
      · exact absurd h hj
    · intro h
      exact Or.inl h
  obtain ⟨qk, qs, qc⟩ := incFold_spec env (rs.foldl (fun g r => hashAdd g r body.id) g)
    body hids hbody
    (rs.flatMap (fun r => idsIn (rs.foldl (fun g r => hashAdd g r body.id) g) r))
    g.pairs pkeys
    (by
      intro k p hkp
      obtain ⟨hg', hc1, hc2⟩ := psound k p hkp
      refine ⟨hg', hc1, ?_⟩
      by_cases hA : p.bodyA = body.id
      · have hBne : p.bodyB ≠ body.id := by
          rw [← hA]
          exact fun hc => hg'.2.1 hc.symm
        have hpt : pendTodo body.id
            (rs.flatMap (fun r => idsIn (rs.foldl (fun g r => hashAdd g r body.id) g) r)) p =
            coCountIn g rs p.bodyB := by
          unfold pendTodo
          rw [if_pos hA, htodoc _ hBne]
        rw [hpt, hA]
        have := hcbid1 p.bodyB hBne
        rw [hA] at hc2
        omega
      · by_cases hB : p.bodyB = body.id
        · have hpt : pendTodo body.id
              (rs.flatMap (fun r => idsIn (rs.foldl (fun g r => hashAdd g r body.id) g) r)) p =
              coCountIn g rs p.bodyA := by
            unfold pendTodo
            rw [if_neg hA, if_pos hB, htodoc _ hA]
          rw [hpt, hB, coCount_comm]
          have := hcbid1 p.bodyA hA
          rw [hB, coCount_comm g p.bodyA body.id] at hc2
          omega
        · have hpt : pendTodo body.id
              (rs.flatMap (fun r => idsIn (rs.foldl (fun g r => hashAdd g r body.id) g) r)) p =
              0 := by
            unfold pendTodo
            rw [if_neg hA, if_neg hB]
          rw [hpt, hcij1 p.bodyA p.bodyB hA hB]
          omega)
    (by
      intro x hx y hy hne hcc habs
      have hco0 : coCount g x.id y.id = 0 := by
        by_contra hc0
        obtain ⟨p, hp⟩ := pcompl x hx y hy hne hcc (by omega)
        exact habs p hp
      by_cases hA : x.id = body.id
      · have hBne : y.id ≠ body.id := by
          rw [← hA]
          exact fun hc => hne hc.symm
        have hpt : pendXY body.id
            (rs.flatMap (fun r => idsIn (rs.foldl (fun g r => hashAdd g r body.id) g) r))
            x.id y.id = coCountIn g rs y.id := by
          unfold pendXY
          rw [if_pos hA, htodoc _ hBne]
        rw [hpt, hA]
        have := hcbid1 y.id hBne
        rw [hA] at hco0
        omega
      · by_cases hB : y.id = body.id
        · have hpt : pendXY body.id
              (rs.flatMap (fun r => idsIn (rs.foldl (fun g r => hashAdd g r body.id) g) r))
              x.id y.id = coCountIn g rs x.id := by
            unfold pendXY
            rw [if_neg hA, if_pos hB, htodoc _ hA]
          rw [hpt, hB, coCount_comm]
          have := hcbid1 x.id hA
          rw [hB, coCount_comm g x.id body.id] at hco0
          omega
        · have hpt : pendXY body.id
              (rs.flatMap (fun r => idsIn (rs.foldl (fun g r => hashAdd g r body.id) g) r))
              x.id y.id = 0 := by
            unfold pendXY
            rw [if_neg hA, if_neg hB]
          rw [hpt, hcij1 x.id y.id hA hB]
          omega)
  rw [hG]
  refine ⟨hk1, hl1, ?_, hown1, ?_, ?_, qk, ?_, ?_⟩
  · intro r'
    exact hids1 r'
  · intro i j hi hj
    rw [coCount_mk]
    exact hcij1 i j hi hj
  · intro j hj
    rw [coCount_mk]
    exact hcbid1 j hj
  · intro k p hkp
    obtain ⟨hg', h1, h2⟩ := qs k p hkp
    refine ⟨hg', h1, ?_⟩
    rw [coCount_mk]
    exact h2
  · intro x hx y hy hne hcc hco
    rw [coCount_mk] at hco
    exact qc x hx y hy hne hcc hco

/-! ### Transport helpers for the grid invariant -/

theorem mem_filter_not_contains {l₁ l₂ : List Region} {r : Region} :
    r ∈ l₁.filter (fun r => !l₂.contains r) ↔ r ∈ l₁ ∧ r ∉ l₂ := by
  rw [List.mem_filter]
  simp [contains_decide]

theorem exists_entry_of_mem_idsIn {g : Grid} {r : Region} {i : Nat}
    (h : i ∈ idsIn g r) : ∃ e ∈ g.hash, i ∈ e.2 := by
  rw [idsIn] at h
  rcases halg : alGet g.hash r with _ | l
  · rw [halg] at h
    cases h
  · rw [halg] at h
    exact ⟨(r, l), mem_of_alGet_eq_some halg, h⟩

theorem exists_entry_of_coCount_pos {g : Grid} {i j : Nat}
    (h : 1 ≤ coCount g i j) : ∃ e ∈ g.hash, i ∈ e.2 ∧ j ∈ e.2 := by
  rw [coCount] at h
  have h0 : 0 < List.countP (fun e => e.2.contains i && e.2.contains j) g.hash := by
    omega
  obtain ⟨e, he, hp⟩ := List.countP_pos_iff.mp h0
  rw [Bool.and_eq_true, contains_decide, contains_decide] at hp
  exact ⟨e, he, by simpa using hp.1, by simpa using hp.2⟩

theorem mem_idsIn_of_entry {g : Grid} (hkeys : (g.hash.map Prod.fst).Nodup)
    {e : Region × List Nat} (he : e ∈ g.hash) {i : Nat} (hi : i ∈ e.2) :
    i ∈ idsIn g e.1 := by
  obtain ⟨r, l⟩ := e
  rw [idsIn, alGet_of_mem_nodup hkeys he]
  exact hi

theorem not_mem_hash_of_unregistered {s : GridSt} (wf : GridWF s) {b : Body}
    (hb : b ∈ s.bodies) (hreg : b.regions = none) (r : Region) :
    b.id ∉ idsIn s.grid r := by
  intro hmem
  have := (wf.hmem b hb r).mp hmem
  rw [hreg] at this
  cases this

theorem replace_attrs_fwd {bodies : List Body} (hN : (bodies.map Body.id).Nodup)
    {b b' : Body} (hb : b ∈ bodies) (hid : b'.id = b.id) (hty : b'.type = b.type)
    (hown : b'.ownerIdB = b.ownerIdB) :
    ∀ x ∈ bodies, ∃ x' ∈ replaceBody bodies b',
      x'.id = x.id ∧ x'.type = x.type ∧ x'.ownerIdB = x.ownerIdB := by
  intro x hx
  by_cases h : x.id = b'.id
  · have hxb : x = b := body_id_inj hN hx hb (by rw [h, hid])
    refine ⟨b', replaceBody_self_mem hx h, h.symm, ?_, ?_⟩
    · rw [hxb, hty]
    · rw [hxb, hown]
  · exact ⟨x, mem_replaceBody_of_ne hx h, rfl, rfl, rfl⟩

theorem replace_attrs_bwd {bodies : List Body} {b b' : Body} (hb : b ∈ bodies)
    (hid : b'.id = b.id) (hty : b'.type = b.type) (hown : b'.ownerIdB = b.ownerIdB) :
    ∀ x' ∈ replaceBody bodies b', ∃ x ∈ bodies,
      x.id = x'.id ∧ x.type = x'.type ∧ x.ownerIdB = x'.ownerIdB := by
  intro x' hx'
  obtain ⟨x, hx, hdef⟩ := replaceBody_mem_elim hx'
  by_cases h : x.id = b'.id
  · rw [if_pos h] at hdef
    rw [hdef]
    exact ⟨b, hb, hid.symm, hty.symm, hown.symm⟩
  · rw [if_neg h] at hdef
    rw [hdef]
    exact ⟨x, hx, rfl, rfl, rfl⟩

theorem pairGood_sim {A B : List Body}
    (hAB : ∀ x ∈ A, ∃ x' ∈ B, x'.id = x.id ∧ x'.type = x.type ∧ x'.ownerIdB = x.ownerIdB)
    {k : PairKey} {p : GPair} (h : pairGood A k p) : pairGood B k p := by
  obtain ⟨h1, h2, x, hx, y, hy, hxid, hyid, hcc⟩ := h
  obtain ⟨x', hx', hxi, hxt, hxo⟩ := hAB x hx
  obtain ⟨y', hy', hyi, hyt, hyo⟩ := hAB y hy
  refine ⟨h1, h2, x', hx', y', hy', ?_, ?_, ?_⟩
  · rw [hxi, hxid]
  · rw [hyi, hyid]
  · rw [canCollide_congr hxt hxo hxi hyt hyo hyi]
    exact hcc

theorem pcomplete_sim {A B : List Body} {g : Grid}
    (hBA : ∀ x' ∈ B, ∃ x ∈ A, x.id = x'.id ∧ x.type = x'.type ∧ x.ownerIdB = x'.ownerIdB)
    (h : ∀ x ∈ A, ∀ y ∈ A, x.id ≠ y.id → canCollide x y = true →
      1 ≤ coCount g x.id y.id → ∃ p, (getPairId x.id y.id, p) ∈ g.pairs) :
    ∀ x' ∈ B, ∀ y' ∈ B, x'.id ≠ y'.id → canCollide x' y' = true →
      1 ≤ coCount g x'.id y'.id → ∃ p, (getPairId x'.id y'.id, p) ∈ g.pairs := by
  intro x' hx' y' hy' hne hcc hco
  obtain ⟨x, hx, hxi, hxt, hxo⟩ := hBA x' hx'
  obtain ⟨y, hy, hyi, hyt, hyo⟩ := hBA y' hy'
  have hh := h x hx y hy (by rw [hxi, hyi]; exact hne)
    (by rw [canCollide_congr hxt hxo hxi hyt hyo hyi]; exact hcc)
    (by rw [hxi, hyi]; exact hco)
  rw [hxi, hyi] at hh
  exact hh

/-! ### Preservation of the grid invariant by each operation -/

theorem gridWF_create (s : GridSt) (wf : GridWF s) (b : Body)
    (hid : b.id ∉ s.bodies.map Body.id) (hreg : b.regions = none) :
    GridWF ⟨s.bodies ++ [b], s.grid⟩ := by
  have hnotin : ∀ r, b.id ∉ idsIn s.grid r := by
    intro r hmem
    obtain ⟨e, he, hi⟩ := exists_entry_of_mem_idsIn hmem
    obtain ⟨z, hz, hzid⟩ := wf.howned e he b.id hi
    exact hid (List.mem_map.mpr ⟨z, hz, hzid⟩)
  refine ⟨?_, wf.hkeys, wf.hlists, ?_, ?_, ?_, wf.pkeys, ?_, ?_⟩
  · rw [List.map_append]
    simp only [List.map_cons, List.map_nil]
    rw [List.nodup_append]
    refine ⟨wf.idsN, by simp, ?_⟩
    intro a ha hb2
    simp only [List.mem_singleton] at hb2
    rw [hb2] at ha
    exact hid ha
  · intro e he i hi
    obtain ⟨z, hz, hzid⟩ := wf.howned e he i hi
    exact ⟨z, List.mem_append.mpr (Or.inl hz), hzid⟩
  · intro c hc r
    rcases List.mem_append.mp hc with hc | hc
    · exact wf.hmem c hc r
    · simp only [List.mem_singleton] at hc
      rw [hc, hreg]
      constructor
      · intro hmm
        exact absurd hmm (hnotin r)
      · intro hmm
        cases hmm
  · intro c hc
    rcases List.mem_append.mp hc with hc | hc
    · exact wf.rnodup c hc
    · simp only [List.mem_singleton] at hc
      rw [hc, hreg]
      exact List.nodup_nil
  · intro k p hkp
    obtain ⟨hg, h1, h2⟩ := wf.psound k p hkp
    refine ⟨pairGood_sim ?_ hg, h1, h2⟩
    intro x hx
    exact ⟨x, List.mem_append.mpr (Or.inl hx), rfl, rfl, rfl⟩
  · intro x hx y hy hne hcc hco
    have hmem2 : ∀ z ∈ s.bodies ++ [b], 1 ≤ coCount s.grid z.id y.id ∨
        1 ≤ coCount s.grid x.id z.id → True := fun _ _ _ => trivial
    obtain ⟨e, he, hxi, hyi⟩ := exists_entry_of_coCount_pos hco
    have hxb : x ∈ s.bodies := by
      rcases List.mem_append.mp hx with h | h
      · exact h
      · exfalso
        simp only [List.mem_singleton] at h
        apply hnotin e.1
        apply mem_idsIn_of_entry wf.hkeys he
        rw [← h]
        exact hxi
    have hyb : y ∈ s.bodies := by
      rcases List.mem_append.mp hy with h | h
      · exact h
      · exfalso
        simp only [List.mem_singleton] at h
        apply hnotin e.1
        apply mem_idsIn_of_entry wf.hkeys he
        rw [← h]
        exact hyi
    exact wf.pcomplete x hxb y hyb hne hcc hco

theorem gridWF_add (s : GridSt) (wf : GridWF s) (b : Body) (bounds : Bounds)
    (hb : b ∈ s.bodies) (hunreg : b.regions = none) :
    GridWF ⟨replaceBody s.bodies (gridAddBodyR s.bodies s.grid b (getRegions bounds)).2,
      (gridAddBodyR s.bodies s.grid b (getRegions bounds)).1⟩ := by
  have hrsnd : (getRegions bounds).Nodup := getRegions_nodup bounds
  have hfresh : ∀ r ∈ getRegions bounds, b.id ∉ idsIn s.grid r :=
    fun r _ => not_mem_hash_of_unregistered wf hb hunreg r
  obtain ⟨k1, l1, ids1, own1, cij1, cbid1, pk1, ps1, pc1⟩ :=
    addPhaseG_spec s.bodies b s.grid (getRegions bounds) wf.idsN hb hrsnd wf.hkeys
      wf.hlists hfresh wf.pkeys wf.psound wf.pcomplete
  have hGdef : (gridAddBodyR s.bodies s.grid b (getRegions bounds)).1 =
      addPhaseG s.bodies b s.grid (getRegions bounds) := rfl
  have hbdef : (gridAddBodyR s.bodies s.grid b (getRegions bounds)).2 =
      b.setRegions (some (getRegions bounds)) := rfl
  rw [hGdef, hbdef]
  refine ⟨?_, k1, l1, ?_, ?_, ?_, pk1, ?_, ?_⟩
  · rw [replaceBody_map_id]
    exact wf.idsN
  · intro e he i hi
    rcases own1 e he i hi with h | ⟨e0, he0, hi0⟩
    · refine ⟨b.setRegions (some (getRegions bounds)), replaceBody_self_mem hb rfl, ?_⟩
      rw [h]
      rfl
    · obtain ⟨z, hz, hzid⟩ := wf.howned e0 he0 i hi0
      obtain ⟨z', hz', hzi, _, _⟩ := replace_attrs_fwd wf.idsN hb
        (show (b.setRegions (some (getRegions bounds))).id = b.id from rfl) rfl rfl z hz
      exact ⟨z', hz', by rw [hzi, hzid]⟩
  · intro c hc r
    obtain ⟨x, hx, hcdef⟩ := replaceBody_mem_elim hc
    by_cases hxid : x.id = (b.setRegions (some (getRegions bounds))).id
    · rw [if_pos hxid] at hcdef
      rw [hcdef]
      rw [ids1 r]
      show b.id ∈ _ ↔ r ∈ getRegions bounds
      by_cases hr : r ∈ getRegions bounds
      · rw [if_pos hr]
        simp [hr]
      · rw [if_neg hr]
        constructor
        · intro hmm
          exact absurd hmm (not_mem_hash_of_unregistered wf hb hunreg r)
        · intro hmm
          exact absurd hmm hr
    · rw [if_neg hxid] at hcdef
      rw [hcdef]
      show x.id ∈ idsIn _ r ↔ _
      rw [ids1 r]
      by_cases hr : r ∈ getRegions bounds
      · rw [if_pos hr]
        simp only [List.mem_append, List.mem_singleton]
        constructor
        · intro h
          rcases h with h | h
          · exact (wf.hmem x hx r).mp h
          · exact absurd h hxid
        · intro h
          exact Or.inl ((wf.hmem x hx r).mpr h)
      · rw [if_neg hr]
        exact wf.hmem x hx r
  · intro c hc
    obtain ⟨x, hx, hcdef⟩ := replaceBody_mem_elim hc
    by_cases hxid : x.id = (b.setRegions (some (getRegions bounds))).id
    · rw [if_pos hxid] at hcdef
      rw [hcdef]
      exact hrsnd
    · rw [if_neg hxid] at hcdef
      rw [hcdef]
      exact wf.rnodup x hx
  · intro k p hkp
    obtain ⟨hg, h1, h2⟩ := ps1 k p hkp
    exact ⟨pairGood_sim (replace_attrs_fwd wf.idsN hb
      (show (b.setRegions (some (getRegions bounds))).id = b.id from rfl) rfl rfl) hg,
      h1, h2⟩
  · exact pcomplete_sim (replace_attrs_bwd hb
      (show (b.setRegions (some (getRegions bounds))).id = b.id from rfl) rfl rfl) pc1

theorem gridWF_reindex (s : GridSt) (wf : GridWF s) (b : Body) (bounds : Bounds)
    (old : List Region) (hb : b ∈ s.bodies) (hreg : b.regions = some old) :
    GridWF ⟨replaceBody s.bodies (gridUpdateBody s.bodies s.grid b (getRegions bounds)).2,
      (gridUpdateBody s.bodies s.grid b (getRegions bounds)).1⟩ := by
  have holdeq : b.regions.getD [] = old := by
    rw [hreg]
    rfl
  have hGdef : (gridUpdateBody s.bodies s.grid b (getRegions bounds)).1 =
      addPhaseG s.bodies b
        (remPhaseG b.id s.grid (old.filter (fun r => !(getRegions bounds).contains r)))
        ((getRegions bounds).filter (fun r => !old.contains r)) := by
    simp only [gridUpdateBody, holdeq, remPhaseG, addPhaseG]
  have hbdef : (gridUpdateBody s.bodies s.grid b (getRegions bounds)).2 =
      b.setRegions (some (getRegions bounds)) := by
    simp only [gridUpdateBody]
  have hold_nd : old.Nodup := by
    have := wf.rnodup b hb
    rw [holdeq] at this
    exact this
  have hnew_nd : (getRegions bounds).Nodup := getRegions_nodup bounds
  have hrem_nd : (old.filter (fun r => !(getRegions bounds).contains r)).Nodup :=
    hold_nd.filter _
  have hadd_nd : ((getRegions bounds).filter (fun r => !old.contains r)).Nodup :=
    hnew_nd.filter _
  have hmemb : ∀ r, b.id ∈ idsIn s.grid r ↔ r ∈ old := by
    intro r
    have := wf.hmem b hb r
    rw [holdeq] at this
    exact this
  have hpres : ∀ r ∈ old.filter (fun r => !(getRegions bounds).contains r),
      b.id ∈ idsIn s.grid r := by
    intro r hr
    exact (hmemb r).mpr (mem_filter_not_contains.mp hr).1
  obtain ⟨rk, rl, rids, rown, rcij, rcbid, rpk, rps, rpc⟩ :=
    remPhaseG_spec s.bodies b.id s.grid (old.filter (fun r => !(getRegions bounds).contains r))
      wf.idsN hrem_nd wf.hkeys wf.hlists hpres wf.pkeys wf.psound wf.pcomplete
  have hkeys2 : ((remPhaseG b.id s.grid
      (old.filter (fun r => !(getRegions bounds).contains r))).hash.map Prod.fst).Nodup := by
    rw [rk]
    exact wf.hkeys
  have hfresh2 : ∀ r ∈ (getRegions bounds).filter (fun r => !old.contains r),
      b.id ∉ idsIn (remPhaseG b.id s.grid
        (old.filter (fun r => !(getRegions bounds).contains r))) r := by
    intro r hr
    obtain ⟨hrn, hro⟩ := mem_filter_not_contains.mp hr
    have hnr : r ∉ old.filter (fun r => !(getRegions bounds).contains r) := by
      intro hc
      exact hro (mem_filter_not_contains.mp hc).1
    rw [rids r, if_neg hnr]
    intro hmm
    exact hro ((hmemb r).mp hmm)
  obtain ⟨ak, al, aids, aown, acij, acbid, apk, aps, apc⟩ :=
    addPhaseG_spec s.bodies b
      (remPhaseG b.id s.grid (old.filter (fun r => !(getRegions bounds).contains r)))
      ((getRegions bounds).filter (fun r => !old.contains r))
      wf.idsN hb hadd_nd hkeys2 rl hfresh2 rpk rps rpc
  rw [hGdef, hbdef]
  refine ⟨?_, ak, al, ?_, ?_, ?_, apk, ?_, ?_⟩
  · rw [replaceBody_map_id]
    exact wf.idsN
  · intro e he i hi
    rcases aown e he i hi with h | ⟨e0, he0, hi0⟩
    · refine ⟨b.setRegions (some (getRegions bounds)), replaceBody_self_mem hb rfl, ?_⟩
      rw [h]
      rfl
    · obtain ⟨e00, he00, hi00⟩ := rown e0 he0 i hi0
      obtain ⟨z, hz, hzid⟩ := wf.howned e00 he00 i hi00
      obtain ⟨z', hz', hzi, _, _⟩ := replace_attrs_fwd wf.idsN hb
        (show (b.setRegions (some (getRegions bounds))).id = b.id from rfl) rfl rfl z hz
      exact ⟨z', hz', by rw [hzi, hzid]⟩
  · intro c hc r
    obtain ⟨x, hx, hcdef⟩ := replaceBody_mem_elim hc
    by_cases hxid : x.id = (b.setRegions (some (getRegions bounds))).id
    · rw [if_pos hxid] at hcdef
      rw [hcdef]
      show b.id ∈ _ ↔ r ∈ getRegions bounds
      rw [aids r]
      by_cases hrn : r ∈ getRegions bounds
      · by_cases hro : r ∈ old
        · have hna : r ∉ (getRegions bounds).filter (fun r => !old.contains r) := by
            intro hc2
            exact (mem_filter_not_contains.mp hc2).2 hro
          have hnr : r ∉ old.filter (fun r => !(getRegions bounds).contains r) := by
            intro hc2
            exact (mem_filter_not_contains.mp hc2).2 hrn
          rw [if_neg hna, rids r, if_neg hnr]
          exact ⟨fun _ => hrn, fun _ => (hmemb r).mpr hro⟩
        · have hia : r ∈ (getRegions bounds).filter (fun r => !old.contains r) :=
            mem_filter_not_contains.mpr ⟨hrn, hro⟩
          rw [if_pos hia]
          exact ⟨fun _ => hrn,
            fun _ => List.mem_append.mpr (Or.inr (List.mem_singleton.mpr rfl))⟩
      · by_cases hro : r ∈ old
        · have hir : r ∈ old.filter (fun r => !(getRegions bounds).contains r) :=
            mem_filter_not_contains.mpr ⟨hro, hrn⟩
          have hna : r ∉ (getRegions bounds).filter (fun r => !old.contains r) := by
            intro hc2
            exact hrn (mem_filter_not_contains.mp hc2).1
          rw [if_neg hna, rids r, if_pos hir]
          constructor
          · intro hmm
            exact absurd hmm ((idsIn_nodup wf.hlists r).not_mem_erase)
          · intro hmm
            exact absurd hmm hrn
        · have hna : r ∉ (getRegions bounds).filter (fun r => !old.contains r) := by
            intro hc2
            exact hrn (mem_filter_not_contains.mp hc2).1
          have hnr : r ∉ old.filter (fun r => !(getRegions bounds).contains r) := by
            intro hc2
            exact hro (mem_filter_not_contains.mp hc2).1
          rw [if_neg hna, rids r, if_neg hnr]
          constructor
          · intro hmm
            exact absurd ((hmemb r).mp hmm) hro
          · intro hmm
            exact absurd hmm hrn
    · rw [if_neg hxid] at hcdef
      rw [hcdef]
      show x.id ∈ _ ↔ _
      rw [aids r]
      have hxidb : x.id ≠ b.id := hxid
      by_cases hra : r ∈ (getRegions bounds).filter (fun r => !old.contains r)
      · rw [if_pos hra]
        have hnr : r ∉ old.filter (fun r => !(getRegions bounds).contains r) := by
          intro hc2
          exact (mem_filter_not_contains.mp hra).2 (mem_filter_not_contains.mp hc2).1
        rw [rids r, if_neg hnr]
        simp only [List.mem_append, List.mem_singleton]
        constructor
        · intro h
          rcases h with h | h
          · exact (wf.hmem x hx r).mp h
          · exact absurd h hxidb
        · intro h
          exact Or.inl ((wf.hmem x hx r).mpr h)
      · rw [if_neg hra, rids r]
        by_cases hrr : r ∈ old.filter (fun r => !(getRegions bounds).contains r)
        · rw [if_pos hrr, List.mem_erase_of_ne hxidb]
          exact wf.hmem x hx r
        · rw [if_neg hrr]
          exact wf.hmem x hx r
  · intro c hc
    obtain ⟨x, hx, hcdef⟩ := replaceBody_mem_elim hc
    by_cases hxid : x.id = (b.setRegions (some (getRegions bounds))).id
    · rw [if_pos hxid] at hcdef
      rw [hcdef]
      exact hnew_nd
    · rw [if_neg hxid] at hcdef
      rw [hcdef]
      exact wf.rnodup x hx
  · intro k p hkp
    obtain ⟨hg, h1, h2⟩ := aps k p hkp
    exact ⟨pairGood_sim (replace_attrs_fwd wf.idsN hb
      (show (b.setRegions (some (getRegions bounds))).id = b.id from rfl) rfl rfl) hg,
      h1, h2⟩
  · exact pcomplete_sim (replace_attrs_bwd hb
      (show (b.setRegions (some (getRegions bounds))).id = b.id from rfl) rfl rfl) apc

theorem gridWF_remove (s : GridSt) (wf : GridWF s) (b : Body) (hb : b ∈ s.bodies) :
    GridWF ⟨replaceBody s.bodies (gridRemoveBody s.grid b).2,
      (gridRemoveBody s.grid b).1⟩ := by
  rcases hreg : b.regions with _ | old
  · have h1 : gridRemoveBody s.grid b = (s.grid, b) := by
      rw [gridRemoveBody, hreg]
    rw [h1]
    show GridWF ⟨replaceBody s.bodies b, s.grid⟩
    rw [replaceBody_eq_self wf.idsN hb]
    exact wf
  · have hGdef : (gridRemoveBody s.grid b).1 = remPhaseG b.id s.grid old := by
      simp only [gridRemoveBody, hreg, remPhaseG]
    have hbdef : (gridRemoveBody s.grid b).2 = b.setRegions none := by
      simp only [gridRemoveBody, hreg]
    have holdeq : b.regions.getD [] = old := by
      rw [hreg]
      rfl
    have hold_nd : old.Nodup := by
      have := wf.rnodup b hb
      rw [holdeq] at this
      exact this
    have hmemb : ∀ r, b.id ∈ idsIn s.grid r ↔ r ∈ old := by
      intro r
      have := wf.hmem b hb r
      rw [holdeq] at this
      exact this
    have hpres : ∀ r ∈ old, b.id ∈ idsIn s.grid r := fun r hr => (hmemb r).mpr hr
    obtain ⟨rk, rl, rids, rown, rcij, rcbid, rpk, rps, rpc⟩ :=
      remPhaseG_spec s.bodies b.id s.grid old wf.idsN hold_nd wf.hkeys wf.hlists hpres
        wf.pkeys wf.psound wf.pcomplete
    rw [hGdef, hbdef]
    refine ⟨?_, ?_, rl, ?_, ?_, ?_, rpk, ?_, ?_⟩
    · rw [replaceBody_map_id]
      exact wf.idsN
    · rw [rk]
      exact wf.hkeys
    · intro e he i hi
      obtain ⟨e0, he0, hi0⟩ := rown e he i hi
      obtain ⟨z, hz, hzid⟩ := wf.howned e0 he0 i hi0
      obtain ⟨z', hz', hzi, _, _⟩ := replace_attrs_fwd wf.idsN hb
        (show (b.setRegions none).id = b.id from rfl) rfl rfl z hz
      exact ⟨z', hz', by rw [hzi, hzid]⟩
    · intro c hc r
      obtain ⟨x, hx, hcdef⟩ := replaceBody_mem_elim hc
      by_cases hxid : x.id = (b.setRegions none).id
      · rw [if_pos hxid] at hcdef
        rw [hcdef]
        show b.id ∈ _ ↔ r ∈ ([] : List Region)
        rw [rids r]
        by_cases hro : r ∈ old
        · rw [if_pos hro]
          constructor
          · intro hmm
            exact absurd hmm ((idsIn_nodup wf.hlists r).not_mem_erase)
          · intro hmm
            cases hmm
        · rw [if_neg hro]
          constructor
          · intro hmm
            exact absurd ((hmemb r).mp hmm) hro
          · intro hmm
            cases hmm
      · rw [if_neg hxid] at hcdef
        rw [hcdef]
        show x.id ∈ _ ↔ _
        rw [rids r]
        have hxidb : x.id ≠ b.id := hxid
        by_cases hro : r ∈ old
        · rw [if_pos hro, List.mem_erase_of_ne hxidb]
          exact wf.hmem x hx r
        · rw [if_neg hro]
          exact wf.hmem x hx r
    · intro c hc
      obtain ⟨x, hx, hcdef⟩ := replaceBody_mem_elim hc
      by_cases hxid : x.id = (b.setRegions none).id
      · rw [if_pos hxid] at hcdef
        rw [hcdef]
        exact List.nodup_nil
      · rw [if_neg hxid] at hcdef
        rw [hcdef]
        exact wf.rnodup x hx
    · intro k p hkp
      obtain ⟨hg, h1, h2⟩ := rps k p hkp
      exact ⟨pairGood_sim (replace_attrs_fwd wf.idsN hb
        (show (b.setRegions none).id = b.id from rfl) rfl rfl) hg, h1, h2⟩
    · exact pcomplete_sim (replace_attrs_bwd hb
        (show (b.setRegions none).id = b.id from rfl) rfl rfl) rpc

theorem gridWF_drop (s : GridSt) (wf : GridWF s) (b : Body) (hb : b ∈ s.bodies)
    (hunreg : b.regions = none) :
    GridWF ⟨s.bodies.eraseP (fun x => decide (x.id = b.id)), s.grid⟩ := by
  have hnotin : ∀ r, b.id ∉ idsIn s.grid r := not_mem_hash_of_unregistered wf hb hunreg
  have hsub : List.Sublist (s.bodies.eraseP (fun x => decide (x.id = b.id))) s.bodies :=
    List.eraseP_sublist _
  have hidne : ∀ i, (∃ e ∈ s.grid.hash, i ∈ e.2) → i ≠ b.id := by
    rintro i ⟨e, he, hi⟩ hc
    apply hnotin e.1
    apply mem_idsIn_of_entry wf.hkeys he
    rw [hc] at hi
    exact hi
  have hsurv : ∀ z ∈ s.bodies, z.id ≠ b.id →
      z ∈ s.bodies.eraseP (fun x => decide (x.id = b.id)) := by
    intro z hz hne
    exact (List.mem_eraseP_of_neg (by simpa using hne)).mpr hz
  refine ⟨?_, wf.hkeys, wf.hlists, ?_, ?_, ?_, wf.pkeys, ?_, ?_⟩
  · exact List.Nodup.sublist (hsub.map Body.id) wf.idsN
  · intro e he i hi
    obtain ⟨z, hz, hzid⟩ := wf.howned e he i hi
    refine ⟨z, hsurv z hz ?_, hzid⟩
    rw [hzid]
    exact hidne i ⟨e, he, hi⟩
  · intro c hc r
    exact wf.hmem c (hsub.mem hc) r
  · intro c hc
    exact wf.rnodup c (hsub.mem hc)
  · intro k p hkp
    obtain ⟨hg, h1, h2⟩ := wf.psound k p hkp
    have hco : 1 ≤ coCount s.grid p.bodyA p.bodyB := by
      omega
    obtain ⟨e, he, hAe, hBe⟩ := exists_entry_of_coCount_pos hco
    obtain ⟨hgk, hgne, x0, hx0, y0, hy0, hxid, hyid, hcc0⟩ := hg
    refine ⟨⟨hgk, hgne, x0, hsurv x0 hx0 ?_, y0, hsurv y0 hy0 ?_, hxid, hyid, hcc0⟩,
      h1, h2⟩
    · rw [hxid]
      exact hidne p.bodyA ⟨e, he, hAe⟩
    · rw [hyid]
      exact hidne p.bodyB ⟨e, he, hBe⟩
  · intro x hx y hy hne hcc hco
    exact wf.pcomplete x (hsub.mem hx) y (hsub.mem hy) hne hcc hco

theorem gridWF_mutate (s : GridSt) (wf : GridWF s) (b b' : Body) (hb : b ∈ s.bodies)
    (hid : b'.id = b.id) (hty : b'.type = b.type) (hown : b'.ownerIdB = b.ownerIdB)
    (hreg : b'.regions = b.regions) :
    GridWF ⟨replaceBody s.bodies b', s.grid⟩ := by
  refine ⟨?_, wf.hkeys, wf.hlists, ?_, ?_, ?_, wf.pkeys, ?_, ?_⟩
  · rw [replaceBody_map_id]
    exact wf.idsN
  · intro e he i hi
    obtain ⟨z, hz, hzid⟩ := wf.howned e he i hi
    obtain ⟨z', hz', hzi, _, _⟩ := replace_attrs_fwd wf.idsN hb hid hty hown z hz
    exact ⟨z', hz', by rw [hzi, hzid]⟩
  · intro c hc r
    obtain ⟨x, hx, hcdef⟩ := replaceBody_mem_elim hc
    by_cases hxid : x.id = b'.id
    · rw [if_pos hxid] at hcdef
      have hxb : x = b := body_id_inj wf.idsN hx hb (by rw [hxid, hid])
      rw [hcdef]
      show b'.id ∈ _ ↔ _
      rw [hid, hreg]
      exact wf.hmem b hb r
    · rw [if_neg hxid] at hcdef
      rw [hcdef]
      exact wf.hmem x hx r
  · intro c hc
    obtain ⟨x, hx, hcdef⟩ := replaceBody_mem_elim hc
    by_cases hxid : x.id = b'.id
    · rw [if_pos hxid] at hcdef
      rw [hcdef]
      show (b'.regions.getD []).Nodup
      rw [hreg]
      exact wf.rnodup b hb
    · rw [if_neg hxid] at hcdef
      rw [hcdef]
      exact wf.rnodup x hx
  · intro k p hkp
    obtain ⟨hg, h1, h2⟩ := wf.psound k p hkp
    exact ⟨pairGood_sim (replace_attrs_fwd wf.idsN hb hid hty hown) hg, h1, h2⟩
  · exact pcomplete_sim (replace_attrs_bwd hb hid hty hown) wf.pcomplete

/-! ### The grid invariant holds in every reachable state -/

theorem gridWF_gstep {s s' : GridSt} (hs : GStep s s') (wf : GridWF s) : GridWF s' := by
  cases hs with
  | create b hid hreg => exact gridWF_create s wf b hid hreg
  | add b bounds hb hunreg => exact gridWF_add s wf b bounds hb hunreg
  | reindex b bounds old hb hreg => exact gridWF_reindex s wf b bounds old hb hreg
  | remove b hb => exact gridWF_remove s wf b hb
  | drop b hb hunreg => exact gridWF_drop s wf b hb hunreg
  | mutate b b' hb hid hty hown hreg => exact gridWF_mutate s wf b b' hb hid hty hown hreg

theorem gridWF_init : GridWF ⟨[], emptyGrid⟩ := by
  refine ⟨by simp, by simp [emptyGrid], ?_, ?_, ?_, ?_, by simp [emptyGrid], ?_, ?_⟩
  · intro e he
    cases he
  · intro e he
    cases he
  · intro b hb
    cases hb
  · intro b hb
    cases hb
  · intro k p hkp
    cases hkp
  · intro x hx
    cases hx

theorem gridWF_reachable (s : GridSt) (h : GridReachable s) : GridWF s := by
  induction h with
  | refl => exact gridWF_init
  | tail _ hstep ih => exact gridWF_gstep hstep ih

/-- C1: in every reachable grid state, every pair key present in
`grid.pairs` has a `count` field equal to the number of region keys in
whose `grid.hash` list both `bodyA` and `bodyB` currently appear; the
equality is preserved by every grid operation (initial registration,
re-index on region change, and `removeBody`). -/
theorem claim_c1_pair_counts_accurate (s : GridSt) (hs : GridReachable s) :
    pairCountsAccurate s.grid := by
  intro k p hkp
  exact ((gridWF_reachable s hs).psound k p hkp).2.2

/-- C1 (witness): after creating a static tile and an overlapping player
and registering both with the grid, the resulting concrete state is
reachable, its pair table satisfies the invariant, and it actually holds
the pair of the two bodies with count 1. -/
theorem claim_c1_witness :
    pairCountsAccurate cxGS4.grid ∧
      ((1, 2), (⟨2, 1, 1⟩ : GPair)) ∈ cxGS4.grid.pairs :=
  ⟨claim_c1_pair_counts_accurate cxGS4
    (Relation.ReflTransGen.tail
      (Relation.ReflTransGen.tail
        (Relation.ReflTransGen.tail
          (Relation.ReflTransGen.single
            (GStep.create ⟨[], emptyGrid⟩ cxGA (by decide) rfl))
          (GStep.create ⟨[] ++ [cxGA], emptyGrid⟩ cxGB (by decide) rfl))
        (GStep.add cxGS2 cxGA cxGA.bounds (by decide) rfl))
      (GStep.add cxGS3 cxGB cxGB.bounds (by decide) rfl)),
    by decide⟩
